import Mathlib

/-!
# clink: match types and the matches lookaside table

A shallow embedding of `lib/include/lib/matches.h` and
`lib/src/matches_lookaside.cpp`.

Conventions of the embedding.

* A `char`, `uint8` or `BYTE` is a `Nat` below 256 holding the bit pattern; a
  `match_type` (an `unsigned short`) is a `Nat` below 65536.
* A `const char*` argument of `pack_match` is an `Option (List Nat)`: `none` is
  the null pointer, `some s` points at the bytes `s`.  The terminating NUL is
  the end of the list; a `0` inside the list terminates the string earlier, as
  it does in C.
* In the lookaside table strings and arrays are known by their address only
  (`Ptr`, `0` being the null pointer); what is stored at an address is read
  from an `Env`.
* `debug` says whether the build defines `DEBUG`.  The file only compiles
  without `DEBUG` when `assert` expands to nothing (`pack_match` asserts on
  `orig_buffer`, which only exists under `DEBUG`), so `debug` also says whether
  assertions are evaluated.  A function that can hit an assertion returns an
  `Option`: `none` means an assertion failed and the process was aborted.
-/

namespace Clink

/-! ## matches.h -/

namespace match_type

def invalid : Nat := 0
def none : Nat := 1
def word : Nat := 2
def arg : Nat := 3
def cmd : Nat := 4
def alias_ : Nat := 5
def file : Nat := 6
def dir : Nat := 7
def END : Nat := 8
def mask : Nat := 0x0007
def link : Nat := 0x0010
def orphaned : Nat := 0x0020
def hidden : Nat := 0x0040
def readonly : Nat := 0x0080
def system : Nat := 0x0100

end match_type

/-- The `inline bool is_pathish(match_type type)` of matches.h. -/
def is_pathish (type : Nat) : Bool :=
  let type := type &&& match_type.mask
  type == match_type.file || type == match_type.dir

/-! ## matches_lookaside.cpp: packing -/

/-- The body of the `while (char c = *(match++))` loop of
`append_string_into_buffer`: the character stored for `c`. -/
def sanitize_char (allow_tabs : Bool) (c : Nat) : Nat :=
  if c == 13 || c == 10 || (c == 9 && !allow_tabs) then 32 else c

/-- The `while (char c = *(match++))` loop of `append_string_into_buffer`;
`buffer` is what has been written so far, the cursor being its end. -/
def append_chars (allow_tabs : Bool) : List Nat → List Nat → List Nat
  | buffer, [] => buffer
  | buffer, c :: rest =>
    if c = 0 then buffer
    else append_chars allow_tabs (buffer ++ [sanitize_char allow_tabs c]) rest

/-- The function `append_string_into_buffer(char*& buffer, const char* match,
bool allow_tabs)`: returns the offset it started at and the advanced buffer. -/
def append_string_into_buffer (buffer : List Nat) (match_ : Option (List Nat))
    (allow_tabs : Bool) : Nat × List Nat :=
  let ret := buffer.length
  let buffer :=
    match match_ with
    | some s => append_chars allow_tabs buffer s
    | Option.none => buffer
  (ret, buffer ++ [0])

/-- The C `strlen`: the number of bytes before the first NUL. -/
def strlen : List Nat → Nat
  | [] => 0
  | c :: rest => if c = 0 then 0 else strlen rest + 1

/-- The `strlen` of a nullable pointer guarded by `if (p)`. -/
def strlen_if : Option (List Nat) → Nat
  | some s => strlen s
  | Option.none => 0

/-- The function `calc_packed_size(match, display, description)`. -/
def calc_packed_size (debug : Bool) (match_ display description : Option (List Nat)) : Nat :=
  let alloc_size := 3
  let alloc_size := alloc_size + 2
  let alloc_size := alloc_size + 1
  let alloc_size := alloc_size + 1
  let alloc_size := alloc_size + strlen_if match_
  let alloc_size := if debug then alloc_size + 4 else alloc_size
  let alloc_size := alloc_size + strlen_if display
  let alloc_size := alloc_size + strlen_if description
  alloc_size

/-- The macro `LOBYTE(w)`. -/
def LOBYTE (w : Nat) : Nat := w &&& 0xff

/-- The macro `HIBYTE(w)`. -/
def HIBYTE (w : Nat) : Nat := (w >>> 8) &&& 0xff

/-- The read `*p` of a `const char*` into a string: the byte at index `i`, bytes past
the end of the list reading as NUL. -/
def char_at (s : List Nat) (i : Nat) : Nat := s.getD i 0

/-- What `pack_match` hands back: the returned `bool` and the bytes written
into `buffer` from its start. -/
structure pack_result where
  ret : Bool
  buffer : List Nat
  deriving DecidableEq, Repr

/-- The function `pack_match(buffer, packed_size, match, type, display,
description, append_char, flags)`.  `allow_tabs` is the default argument of
`append_string_into_buffer`, declared in matches_lookaside.h. -/
def pack_match (debug allow_tabs : Bool) (packed_size : Nat)
    (match_ : Option (List Nat)) (type : Nat) (display description : Option (List Nat))
    (append_char flags : Nat) : Option pack_result :=
  if debug && !(match_.isSome || display.isSome) then Option.none
  else
    let buffer : List Nat := []
    if match_.isSome && char_at (match_.getD []) 0 == 0 then
      some ⟨false, buffer⟩
    else
      let buffer := (append_string_into_buffer buffer match_ allow_tabs).2
      if display.isSome && char_at (display.getD []) 0 == 0 then
        some ⟨false, buffer⟩
      else
        let buffer := buffer ++ [LOBYTE type]
        let buffer := buffer ++ [HIBYTE type]
        let buffer := buffer ++ [append_char]
        let buffer := buffer ++ [flags]
        let buffer := if debug then buffer ++ [58, 76, 65, 58] else buffer
        let buffer := (append_string_into_buffer buffer display allow_tabs).2
        let buffer := (append_string_into_buffer buffer description allow_tabs).2
        if debug && !(packed_size == buffer.length) then Option.none
        else some ⟨true, buffer⟩

/-! ## matches_lookaside.cpp: parsing and the registry -/

/-- An address; `0` is the null pointer. -/
abbrev Ptr := Nat

/-- Modelled from the spec: the `struct match_extra` declared in
matches_lookaside.h.  The spec describes it as the parsed out-of-band record
(type, append char, flags byte, byte offsets of the display and of the
description); these are the fields `matches_lookaside.cpp` reads and writes, in
the order of the initialiser of `s_empty_extra`. -/
structure match_extra where
  display_offset : Nat
  description_offset : Nat
  type : Nat
  append_char : Nat
  flags : Nat
  deriving DecidableEq, Repr

/-- The constant `match_details::s_empty_extra = { 0, 0, match_type::none }`. -/
def s_empty_extra : match_extra := ⟨0, 0, match_type.none, 0, 0⟩

/-- The class `match_details`, built by
`match_details::match_details(match, extra)`. -/
structure match_details where
  m_match : Ptr
  m_extra : match_extra
  deriving DecidableEq, Repr

/-- The constructor `match_details::match_details(match, extra)`. -/
def match_details.new (match_ : Ptr) (extra : match_extra) : match_details :=
  ⟨match_, if match_ ≠ 0 then extra else s_empty_extra⟩

/-- What the code reads from outside itself during one call: `str p` is the
memory a `const char* p` points at, `arr a` the elements of the `char**` array
at `a` up to its terminating null, `alloc k` whether the `k`-th
`m_allocator.alloc` of a table under construction returns memory, and `readstr`
is `RL_ISSTATE(RL_STATE_READSTR)`. -/
structure Env where
  str : Ptr → List Nat
  arr : Ptr → List Ptr
  alloc : Nat → Bool
  readstr : Bool

/-- The C `tolower` on a byte. -/
def tolower (c : Nat) : Nat := if 65 ≤ c ∧ c ≤ 90 then c + 32 else c

/-- The test `strnicmp(match + len, ":LA:", 4) == 0`. -/
def is_magic (s : List Nat) (len : Nat) : Bool :=
  tolower (char_at s len) == 58 && tolower (char_at s (len + 1)) == 108 &&
  tolower (char_at s (len + 2)) == 97 && tolower (char_at s (len + 3)) == 58

/-- Lines 170 to 182 of `matches_lookaside::add`: the `match_extra` parsed from
the record stored at `match`. -/
def parse_extra (debug : Bool) (s : List Nat) : Option match_extra :=
  let len := strlen s + 1
  let lo_type := char_at s len % 256
  let hi_type := char_at s (len + 1) % 256
  let type := (lo_type ||| (hi_type <<< 8)) % 65536
  let append_char := char_at s (len + 2)
  let flags := char_at s (len + 3) % 256
  let len := len + 4
  if debug && !is_magic s len then Option.none
  else
    let len := if debug then len + 4 else len
    some {
      display_offset := len % 65536
      description_offset := (len + strlen (s.drop len) + 1) % 65536
      type := type
      append_char := append_char
      flags := flags }

/-- The class `matches_lookaside`: the array it belongs to and its
`unordered_map` from string address to `match_extra`. -/
structure matches_lookaside where
  m_matches : Ptr
  m_map : List (Ptr × match_extra)
  deriving DecidableEq, Repr

/-- The method `matches_lookaside::associated`. -/
def matches_lookaside.associated (self : matches_lookaside) (matches_ : Ptr) : Bool :=
  matches_ == self.m_matches

/-- The method `matches_lookaside::find`. -/
def matches_lookaside.find (self : matches_lookaside) (match_ : Ptr) : Option match_extra :=
  match self.m_map.find? (fun kv => kv.1 == match_) with
  | some kv => some kv.2
  | Option.none => Option.none

/-- The call `m_map.emplace(key, extra)`: a key already present keeps its
entry. -/
def emplace (m : List (Ptr × match_extra)) (key : Ptr) (extra : match_extra) :
    List (Ptr × match_extra) :=
  if m.any (fun kv => kv.1 == key) then m else m ++ [(key, extra)]

/-- The method `matches_lookaside::add`, called for the `k`-th time on the
table. -/
def matches_lookaside.add (debug : Bool) (env : Env) (k : Nat)
    (self : matches_lookaside) (match_ : Ptr) : Option (Bool × matches_lookaside) :=
  if match_ = 0 then some (false, self)
  else if !env.alloc k then some (false, self)
  else
    match parse_extra debug (env.str match_) with
    | Option.none => Option.none
    | some extra => some (true, { self with m_map := emplace self.m_map match_ extra })

/-- The loop `while (add(*(++matches))) {}` of the constructor over the
elements that follow; running off the list reads the terminating null. -/
def add_loop (debug : Bool) (env : Env) :
    Nat → List Ptr → matches_lookaside → Option matches_lookaside
  | k, [], self =>
    match matches_lookaside.add debug env k self 0 with
    | some (_, self) => some self
    | Option.none => Option.none
  | k, p :: rest, self =>
    match matches_lookaside.add debug env k self p with
    | Option.none => Option.none
    | some (false, self) => some self
    | some (true, self) => add_loop debug env (k + 1) rest self

/-- The constructor `matches_lookaside::matches_lookaside(char** matches)`. -/
def matches_lookaside.new (debug : Bool) (env : Env) (matches_ : Ptr) :
    Option matches_lookaside :=
  let self : matches_lookaside := ⟨matches_, []⟩
  if debug && matches_ == 0 then Option.none
  else if (env.arr matches_).getD 1 0 ≠ 0 then
    add_loop debug env 0 ((env.arr matches_).drop 1) self
  else some self

/-- The globals of matches_lookaside.cpp: the list `s_lookasides` and the
one-off slot `s_match`, `s_extra`. -/
structure State where
  s_lookasides : List matches_lookaside
  s_match : Ptr
  s_extra : match_extra
  deriving DecidableEq, Repr

/-- The globals at program start. -/
def State.init : State := ⟨[], 0, ⟨0, 0, 0, 0, 0⟩⟩

/-- The `for (auto iter : s_lookasides)` loop of `lookup_match`. -/
def lookup_tables : List matches_lookaside → Ptr → Option match_extra
  | [], _ => Option.none
  | t :: rest, match_ =>
    match t.find match_ with
    | some extra => some extra
    | Option.none => lookup_tables rest match_

/-- The function `lookup_match(match)`. -/
def lookup_match (debug : Bool) (env : Env) (st : State) (match_ : Ptr) :
    Option match_details :=
  if debug && match_ == 0 then Option.none
  else if st.s_match = match_ then some (match_details.new st.s_match st.s_extra)
  else
    match lookup_tables st.s_lookasides match_ with
    | some extra => some (match_details.new match_ extra)
    | Option.none =>
      if debug && !env.readstr then Option.none
      else some (match_details.new 0 s_empty_extra)

/-- The `assert(!iter->associated(matches))` loop of
`create_matches_lookaside`. -/
def none_associated (l : List matches_lookaside) (matches_ : Ptr) : Bool :=
  l.all (fun t => !t.associated matches_)

/-- The function `create_matches_lookaside(matches)`. -/
def create_matches_lookaside (debug : Bool) (env : Env) (st : State) (matches_ : Ptr) :
    Option (Bool × State) :=
  if matches_ = 0 then some (false, st)
  else if debug && !(decide (st.s_lookasides.length ≤ 5)) then Option.none
  else if debug && !none_associated st.s_lookasides matches_ then Option.none
  else
    match matches_lookaside.new debug env matches_ with
    | Option.none => Option.none
    | some lookaside => some (true, { st with s_lookasides := lookaside :: st.s_lookasides })

/-- The `for` loop of `destroy_matches_lookaside`: erases the first table
associated with `matches`, if there is one. -/
def erase_associated : List matches_lookaside → Ptr → Option (List matches_lookaside)
  | [], _ => Option.none
  | t :: rest, matches_ =>
    if t.associated matches_ then some rest
    else
      match erase_associated rest matches_ with
      | some rest => some (t :: rest)
      | Option.none => Option.none

/-- The function `destroy_matches_lookaside(matches)`. -/
def destroy_matches_lookaside (debug : Bool) (env : Env) (st : State) (matches_ : Ptr) :
    Option (Bool × State) :=
  if matches_ = 0 then some (false, st)
  else
    match erase_associated st.s_lookasides matches_ with
    | some l => some (true, { st with s_lookasides := l })
    | Option.none =>
      if debug && !env.readstr then Option.none
      else some (false, st)

/-- The function `set_matches_lookaside_oneoff(match, type, append_char,
flags)`. -/
def set_matches_lookaside_oneoff (st : State) (match_ : Ptr) (type append_char flags : Nat) :
    State :=
  { st with
    s_match := match_
    s_extra := { st.s_extra with type := type, append_char := append_char, flags := flags } }

/-- The function `clear_matches_lookaside_oneoff()`. -/
def clear_matches_lookaside_oneoff (st : State) : State :=
  { st with s_match := 0, s_extra := ⟨0, 0, 0, 0, 0⟩ }

/-- A call into the lookaside module. -/
inductive Call where
  | create (matches_ : Ptr)
  | destroy (matches_ : Ptr)
  | lookup (match_ : Ptr)
  | set_oneoff (match_ : Ptr) (type append_char flags : Nat)
  | clear_oneoff
  deriving DecidableEq, Repr

/-- What a call returns. -/
inductive Ret where
  | int32 (b : Bool)
  | details (d : match_details)
  | void
  deriving DecidableEq, Repr

/-- One call on the globals, in the environment of that moment. -/
def step (debug : Bool) (st : State) (env : Env) : Call → Option (Ret × State)
  | Call.create matches_ =>
    match create_matches_lookaside debug env st matches_ with
    | some (b, st) => some (Ret.int32 b, st)
    | Option.none => Option.none
  | Call.destroy matches_ =>
    match destroy_matches_lookaside debug env st matches_ with
    | some (b, st) => some (Ret.int32 b, st)
    | Option.none => Option.none
  | Call.lookup match_ =>
    match lookup_match debug env st match_ with
    | some d => some (Ret.details d, st)
    | Option.none => Option.none
  | Call.set_oneoff match_ type append_char flags =>
    some (Ret.void, set_matches_lookaside_oneoff st match_ type append_char flags)
  | Call.clear_oneoff => some (Ret.void, clear_matches_lookaside_oneoff st)

/-- A sequence of calls, each in its environment: the values returned and the
globals at the end. -/
def run (debug : Bool) : State → List (Env × Call) → Option (List Ret × State)
  | st, [] => some ([], st)
  | st, (env, c) :: rest =>
    match step debug st env c with
    | Option.none => Option.none
    | some (r, st) =>
      match run debug st rest with
      | Option.none => Option.none
      | some (rs, st) => some (r :: rs, st)

/-- Modelled from the spec: the accessor `match_details::get_type` declared in
matches_lookaside.h, the type of the looked-up record. -/
def match_details.get_type (self : match_details) : Nat := self.m_extra.type

/-- Modelled from the spec: the accessor `match_details::get_append_char`
declared in matches_lookaside.h, the append character of the looked-up record. -/
def match_details.get_append_char (self : match_details) : Nat := self.m_extra.append_char

/-- Modelled from the spec: the accessor `match_details::get_flags` declared in
matches_lookaside.h, the flags byte of the looked-up record. -/
def match_details.get_flags (self : match_details) : Nat := self.m_extra.flags

/-- The readline globals that `override_match_append` assigns, each an `int`. -/
structure Host where
  rl_completion_append_character : Int
  rl_completion_suppress_append : Int
  rl_filename_completion_desired : Int
  deriving DecidableEq, Repr

/-- The function `override_match_append(match)`.  The two flag masks
`MATCH_FLAG_HAS_SUPPRESS_APPEND` and `MATCH_FLAG_SUPPRESS_APPEND` are defined in
matches_lookaside.h and are parameters here. -/
def override_match_append (debug : Bool) (env : Env) (st : State)
    (MATCH_FLAG_HAS_SUPPRESS_APPEND MATCH_FLAG_SUPPRESS_APPEND : Nat)
    (host : Host) (match_ : Ptr) : Option Host :=
  match lookup_match debug env st match_ with
  | Option.none => Option.none
  | some details =>
    let host :=
      if details.get_append_char ≠ 0 then
        { host with rl_completion_append_character := ((details.get_append_char % 256 : Nat) : Int) }
      else host
    let host :=
      if details.get_flags &&& MATCH_FLAG_HAS_SUPPRESS_APPEND ≠ 0 then
        { host with rl_completion_suppress_append :=
            if details.get_flags &&& MATCH_FLAG_SUPPRESS_APPEND ≠ 0 then 1 else 0 }
      else host
    let host :=
      if host.rl_filename_completion_desired ≠ 0 then
        { host with rl_filename_completion_desired :=
            if is_pathish details.get_type then 1 else 0 }
      else host
    some host

/-! ## matches.h: shadow_bool -/

/-- The class `shadow_bool`. -/
structure shadow_bool where
  m_has_explicit : Bool
  m_explicit : Bool
  m_implicit : Bool
  m_default : Bool
  deriving DecidableEq, Repr

/-- The method `shadow_bool::reset`. -/
def shadow_bool.reset (self : shadow_bool) : shadow_bool :=
  { self with m_has_explicit := false, m_explicit := false, m_implicit := self.m_default }

/-- The constructor `shadow_bool(bool default_value)`: it sets `m_default` and
calls `reset`, which assigns the three other members. -/
def shadow_bool.new (default_value : Bool) : shadow_bool :=
  shadow_bool.reset ⟨false, false, false, default_value⟩

/-- The copy constructor `shadow_bool(const shadow_bool& o)`. -/
def shadow_bool.copy (o : shadow_bool) : shadow_bool :=
  ⟨o.m_has_explicit, o.m_explicit, o.m_implicit, o.m_default⟩

/-- The method `shadow_bool::set_explicit`. -/
def shadow_bool.set_explicit (self : shadow_bool) (value : Bool) : shadow_bool :=
  { self with m_explicit := value, m_has_explicit := true }

/-- The method `shadow_bool::set_implicit`. -/
def shadow_bool.set_implicit (self : shadow_bool) (value : Bool) : shadow_bool :=
  { self with m_implicit := value }

/-- The method `shadow_bool::get`. -/
def shadow_bool.get (self : shadow_bool) : Bool :=
  if self.m_has_explicit then self.m_explicit else self.m_implicit

/-- The method `shadow_bool::is_explicit`. -/
def shadow_bool.is_explicit (self : shadow_bool) : Bool := self.m_has_explicit

/-- A mutating call on a `shadow_bool`. -/
inductive shadow_call where
  | set_explicit (value : Bool)
  | set_implicit (value : Bool)
  | reset
  deriving DecidableEq, Repr

/-- One mutating call on a `shadow_bool`. -/
def shadow_bool.call (self : shadow_bool) : shadow_call → shadow_bool
  | shadow_call.set_explicit value => self.set_explicit value
  | shadow_call.set_implicit value => self.set_implicit value
  | shadow_call.reset => self.reset

/-- A sequence of mutating calls on a `shadow_bool`, first call first. -/
def shadow_bool.calls (self : shadow_bool) (cs : List shadow_call) : shadow_bool :=
  cs.foldl shadow_bool.call self

/-! ## word_classifications.cpp -/

/-- How a method of `word_classifications` ends: it returns, or one of its
assertions fails (diagnostic build), or it accesses an element outside
`m_info`, which is undefined behaviour. -/
inductive Outcome (α : Type) where
  | done (value : α)
  | assertion_failed
  | out_of_range
  deriving DecidableEq, Repr

namespace word_class

/-- Modelled from the spec: the enumerator `word_class::max` of
word_classifications.h, the number of semantic classes; `finish` asserts
statically that it is the number of entries of `c_faces`, which is 8. -/
def max : Nat := 8

/-- Modelled from the spec: the enumerator `word_class::invalid` of
word_classifications.h, the class of a token that is unclassified; it is not
below `max`, and 255 is taken for it. -/
def invalid : Nat := 255

end word_class

/-- Modelled from the spec: the `struct word_class_info` declared in
word_classifications.h, a token span `[start, end)` within the line buffer, its
semantic class (or unclassified), the has-argmatcher flag and the flush
(pending-merge) flag; these are the fields word_classifications.cpp reads and
writes, `start` and `end` being taken as `uint32` like the `index` and `length`
arguments they are computed from. -/
structure word_class_info where
  start : Nat
  end_ : Nat
  word_class : Nat
  argmatcher : Bool
  flush : Bool
  deriving DecidableEq, Repr

/-- The members of the class `word_classifications`: the token table `m_info`,
the face definitions, the face array `m_faces` (`none` is the null pointer) of
`m_length` bytes, and the map from definition string to face. -/
structure word_classifications where
  m_info : List word_class_info
  m_face_definitions : List (List Nat)
  m_faces : Option (List Nat)
  m_length : Nat
  m_face_map : List (List Nat × Nat)
  deriving DecidableEq, Repr

/-- The truncation of a sum or difference to `uint32`. -/
def u32 (x : Nat) : Nat := x % 4294967296

/-- The call `v.insert(v.begin() + pos, x)` on a `std::vector`. -/
def vector_insert {α : Type} (v : List α) (pos : Nat) (x : α) : List α :=
  v.take pos ++ x :: v.drop pos

/-- The method `word_classifications::is_word_classified`. -/
def word_classifications.is_word_classified (self : word_classifications)
    (word_index : Nat) : Bool :=
  if h : word_index < self.m_info.length then
    decide (self.m_info[word_index].word_class < word_class.max)
  else false

/-- The method `word_classifications::classify_word`; `to_word_class` is
declared in word_classifications.h and is a parameter here.  Without the
assertion an index outside the table is written through. -/
def word_classifications.classify_word (debug : Bool) (to_word_class : Nat → Nat)
    (self : word_classifications) (index wc : Nat) (overwrite : Bool) :
    Outcome word_classifications :=
  if debug && !(decide (index < self.m_info.length)) then Outcome.assertion_failed
  else if overwrite || !self.is_word_classified index then
    if h : index < self.m_info.length then
      Outcome.done { self with
        m_info := self.m_info.set index
          { self.m_info[index] with word_class := to_word_class wc } }
    else Outcome.out_of_range
  else Outcome.done self

/-- The method `word_classifications::break_word`. -/
def word_classifications.break_word (debug : Bool) (self : word_classifications)
    (index length : Nat) : Outcome word_classifications :=
  if h : index < self.m_info.length then
    let info := self.m_info[index]
    if debug && !(info.word_class == word_class.invalid) then Outcome.assertion_failed
    else if debug && !(!info.flush) then Outcome.assertion_failed
    else if debug && !(decide (length > 0) &&
        decide (length < u32 (info.end_ + 4294967296 - info.start))) then
      Outcome.assertion_failed
    else
      let next := info
      let next := { next with start := u32 (next.start + length) }
      let next := { next with argmatcher := false }
      let info := { info with end_ := u32 (info.start + length) }
      Outcome.done { self with
        m_info := vector_insert (self.m_info.set index info) (index + 1) next }
  else Outcome.done self

/-- The method `word_classifications::unbreak_word`; `assertimplies(a, b)` is
taken as `assert(!(a) || (b))`. -/
def word_classifications.unbreak_word (debug : Bool) (self : word_classifications)
    (index length : Nat) (skip_word : Bool) : Outcome word_classifications :=
  if h : index < self.m_info.length then
    let info := self.m_info[index]
    if skip_word then
      if h1 : index + 1 < self.m_info.length then
        let next := self.m_info[index + 1]
        if debug && !(u32 (info.start + length) == next.start) then Outcome.assertion_failed
        else
          let info := { info with flush := true }
          let info := { info with end_ := info.start }
          let next := { next with start := info.start }
          Outcome.done { self with
            m_info := (self.m_info.set index info).set (index + 1) next }
      else Outcome.out_of_range
    else
      let info := { info with end_ := u32 (info.start + length) }
      if debug && !(if h1 : index + 1 < self.m_info.length then
          decide (info.end_ ≤ self.m_info[index + 1].start) else true) then
        Outcome.assertion_failed
      else if debug && !(if index + 1 = self.m_info.length then
          decide (info.end_ ≤ self.m_length) else true) then
        Outcome.assertion_failed
      else Outcome.done { self with m_info := self.m_info.set index info }
  else Outcome.done self

/-- The constant `face_base`. -/
def face_base : Nat := 128

/-- The constant `face_max`. -/
def face_max : Nat := 100

/-- Modelled from the spec: the face `FACE_SPACE` of display_readline.h, the
unclassified default of the face array; `init` notes that space means not
classified, and `get_face` and `apply_face` write it as `' '`. -/
def FACE_SPACE : Nat := 32

/-- The faces that `finish` paints, defined in display_readline.h and
parameters here: the eight entries of `c_faces`, in the order of `word_class`,
and `FACE_ARGMATCHER`. -/
structure face_codes where
  FACE_OTHER : Nat
  FACE_UNRECOGNIZED : Nat
  FACE_EXECUTABLE : Nat
  FACE_COMMAND : Nat
  FACE_ALIAS : Nat
  FACE_ARGUMENT : Nat
  FACE_FLAG : Nat
  FACE_NONE : Nat
  FACE_ARGMATCHER : Nat
  deriving DecidableEq, Repr

/-- The table `c_faces` of `finish`. -/
def c_faces (fc : face_codes) : List Nat :=
  [fc.FACE_OTHER, fc.FACE_UNRECOGNIZED, fc.FACE_EXECUTABLE, fc.FACE_COMMAND, fc.FACE_ALIAS,
    fc.FACE_ARGUMENT, fc.FACE_FLAG, fc.FACE_NONE]

/-- The conversion `char(x)` of a `size_t`, as a bit pattern. -/
def to_char (x : Nat) : Nat := x % 256

/-- The call `m_face_map.find(sgr)`: the face stored for a definition string.
A string is the list of its bytes before the terminating NUL, and the map
compares strings by content, as the spec's interned table does. -/
def face_map_find (m : List (List Nat × Nat)) (sgr : List Nat) : Option Nat :=
  match m.find? (fun kv => kv.1 == sgr) with
  | some kv => some kv.2
  | Option.none => Option.none

/-- The call `m_face_map.emplace(key, face)`: a key already present keeps its
face. -/
def face_map_emplace (m : List (List Nat × Nat)) (key : List Nat) (face : Nat) :
    List (List Nat × Nat) :=
  if m.any (fun kv => kv.1 == key) then m else m ++ [(key, face)]

/-- The method `word_classifications::clear`. -/
def word_classifications.clear (_self : word_classifications) : word_classifications :=
  ⟨[], [], Option.none, 0, []⟩

/-- The loop of `init` over the face definitions of `face_defs`. -/
def init_face_defs : List (List Nat) → word_classifications → word_classifications
  | [], self => self
  | def_ :: rest, self =>
    let face := to_char (face_base + self.m_face_definitions.length)
    let self := { self with m_face_definitions := self.m_face_definitions ++ [def_] }
    let self := { self with m_face_map := face_map_emplace self.m_face_map def_ face }
    init_face_defs rest self

/-- The argument `face_defs` of `init`, a `const word_classifications*`: the
null pointer, the address of the object that is initialised, or the address of
another object, given by its value. -/
inductive face_defs_ptr where
  | null
  | self
  | other (fd : word_classifications)
  deriving DecidableEq, Repr

/-- The method `word_classifications::init`; `malloc_ok` says whether `malloc`
returns memory.  `clear()` runs before `face_defs` is read, so when `face_defs`
is the object itself the definitions read are those of the cleared object. -/
def word_classifications.init (malloc_ok : Bool) (self : word_classifications)
    (line_length : Nat) (face_defs : face_defs_ptr) : word_classifications :=
  let self := self.clear
  let self :=
    match face_defs with
    | face_defs_ptr.other fd => init_face_defs fd.m_face_definitions self
    | face_defs_ptr.self => init_face_defs self.m_face_definitions self
    | face_defs_ptr.null => self
  if line_length ≠ 0 then
    if malloc_ok then
      { self with
        m_faces := some (List.replicate line_length FACE_SPACE)
        m_length := u32 line_length }
    else self
  else self

/-- Modelled from the spec: the `struct word` of line_state.h, one token of an
externally tokenized command, of which `add_command` reads the offset and the
length. -/
structure word where
  offset : Nat
  length : Nat
  deriving DecidableEq, Repr

/-- The loop of `add_command` over the words of the line. -/
def add_command_loop : List word → List word_class_info → List word_class_info
  | [], m_info => m_info
  | w :: rest, m_info =>
    let start := w.offset
    let info : word_class_info :=
      { start := start
        end_ := u32 (start + w.length)
        word_class := word_class.invalid
        argmatcher := false
        flush := false }
    add_command_loop rest (m_info ++ [info])

/-- The method `word_classifications::add_command`, given the words of the
line: the returned index and the object afterwards. -/
def word_classifications.add_command (self : word_classifications) (words : List word) :
    Nat × word_classifications :=
  let index := u32 self.m_info.length
  (index, { self with m_info := add_command_loop words self.m_info })

/-- The body of the inner loop of `finish` at position `pos` of the face
array. -/
def finish_pos (fc : face_codes) (show_argmatchers : Bool) (info : word_class_info)
    (faces : List Nat) (pos : Nat) : Outcome (List Nat) :=
  if h : pos < faces.length then
    if faces[pos] == FACE_SPACE then
      if info.argmatcher && show_argmatchers then
        Outcome.done (faces.set pos fc.FACE_ARGMATCHER)
      else if info.word_class < word_class.max then
        Outcome.done (faces.set pos ((c_faces fc).getD info.word_class 0))
      else Outcome.done faces
    else Outcome.done faces
  else Outcome.out_of_range

/-- The inner loop of `finish`: `count` positions from `pos` on. -/
def finish_range (fc : face_codes) (show_argmatchers : Bool) (info : word_class_info) :
    Nat → Nat → List Nat → Outcome (List Nat)
  | 0, _, faces => Outcome.done faces
  | count + 1, pos, faces =>
    match finish_pos fc show_argmatchers info faces pos with
    | Outcome.done faces => finish_range fc show_argmatchers info count (pos + 1) faces
    | Outcome.assertion_failed => Outcome.assertion_failed
    | Outcome.out_of_range => Outcome.out_of_range

/-- The outer loop of `finish` over the tokens. -/
def finish_loop (fc : face_codes) (show_argmatchers : Bool) (m_length : Nat) :
    List word_class_info → List Nat → Outcome (List Nat)
  | [], faces => Outcome.done faces
  | info :: rest, faces =>
    let end_ := min info.end_ m_length
    match finish_range fc show_argmatchers info (end_ - info.start) info.start faces with
    | Outcome.done faces => finish_loop fc show_argmatchers m_length rest faces
    | Outcome.assertion_failed => Outcome.assertion_failed
    | Outcome.out_of_range => Outcome.out_of_range

/-- The method `word_classifications::finish`; a null `m_faces` has no byte
that can be indexed. -/
def word_classifications.finish (fc : face_codes) (self : word_classifications)
    (show_argmatchers : Bool) : Outcome word_classifications :=
  match finish_loop fc show_argmatchers self.m_length self.m_info (self.m_faces.getD []) with
  | Outcome.done faces =>
    Outcome.done { self with m_faces := self.m_faces.map (fun _ => faces) }
  | Outcome.assertion_failed => Outcome.assertion_failed
  | Outcome.out_of_range => Outcome.out_of_range

/-- The test `strncmp(a, b, n) == 0`: the bytes are compared up to `n` of
them, a difference or a NUL ending the comparison; bytes past the end of a
list read as NUL. -/
def strncmp_eq : List Nat → List Nat → Nat → Bool
  | _, _, 0 => true
  | a, b, n + 1 =>
    if a.headD 0 ≠ b.headD 0 then false
    else if a.headD 0 = 0 then true
    else strncmp_eq a.tail b.tail n

/-- The method `word_classifications::equals`; the `equals` of the definition
strings is taken as equality of their bytes. -/
def word_classifications.equals (self other : word_classifications) : Bool :=
  match self.m_faces, other.m_faces with
  | Option.none, Option.none => true
  | Option.none, some _ => false
  | some _, Option.none => false
  | some faces, some other_faces =>
    if self.m_face_definitions.length ≠ other.m_face_definitions.length then false
    else if self.m_length ≠ other.m_length then false
    else if !strncmp_eq faces other_faces self.m_length then false
    else
      (List.range self.m_face_definitions.length).reverse.all
        (fun ii => self.m_face_definitions.getD ii [] == other.m_face_definitions.getD ii [])

/-- The method `word_classifications::get_face`. -/
def word_classifications.get_face (self : word_classifications) (pos : Nat) : Nat :=
  if pos ≥ self.m_length then 32 else (self.m_faces.getD []).getD pos 0

/-- The method `word_classifications::get_face_output`: `none` is the null
pointer. -/
def word_classifications.get_face_output (self : word_classifications) (face : Nat) :
    Option (List Nat) :=
  let index := u32 (face % 256 + 4294967296 - 128)
  if index ≥ self.m_face_definitions.length then Option.none
  else self.m_face_definitions[index]?

/-- The method `word_classifications::ensure_face`: the returned face and the
object afterwards. -/
def word_classifications.ensure_face (self : word_classifications) (sgr : List Nat) :
    Nat × word_classifications :=
  match face_map_find self.m_face_map sgr with
  | some face => (face, self)
  | Option.none =>
    if self.m_face_definitions.length ≥ face_max then (0, self)
    else
      let face := to_char (face_base + self.m_face_definitions.length)
      let self := { self with m_face_definitions := self.m_face_definitions ++ [sgr] }
      let self := { self with m_face_map := face_map_emplace self.m_face_map sgr face }
      (face, self)

/-- The `while` loop of `apply_face`, `length` iterations at most, on the
face array; `start++` is taken in `uint32`. -/
def apply_face_loop (m_length face : Nat) (overwrite : Bool) :
    Nat → Nat → List Nat → Outcome (List Nat)
  | 0, _, faces => Outcome.done faces
  | length + 1, start, faces =>
    if start < m_length then
      if h : start < faces.length then
        let faces := if overwrite || faces[start] == 32 then faces.set start face else faces
        apply_face_loop m_length face overwrite length (u32 (start + 1)) faces
      else Outcome.out_of_range
    else Outcome.done faces

/-- The method `word_classifications::apply_face`; a null `m_faces` has no byte
that can be indexed. -/
def word_classifications.apply_face (self : word_classifications)
    (start length face : Nat) (overwrite : Bool) : Outcome word_classifications :=
  match apply_face_loop self.m_length face overwrite length start (self.m_faces.getD []) with
  | Outcome.done faces =>
    Outcome.done { self with m_faces := self.m_faces.map (fun _ => faces) }
  | Outcome.assertion_failed => Outcome.assertion_failed
  | Outcome.out_of_range => Outcome.out_of_range

/-- The loop of `flush_unbreak` from the iterator `it` on: a token with
`flush` set is erased, any other is stepped over. -/
def flush_unbreak_loop : List word_class_info → List word_class_info
  | [] => []
  | it :: rest =>
    if it.flush then flush_unbreak_loop rest
    else it :: flush_unbreak_loop rest

/-- The method `word_classifications::flush_unbreak`. -/
def word_classifications.flush_unbreak (self : word_classifications) : word_classifications :=
  { self with m_info := flush_unbreak_loop self.m_info }

/-- The move constructor `word_classifications(word_classifications&& other)`:
the constructed object and `other` afterwards.  The members of the new object
start out default-constructed; `m_face_map = std::move(m_face_map)` assigns the
new object's own map, which is empty, to itself, and the map of `other` is not
read before `other.clear()`. -/
def word_classifications.move (other : word_classifications) :
    word_classifications × word_classifications :=
  let self : word_classifications := ⟨[], [], Option.none, 0, []⟩
  let self := { self with m_info := other.m_info }
  let other := { other with m_info := [] }
  let self := { self with m_face_definitions := other.m_face_definitions }
  let other := { other with m_face_definitions := [] }
  let self := { self with m_faces := other.m_faces }
  let self := { self with m_length := other.m_length }
  let self := { self with m_face_map := self.m_face_map }
  let other := { other with m_faces := Option.none }
  let other := other.clear
  (self, other)

/-! ## rl_integration.cpp -/

/-- The readline globals that `update_rl_modes_from_matches` assigns, each an
`int`. -/
structure rl_modes where
  rl_filename_quoting_desired : Int
  rl_completion_suppress_quote : Int
  rl_completion_suppress_append : Int
  rl_completion_append_character : Int
  rl_filename_completion_desired : Int
  rl_filename_display_desired : Int
  deriving DecidableEq, Repr

/-- What `update_rl_modes_from_matches` reads through the virtual getters of
`matches` and from the iterator: the quoting-suppression mode (`int32`), the
suppress-append flag, the append character (the value of the `char`), the
force-quoting flag and the two `shadow_bool` of the iterator. -/
structure matches_modes where
  get_suppress_quoting : Int
  is_suppress_append : Bool
  get_append_character : Int
  get_force_quoting : Bool
  is_filename_completion_desired : shadow_bool
  is_filename_display_desired : shadow_bool
  deriving DecidableEq, Repr

/-- The function `update_rl_modes_from_matches(matches, iter, count)`; the
diagnostic printing changes no global. -/
def update_rl_modes_from_matches (rl : rl_modes) (m : matches_modes) : rl_modes :=
  let rl :=
    if m.get_suppress_quoting = 1 then { rl with rl_filename_quoting_desired := 0 }
    else if m.get_suppress_quoting = 2 then { rl with rl_completion_suppress_quote := 1 }
    else rl
  let rl := { rl with rl_completion_suppress_append := if m.is_suppress_append then 1 else 0 }
  let rl :=
    if m.get_append_character ≠ 0 then
      { rl with rl_completion_append_character := m.get_append_character }
    else rl
  let rl := { rl with
    rl_filename_completion_desired := if m.is_filename_completion_desired.get then 1 else 0 }
  let rl := { rl with
    rl_filename_display_desired := if m.is_filename_display_desired.get then 1 else 0 }
  let rl :=
    if rl.rl_filename_completion_desired = 0 && !m.get_force_quoting then
      { rl with rl_filename_quoting_desired := 0 }
    else rl
  rl

/-! ## matches.h: matches_iter -/

/-- Modelled from the spec: one match of a match store as `matches_iter` reads
it through `get_match` and `get_match_type`, declared in matches.h: its text
and its type. -/
structure match_entry where
  text : List Nat
  type : Nat
  deriving DecidableEq, Repr

/-- Modelled from the spec: the prefix test of the primary pass of
`matches_iter::next`, whose code is not under src/; `fold` is the case/fold
policy of the host locale, applied to every character. -/
def prefix_match (fold : Nat → Nat) (pattern text : List Nat) : Bool :=
  (pattern.map fold).isPrefixOf (text.map fold)

/-- Modelled from the spec: the substring-containment test of the secondary
pass of `matches_iter::next`: the pattern is a prefix of some tail of the
text. -/
def substring_match (fold : Nat → Nat) (pattern text : List Nat) : Bool :=
  text.tails.any (fun t => prefix_match fold pattern t)

/-- Modelled from the spec: the members of `matches_iter` declared in
matches.h that its iteration uses; `m_pattern` is `none` when `m_has_pattern`
is false, and `m_substring` says that the pattern has been expanded for the
secondary pass (`m_expanded_pattern`). -/
structure matches_iter where
  m_pattern : Option (List Nat)
  m_substring : Bool
  m_can_try_substring : Bool
  m_index : Nat
  m_next : Nat
  m_any_pathish : Bool
  m_all_pathish : Bool
  deriving DecidableEq, Repr

/-- Modelled from the spec: the constructor `matches_iter(matches, pattern)`,
with the default member initialisers of matches.h; the substring pass can be
tried when there is a pattern. -/
def matches_iter.new (pattern : Option (List Nat)) : matches_iter :=
  ⟨pattern, false, pattern.isSome, 0, 0, false, true⟩

/-- Modelled from the spec: whether the pass the iterator is in yields the
match `m`: every match without a pattern, a match with the pattern as a
prefix in the primary pass, a match containing the pattern in the secondary
pass. -/
def matches_iter.accepts (fold : Nat → Nat) (it : matches_iter) (m : match_entry) : Bool :=
  match it.m_pattern with
  | Option.none => true
  | some pattern =>
    if it.m_substring then substring_match fold pattern m.text
    else prefix_match fold pattern m.text

/-- Modelled from the spec: the scan of `matches_iter::next` over the matches
from `m_next` on, given as `rest`: each match visited is counted in the
"any pathish" and "all pathish" flags, and the scan stops at the first match
the pass yields, after which the substring pass is not tried. -/
def matches_iter.scan (fold : Nat → Nat) : matches_iter → List match_entry → Bool × matches_iter
  | it, [] => (false, { it with m_index := it.m_next })
  | it, m :: rest =>
    let it := { it with
      m_index := it.m_next
      m_next := it.m_next + 1
      m_any_pathish := it.m_any_pathish || is_pathish m.type
      m_all_pathish := it.m_all_pathish && is_pathish m.type }
    if it.accepts fold m then (true, { it with m_can_try_substring := false })
    else matches_iter.scan fold it rest

/-- Modelled from the spec: the method `matches_iter::next` on the match
store `ms`: the primary pass is prefix matching; if it yields nothing and at
least one visited match is pathish, `try_substring` starts the secondary
substring-containment pass over the same candidates. -/
def matches_iter.next (fold : Nat → Nat) (ms : List match_entry) (it : matches_iter) :
    Bool × matches_iter :=
  match matches_iter.scan fold it (ms.drop it.m_next) with
  | (true, it) => (true, it)
  | (false, it) =>
    if it.m_pattern.isSome && it.m_can_try_substring && it.m_any_pathish then
      matches_iter.scan fold
        { it with m_substring := true, m_can_try_substring := false, m_index := 0, m_next := 0 }
        ms
    else (false, it)

/-- Modelled from the spec: the matches an iteration yields: `next` is called
until it returns false, at most `fuel` times, and the match at `m_index` is
read after each call that returns true. -/
def matches_iter.collect (fold : Nat → Nat) (ms : List match_entry) :
    Nat → matches_iter → List match_entry
  | 0, _ => []
  | fuel + 1, it =>
    match matches_iter.next fold ms it with
    | (true, it) =>
      match ms[it.m_index]? with
      | some m => m :: matches_iter.collect fold ms fuel it
      | Option.none => []
    | (false, _) => []

/-! ## Vocabulary of the statements -/

/-- The bytes of a C string: those before the first NUL. -/
def text : List Nat → List Nat
  | [] => []
  | c :: rest => if c = 0 then [] else c :: text rest

/-- The bytes of a nullable C string, none for the null pointer. -/
def text_of : Option (List Nat) → List Nat
  | some s => text s
  | Option.none => []

/-- Whether a nullable C string is present but empty (`p && !*p`). -/
def present_but_empty : Option (List Nat) → Bool
  | some s => strlen s == 0
  | Option.none => false

/-- The NUL-terminated string found at offset `off` of the memory `s`. -/
def string_at (s : List Nat) (off : Nat) : List Nat := text (s.drop off)

/-- The bytes `append_string_into_buffer` stores for a nullable string, the
terminating NUL apart: its text, each character as the loop body stores it. -/
def stored_text (allow_tabs : Bool) (s : Option (List Nat)) : List Nat :=
  (text_of s).map (sanitize_char allow_tabs)

/-- The record of a match: stored match text, NUL, low and high byte of the
type, append char, flags, the magic mark in a diagnostic build, stored display,
NUL, stored description, NUL. -/
def packed_record (debug allow_tabs : Bool) (match_ : Option (List Nat)) (type : Nat)
    (display description : Option (List Nat)) (append_char flags : Nat) : List Nat :=
  stored_text allow_tabs match_ ++ [0] ++ [type % 256, type / 256 % 256, append_char, flags] ++
    (if debug then [58, 76, 65, 58] else []) ++
    stored_text allow_tabs display ++ [0] ++ stored_text allow_tabs description ++ [0]

/-- A sample environment: the array at every address is `[9, 10, 11, null, 12]`,
address 10 holds the record of the file "a" and every other address the record
of the directory "b" with append char "!", flags 3, display "d" and description
"e"; every allocation succeeds. -/
def sample_env : Env :=
  ⟨fun p => if p = 10 then [97, 0, 6, 0, 0, 0, 0, 0] else [98, 0, 7, 1, 33, 3, 100, 0, 101, 0],
    fun _ => [9, 10, 11, 0, 12], fun _ => true, false⟩

/-- An environment with empty arrays and strings, not in the read-string
state, in which every allocation succeeds. -/
def empty_env : Env := ⟨fun _ => [], fun _ => [], fun _ => true, false⟩

/-- The arrays that have a table, most recently created first. -/
def State.arrays (st : State) : List Ptr := st.s_lookasides.map (fun t => t.m_matches)

/-- Whether a sequence of calls consists of creations and destructions of
non-null arrays in which no array is created while it is in `live`, every
destruction is of an array in `live`, and no array is left in `live` at the
end; `live` lists the arrays created and not yet destroyed. -/
def well_paired : List Ptr → List (Env × Call) → Bool
  | live, [] => live.isEmpty
  | live, (_, Call.create a) :: rest =>
    a != 0 && !live.contains a && well_paired (a :: live) rest
  | live, (_, Call.destroy a) :: rest =>
    a != 0 && live.contains a && well_paired (live.erase a) rest
  | _, _ :: _ => false

/-- The value of the latest `set_explicit` not followed by a `reset`, in a
list of calls given latest call first. -/
def last_explicit_from_latest : List shadow_call → Option Bool
  | [] => Option.none
  | shadow_call.set_explicit value :: _ => some value
  | shadow_call.reset :: _ => Option.none
  | shadow_call.set_implicit _ :: earlier => last_explicit_from_latest earlier

/-- The value of the latest `set_implicit` not followed by a `reset`, in a
list of calls given latest call first. -/
def last_implicit_from_latest : List shadow_call → Option Bool
  | [] => Option.none
  | shadow_call.set_implicit value :: _ => some value
  | shadow_call.reset :: _ => Option.none
  | shadow_call.set_explicit _ :: earlier => last_implicit_from_latest earlier

/-- The value of the last `set_explicit` since the last `reset`, if there is
one, in a list of calls given first call first. -/
def last_explicit (cs : List shadow_call) : Option Bool := last_explicit_from_latest cs.reverse

/-- The value of the last `set_implicit` since the last `reset`, if there is
one, in a list of calls given first call first. -/
def last_implicit (cs : List shadow_call) : Option Bool := last_implicit_from_latest cs.reverse

/-- Whether the face map agrees with the face definitions: there are at most
`face_max` definitions and every entry of the map sends its string to
`face_base + i` for an index `i` at which the definitions hold that string. -/
def face_map_sound (s : word_classifications) : Bool :=
  decide (s.m_face_definitions.length ≤ face_max) &&
  s.m_face_map.all (fun kv =>
    decide (face_base ≤ kv.2) && s.m_face_definitions[kv.2 - face_base]? == some kv.1)

/-- A sequence of `ensure_face` calls, first call first: the faces returned
and the object at the end. -/
def ensure_faces : word_classifications → List (List Nat) → List Nat × word_classifications
  | s, [] => ([], s)
  | s, sgr :: rest =>
    ((s.ensure_face sgr).1 :: (ensure_faces (s.ensure_face sgr).2 rest).1,
      (ensure_faces (s.ensure_face sgr).2 rest).2)

/-- Whether every face definition has an entry in the face map. -/
def face_map_complete (s : word_classifications) : Bool :=
  s.m_face_definitions.all (fun d => (face_map_find s.m_face_map d).isSome)

/-- The face `finish` leaves at a position of a token's span that held `x`:
an unclassified position gets the argmatcher face or the face of the token's
class, and stays as it is for a token without a class. -/
def paint_face (fc : face_codes) (show_argmatchers : Bool) (info : word_class_info)
    (x : Nat) : Nat :=
  if x = FACE_SPACE then
    if info.argmatcher && show_argmatchers then fc.FACE_ARGMATCHER
    else if info.word_class < word_class.max then (c_faces fc).getD info.word_class 0
    else x
  else x

/-- The face at position `p` after the tokens are painted in turn, each on
the positions of its span below `m_length`, from the face `x`. -/
def finish_face (fc : face_codes) (show_argmatchers : Bool) (m_length : Nat) :
    List word_class_info → Nat → Nat → Nat
  | [], _, x => x
  | info :: rest, p, x =>
    finish_face fc show_argmatchers m_length rest p
      (if info.start ≤ p ∧ p < min info.end_ m_length then
        paint_face fc show_argmatchers info x
      else x)

/-- Whether the spans of two tokens share no position. -/
def spans_disjoint (a b : word_class_info) : Bool :=
  decide (a.end_ ≤ b.start ∨ b.end_ ≤ a.start ∨ a.end_ ≤ a.start ∨ b.end_ ≤ b.start)

/-! ## Strings and buffers -/

theorem strlen_eq_length_text (s : List Nat) : strlen s = (text s).length := by
  induction s with
  | nil => rfl
  | cons c rest ih =>
    by_cases h : c = 0
    · simp [strlen, text, h]
    · simp [strlen, text, h, ih]

theorem text_ne_zero (s : List Nat) : ∀ c ∈ text s, c ≠ 0 := by
  induction s with
  | nil => simp [text]
  | cons c rest ih =>
    by_cases h : c = 0
    · simp [text, h]
    · intro x hx
      simp only [text, h, if_false, List.mem_cons] at hx
      rcases hx with hx | hx
      · exact hx ▸ h
      · exact ih x hx

theorem sanitize_char_ne_zero (allow_tabs : Bool) (c : Nat) (h : c ≠ 0) :
    sanitize_char allow_tabs c ≠ 0 := by
  unfold sanitize_char
  split <;> simp [h]

theorem append_chars_eq (allow_tabs : Bool) (s : List Nat) :
    ∀ buffer, append_chars allow_tabs buffer s =
      buffer ++ (text s).map (sanitize_char allow_tabs) := by
  induction s with
  | nil => intro buffer; simp [append_chars, text]
  | cons c rest ih =>
    intro buffer
    by_cases h : c = 0
    · simp [append_chars, text, h]
    · simp [append_chars, text, h, ih]

theorem append_string_into_buffer_eq (allow_tabs : Bool) (buffer : List Nat)
    (s : Option (List Nat)) :
    (append_string_into_buffer buffer s allow_tabs).2 =
      buffer ++ (text_of s).map (sanitize_char allow_tabs) ++ [0] := by
  cases s with
  | none => simp [append_string_into_buffer, text_of]
  | some s => simp [append_string_into_buffer, text_of, append_chars_eq]

theorem char_at_zero_eq (s : List Nat) : (char_at s 0 == 0) = (strlen s == 0) := by
  cases s with
  | nil => rfl
  | cons c rest =>
    by_cases h : c = 0
    · simp [char_at, strlen, h]
    · simp [char_at, strlen, h]

theorem text_append_zero (a b : List Nat) (h : ∀ c ∈ a, c ≠ 0) : text (a ++ 0 :: b) = a := by
  induction a with
  | nil => simp [text]
  | cons c rest ih =>
    have hc : c ≠ 0 := h c (List.mem_cons_self _ _)
    have hr : ∀ x ∈ rest, x ≠ 0 := fun x hx => h x (List.mem_cons_of_mem _ hx)
    simp [text, hc, ih hr]

theorem char_at_append (a b : List Nat) (k : Nat) :
    char_at (a ++ b) (a.length + k) = char_at b k := by
  induction a with
  | nil => simp
  | cons c rest ih =>
    simp only [char_at] at ih ⊢
    rw [List.cons_append, List.length_cons, Nat.add_right_comm, List.getD_cons_succ]
    exact ih

theorem drop_append_length (a b : List Nat) (k : Nat) :
    (a ++ b).drop (a.length + k) = b.drop k := by
  induction a with
  | nil => simp
  | cons c rest ih =>
    rw [List.cons_append, List.length_cons, Nat.add_right_comm, List.drop_succ_cons]
    exact ih

theorem LOBYTE_eq (w : Nat) : LOBYTE w = w % 256 := by
  unfold LOBYTE
  exact Nat.and_pow_two_sub_one_eq_mod w 8

theorem HIBYTE_eq (w : Nat) : HIBYTE w = w / 256 % 256 := by
  unfold HIBYTE
  rw [Nat.shiftRight_eq_div_pow]
  exact Nat.and_pow_two_sub_one_eq_mod (w / 2 ^ 8) 8

theorem present_but_empty_eq (s : Option (List Nat)) :
    (s.isSome && char_at (s.getD []) 0 == 0) = present_but_empty s := by
  cases s with
  | none => rfl
  | some s => simp [present_but_empty, char_at_zero_eq]

theorem pack_match_eq (debug allow_tabs : Bool) (packed_size : Nat)
    (match_ : Option (List Nat)) (type : Nat) (display description : Option (List Nat))
    (append_char flags : Nat) :
    pack_match debug allow_tabs packed_size match_ type display description append_char flags =
      if debug && !(match_.isSome || display.isSome) then Option.none
      else if present_but_empty match_ then some ⟨false, []⟩
      else if present_but_empty display then some ⟨false, stored_text allow_tabs match_ ++ [0]⟩
      else if debug && !(packed_size ==
          (packed_record debug allow_tabs match_ type display description append_char flags).length)
        then Option.none
      else some ⟨true,
        packed_record debug allow_tabs match_ type display description append_char flags⟩ := by
  unfold pack_match
  simp only [present_but_empty_eq, append_string_into_buffer_eq, LOBYTE_eq, HIBYTE_eq]
  cases debug <;> simp [packed_record, stored_text]

theorem length_stored_text (allow_tabs : Bool) (s : Option (List Nat)) :
    (stored_text allow_tabs s).length = strlen_if s := by
  cases s with
  | none => rfl
  | some s => simp [stored_text, text_of, strlen_if, strlen_eq_length_text]

theorem length_packed_record (debug allow_tabs : Bool) (match_ : Option (List Nat)) (type : Nat)
    (display description : Option (List Nat)) (append_char flags : Nat) :
    (packed_record debug allow_tabs match_ type display description append_char flags).length =
      calc_packed_size debug match_ display description := by
  cases debug <;>
    simp [packed_record, calc_packed_size, length_stored_text] <;> omega

theorem type_bytes_roundtrip (t : Nat) :
    (t % 256 ||| ((t / 256 % 256) <<< 8)) % 65536 = t % 65536 := by
  have h : t % 256 < 2 ^ 8 := Nat.mod_lt _ (by decide)
  rw [Nat.or_comm, Nat.shiftLeft_eq, Nat.mul_comm, ← Nat.mul_add_lt_is_or h]
  omega

theorem stored_text_ne_zero (allow_tabs : Bool) (s : Option (List Nat)) :
    ∀ c ∈ stored_text allow_tabs s, c ≠ 0 := by
  intro c hc
  simp only [stored_text, List.mem_map] at hc
  obtain ⟨x, hx, rfl⟩ := hc
  apply sanitize_char_ne_zero
  cases s with
  | none => simp [text_of] at hx
  | some s => exact text_ne_zero s x hx

theorem strlen_append_zero (a b : List Nat) (h : ∀ c ∈ a, c ≠ 0) :
    strlen (a ++ 0 :: b) = a.length := by
  rw [strlen_eq_length_text, text_append_zero a b h]

theorem parse_extra_packed (debug allow_tabs : Bool) (match_ : Option (List Nat)) (type : Nat)
    (display description : Option (List Nat)) (append_char flags : Nat) :
    parse_extra debug
        (packed_record debug allow_tabs match_ type display description append_char flags) =
      some {
        display_offset := (strlen_if match_ + 5 + (if debug then 4 else 0)) % 65536
        description_offset :=
          (strlen_if match_ + 5 + (if debug then 4 else 0) + strlen_if display + 1) % 65536
        type := type % 65536
        append_char := append_char
        flags := flags % 256 } := by
  have hsplit : ∀ dbg : Bool,
      packed_record dbg allow_tabs match_ type display description append_char flags =
      stored_text allow_tabs match_ ++ 0 :: ([type % 256, type / 256 % 256, append_char, flags] ++
        ((if dbg then [58, 76, 65, 58] else []) ++
        (stored_text allow_tabs display ++ 0 :: (stored_text allow_tabs description ++ [0])))) := by
    intro dbg; simp [packed_record]
  have hlen := length_stored_text allow_tabs match_
  have hA := stored_text_ne_zero allow_tabs match_
  have hD := stored_text_ne_zero allow_tabs display
  have hc : ∀ (tail : List Nat) (k : Nat),
      char_at (stored_text allow_tabs match_ ++ 0 :: tail) (strlen_if match_ + 1 + k) =
        char_at tail k := by
    intro tail k
    rw [← hlen, Nat.add_assoc, char_at_append]
    simp [char_at, Nat.add_comm 1 k]
  have hd : ∀ (tail : List Nat) (k : Nat),
      (stored_text allow_tabs match_ ++ 0 :: tail).drop (strlen_if match_ + 1 + k) =
        tail.drop k := by
    intro tail k
    rw [← hlen, Nat.add_assoc, drop_append_length]
    simp [Nat.add_comm 1 k]
  unfold parse_extra
  rw [hsplit, strlen_append_zero _ _ hA, hlen]
  cases debug
  · simp only [Bool.false_and, Bool.false_eq_true, if_false, List.nil_append]
    rw [hd, hc _ 1, hc _ 2, hc _ 3]
    rw [show strlen_if match_ + 1 = strlen_if match_ + 1 + 0 from rfl, hc _ 0]
    simp [char_at, strlen_append_zero _ _ hD, length_stored_text, type_bytes_roundtrip]
  · have e : ∀ a b : Nat, strlen_if match_ + 1 + a + b = strlen_if match_ + 1 + (a + b) :=
      fun a b => Nat.add_assoc _ _ _
    simp only [Bool.true_and, if_true, is_magic, e, Nat.reduceAdd, hc, hd]
    rw [show strlen_if match_ + 1 = strlen_if match_ + 1 + 0 from rfl, hc _ 0]
    simp [char_at, tolower, strlen_append_zero _ _ hD, length_stored_text, type_bytes_roundtrip]
    congr 1; omega

theorem and_mask_or_flags (t f : Nat) (hf : f &&& 7 = 0) : (t ||| f) &&& 7 = t &&& 7 := by
  rw [Nat.and_distrib_right, hf]; simp

theorem and_mask_clear_flags (t f : Nat) (hf : f &&& 7 = 0) :
    (t &&& (0xffff ^^^ f)) &&& 7 = t &&& 7 := by
  have h2 : (0xffff : Nat) &&& 7 = 7 := by decide
  rw [Nat.and_assoc, Nat.and_xor_distrib_right, hf, h2]; simp

theorem flag_bits_and_mask (g : Nat) :
    (g &&& (match_type.link ||| match_type.orphaned ||| match_type.hidden |||
      match_type.readonly ||| match_type.system)) &&& 7 = 0 := by
  have h : (match_type.link ||| match_type.orphaned ||| match_type.hidden |||
      match_type.readonly ||| match_type.system) &&& 7 = 0 := by decide
  rw [Nat.and_assoc, h]; simp

/-! ## Claims on `is_pathish` and on packing -/

/-- C1: `is_pathish(t)` is true exactly when the kind of `t`, that is `t`
masked with 0x0007, is `file` or `dir`; setting (`t | f`) or clearing
(`t & ~f`, on 16 bits) any combination `f` of the flag bits link, orphaned,
hidden, readonly and system leaves the result unchanged. -/
theorem is_pathish_iff_kind (t : Nat) :
    (is_pathish t = true ↔
      (t &&& 0x0007 = match_type.file ∨ t &&& 0x0007 = match_type.dir)) ∧
    (∀ g : Nat,
      is_pathish (t ||| (g &&& (match_type.link ||| match_type.orphaned ||| match_type.hidden |||
        match_type.readonly ||| match_type.system))) = is_pathish t ∧
      is_pathish (t &&& (0xffff ^^^ (g &&& (match_type.link ||| match_type.orphaned |||
        match_type.hidden ||| match_type.readonly ||| match_type.system)))) = is_pathish t) := by
  constructor
  · simp [is_pathish, match_type.mask]
  · intro g
    have hg := flag_bits_and_mask g
    simp only [is_pathish, match_type.mask, and_mask_or_flags _ _ hg,
      and_mask_clear_flags _ _ hg, and_self]

/-- C2, as stated, fails: packing the match "a" with an empty display is
rejected after 2 bytes were written, while `calc_packed_size` gives 8; an
empty match is rejected with nothing written, while `calc_packed_size`
gives 7. -/
theorem pack_match_size_rejected :
    pack_match false false 8 (some [97]) match_type.word (some []) Option.none 0 0 =
      some ⟨false, [97, 0]⟩ ∧
    calc_packed_size false (some [97]) (some []) Option.none = 8 ∧
    pack_match false false 7 (some []) match_type.word Option.none Option.none 0 0 =
      some ⟨false, []⟩ ∧
    calc_packed_size false (some []) Option.none Option.none = 7 := by
  decide

/-- C2, amended: for every combination of match, display and description in
which neither the match nor the display is present but empty, `pack_match`
returns true and the bytes it wrote number
`calc_packed_size(match, display, description)`; in a diagnostic build this
needs its two assertions to hold (match or display present, `packed_size` the
computed size). -/
theorem pack_match_size (debug allow_tabs : Bool) (packed_size : Nat)
    (match_ : Option (List Nat)) (type : Nat) (display description : Option (List Nat))
    (append_char flags : Nat)
    (hmatch : present_but_empty match_ = false)
    (hdisplay : present_but_empty display = false)
    (hpresent : debug = true → match_.isSome = true ∨ display.isSome = true)
    (hsize : debug = true → packed_size = calc_packed_size debug match_ display description) :
    ∃ buffer,
      pack_match debug allow_tabs packed_size match_ type display description append_char flags =
        some ⟨true, buffer⟩ ∧
      buffer.length = calc_packed_size debug match_ display description := by
  refine ⟨packed_record debug allow_tabs match_ type display description append_char flags,
    ?_, length_packed_record _ _ _ _ _ _ _ _⟩
  rw [pack_match_eq, length_packed_record]
  cases debug
  · simp [hmatch, hdisplay]
  · have h1 := hpresent rfl
    have h2 := hsize rfl
    simp [hmatch, hdisplay, h2]
    intro hm hd
    rcases h1 with h1 | h1
    · simp [hm] at h1
    · simp [hd] at h1

/-- C2, amended, at the match "ab" with display "c" and no description, in a
diagnostic build. -/
theorem pack_match_size_witness :
    ∃ buffer,
      pack_match true false 14 (some [97, 98]) match_type.file (some [99]) Option.none 0 0 =
        some ⟨true, buffer⟩ ∧
      buffer.length = calc_packed_size true (some [97, 98]) (some [99]) Option.none :=
  pack_match_size true false 14 (some [97, 98]) match_type.file (some [99]) Option.none 0 0
    (by decide) (by decide) (fun _ => Or.inl rfl) (fun _ => by decide)

/-- C3, as stated, fails: the match "a", LF, "b" is packed as "a", space, "b",
whatever the tab setting, so the buffer does not hold the match text bytes. -/
theorem pack_match_layout_newline :
    pack_match false false 10 (some [97, 10, 98]) match_type.word Option.none Option.none 0 0 =
      some ⟨true, [97, 32, 98, 0, 2, 0, 0, 0, 0, 0]⟩ ∧
    pack_match false true 10 (some [97, 10, 98]) match_type.word Option.none Option.none 0 0 =
      some ⟨true, [97, 32, 98, 0, 2, 0, 0, 0, 0, 0]⟩ ∧
    text_of (some [97, 10, 98]) ++ [0] ++ [match_type.word % 256, match_type.word / 256 % 256, 0, 0] ++
      text_of Option.none ++ [0] ++ text_of Option.none ++ [0] =
      [97, 10, 98, 0, 2, 0, 0, 0, 0, 0] := by
  decide

/-- C3, amended: whenever `pack_match` succeeds in a non-diagnostic build, the
buffer holds exactly the match text bytes, a NUL, the low byte of the type, the
high byte of the type, the append char, the flags byte, the display bytes, a
NUL, the description bytes, a NUL, where in the three texts every CR and LF,
and every TAB unless tabs are allowed, is stored as a space; an absent match,
display or description contributes a single NUL. -/
theorem pack_match_layout (allow_tabs : Bool) (packed_size : Nat)
    (match_ : Option (List Nat)) (type : Nat) (display description : Option (List Nat))
    (append_char flags : Nat) (r : pack_result)
    (h : pack_match false allow_tabs packed_size match_ type display description
      append_char flags = some r)
    (hret : r.ret = true) :
    r.buffer =
        (text_of match_).map (sanitize_char allow_tabs) ++ [0] ++
        [type % 256, type / 256 % 256, append_char, flags] ++
        (text_of display).map (sanitize_char allow_tabs) ++ [0] ++
        (text_of description).map (sanitize_char allow_tabs) ++ [0] ∧
      (∀ c, sanitize_char allow_tabs c =
        if c = 13 ∨ c = 10 ∨ (c = 9 ∧ allow_tabs = false) then 32 else c) ∧
      text_of Option.none = [] := by
  refine ⟨?_, ?_, rfl⟩
  · rw [pack_match_eq] at h
    simp only [Bool.false_and, Bool.false_eq_true, if_false] at h
    split at h
    · cases h; simp at hret
    · split at h
      · cases h; simp at hret
      · cases h; simp [packed_record, stored_text]
  · intro c
    cases allow_tabs <;> simp [sanitize_char, or_assoc]

/-- C3, amended, at the match "a", LF, "b" of type word. -/
theorem pack_match_layout_witness :
    ([97, 32, 98, 0, 2, 0, 0, 0, 0, 0] : List Nat) =
        (text_of (some [97, 10, 98])).map (sanitize_char false) ++ [0] ++
        [match_type.word % 256, match_type.word / 256 % 256, 0, 0] ++
        (text_of Option.none).map (sanitize_char false) ++ [0] ++
        (text_of Option.none).map (sanitize_char false) ++ [0] ∧
      (∀ c, sanitize_char false c =
        if c = 13 ∨ c = 10 ∨ (c = 9 ∧ false = false) then 32 else c) ∧
      text_of Option.none = [] :=
  pack_match_layout false 10 (some [97, 10, 98]) match_type.word Option.none Option.none 0 0
    ⟨true, [97, 32, 98, 0, 2, 0, 0, 0, 0, 0]⟩ (by decide) rfl

theorem find_nil (a : Ptr) (q : Ptr) : (matches_lookaside.mk a []).find q = Option.none := rfl

theorem find_cons (a : Ptr) (kv : Ptr × match_extra) (m : List (Ptr × match_extra)) (q : Ptr) :
    (matches_lookaside.mk a (kv :: m)).find q =
      if kv.1 = q then some kv.2 else (matches_lookaside.mk a m).find q := by
  unfold matches_lookaside.find
  by_cases h : kv.1 = q
  · simp [List.find?, h]
  · have hb : (kv.1 == q) = false := by simpa using h
    simp [List.find?, hb, h]

theorem find_append_single (a : Ptr) (m : List (Ptr × match_extra)) (p q : Ptr)
    (e : match_extra) :
    (matches_lookaside.mk a (m ++ [(p, e)])).find q =
      match (matches_lookaside.mk a m).find q with
      | some x => some x
      | Option.none => if p = q then some e else Option.none := by
  induction m with
  | nil => simp [find_cons, find_nil]
  | cons kv rest ih =>
    rw [List.cons_append, find_cons, find_cons]
    by_cases h : kv.1 = q
    · simp [h]
    · simp [h, ih]

theorem find_isSome_iff (a : Ptr) (m : List (Ptr × match_extra)) (p : Ptr) :
    ((matches_lookaside.mk a m).find p).isSome = m.any (fun kv => kv.1 == p) := by
  induction m with
  | nil => rfl
  | cons kv rest ih =>
    rw [find_cons]
    by_cases h : kv.1 = p
    · simp [h]
    · simp [h, ih]

theorem find_emplace (a : Ptr) (m : List (Ptr × match_extra)) (p q : Ptr) (e : match_extra) :
    (matches_lookaside.mk a (emplace m p e)).find q =
      if q = p ∧ (matches_lookaside.mk a m).find p = Option.none then some e
      else (matches_lookaside.mk a m).find q := by
  have hany := find_isSome_iff a m p
  unfold emplace
  cases hf : (matches_lookaside.mk a m).find p with
  | some x =>
    rw [hf] at hany
    simp [← hany]
  | none =>
    rw [hf] at hany
    have hany2 : (m.any fun kv => kv.1 == p) = false := by simpa using hany.symm
    simp only [hany2, Bool.false_eq_true, if_false, and_true, find_append_single]
    by_cases hq : q = p
    · subst hq; simp [hf]
    · simp only [hq, if_false, Ne.symm hq]
      cases (matches_lookaside.mk a m).find q <;> rfl

theorem pack_match_true (debug allow_tabs : Bool) (packed_size : Nat)
    (match_ : Option (List Nat)) (type : Nat) (display description : Option (List Nat))
    (append_char flags : Nat) (r : pack_result)
    (h : pack_match debug allow_tabs packed_size match_ type display description
      append_char flags = some r)
    (hret : r.ret = true) :
    r.buffer = packed_record debug allow_tabs match_ type display description append_char flags ∧
      present_but_empty match_ = false ∧ present_but_empty display = false := by
  rw [pack_match_eq] at h
  split at h
  · cases h
  · split at h
    · cases h; simp at hret
    · split at h
      · cases h; simp at hret
      · split at h
        · cases h
        · cases h
          refine ⟨rfl, ?_, ?_⟩
          · simpa using ‹¬present_but_empty match_ = true›
          · simpa using ‹¬present_but_empty display = true›

theorem add_of_parse (debug : Bool) (env : Env) (k : Nat) (self : matches_lookaside) (p : Ptr)
    (e : match_extra) (hp : p ≠ 0) (halloc : env.alloc k = true)
    (hparse : parse_extra debug (env.str p) = some e) :
    ∃ self', matches_lookaside.add debug env k self p = some (true, self') ∧
      self'.m_map = emplace self.m_map p e ∧
      (self.find p = Option.none → self'.find p = some e) := by
  refine ⟨{ self with m_map := emplace self.m_map p e }, ?_, rfl, ?_⟩
  · simp [matches_lookaside.add, hp, halloc, hparse]
  · intro hfresh
    cases self with
    | mk a m => simp [find_emplace, hfresh]

theorem text_append_single_zero (a : List Nat) (h : ∀ c ∈ a, c ≠ 0) : text (a ++ [0]) = a :=
  text_append_zero a [] h

theorem string_at_display (debug allow_tabs : Bool) (match_ : Option (List Nat)) (type : Nat)
    (display description : Option (List Nat)) (append_char flags : Nat) :
    string_at (packed_record debug allow_tabs match_ type display description append_char flags)
        (strlen_if match_ + 5 + (if debug then 4 else 0)) =
      stored_text allow_tabs display := by
  have hlen := length_stored_text allow_tabs match_
  unfold string_at packed_record
  cases debug
  · have e : stored_text allow_tabs match_ ++ [0] ++ [type % 256, type / 256 % 256, append_char, flags] ++
        (if false = true then [58, 76, 65, 58] else []) ++
        stored_text allow_tabs display ++ [0] ++ stored_text allow_tabs description ++ [0] =
        stored_text allow_tabs match_ ++ (0 :: type % 256 :: (type / 256 % 256) :: append_char ::
          flags :: (stored_text allow_tabs display ++ 0 :: (stored_text allow_tabs description ++ [0]))) := by
      simp
    rw [e, ← hlen, if_neg (by decide), Nat.add_zero, drop_append_length]
    exact text_append_zero _ _ (stored_text_ne_zero _ _)
  · have e : stored_text allow_tabs match_ ++ [0] ++ [type % 256, type / 256 % 256, append_char, flags] ++
        (if true = true then [58, 76, 65, 58] else []) ++
        stored_text allow_tabs display ++ [0] ++ stored_text allow_tabs description ++ [0] =
        stored_text allow_tabs match_ ++ (0 :: type % 256 :: (type / 256 % 256) :: append_char ::
          flags :: 58 :: 76 :: 65 :: 58 ::
          (stored_text allow_tabs display ++ 0 :: (stored_text allow_tabs description ++ [0]))) := by
      simp
    rw [e, ← hlen, if_pos rfl, Nat.add_assoc, drop_append_length]
    exact text_append_zero _ _ (stored_text_ne_zero _ _)

theorem string_at_description (debug allow_tabs : Bool) (match_ : Option (List Nat)) (type : Nat)
    (display description : Option (List Nat)) (append_char flags : Nat) :
    string_at (packed_record debug allow_tabs match_ type display description append_char flags)
        (strlen_if match_ + 5 + (if debug then 4 else 0) + strlen_if display + 1) =
      stored_text allow_tabs description := by
  have hlen := length_stored_text allow_tabs match_
  have hlen2 := length_stored_text allow_tabs display
  unfold string_at packed_record
  cases debug
  · have e : stored_text allow_tabs match_ ++ [0] ++ [type % 256, type / 256 % 256, append_char, flags] ++
        (if false = true then [58, 76, 65, 58] else []) ++
        stored_text allow_tabs display ++ [0] ++ stored_text allow_tabs description ++ [0] =
        (stored_text allow_tabs match_ ++ (0 :: type % 256 :: (type / 256 % 256) :: append_char ::
          flags :: stored_text allow_tabs display)) ++ (0 :: (stored_text allow_tabs description ++ [0])) := by
      simp
    have hl : strlen_if match_ + 5 + (if false = true then 4 else 0) + strlen_if display + 1 =
        (stored_text allow_tabs match_ ++ (0 :: type % 256 :: (type / 256 % 256) :: append_char ::
          flags :: stored_text allow_tabs display)).length + 1 := by
      simp [hlen, hlen2]; omega
    rw [e, hl, drop_append_length]
    exact text_append_single_zero _ (stored_text_ne_zero _ _)
  · have e : stored_text allow_tabs match_ ++ [0] ++ [type % 256, type / 256 % 256, append_char, flags] ++
        (if true = true then [58, 76, 65, 58] else []) ++
        stored_text allow_tabs display ++ [0] ++ stored_text allow_tabs description ++ [0] =
        (stored_text allow_tabs match_ ++ (0 :: type % 256 :: (type / 256 % 256) :: append_char ::
          flags :: 58 :: 76 :: 65 :: 58 :: stored_text allow_tabs display)) ++
          (0 :: (stored_text allow_tabs description ++ [0])) := by
      simp
    have hl : strlen_if match_ + 5 + (if true = true then 4 else 0) + strlen_if display + 1 =
        (stored_text allow_tabs match_ ++ (0 :: type % 256 :: (type / 256 % 256) :: append_char ::
          flags :: 58 :: 76 :: 65 :: 58 :: stored_text allow_tabs display)).length + 1 := by
      simp [hlen, hlen2]; omega
    rw [e, hl, drop_append_length]
    exact text_append_single_zero _ (stored_text_ne_zero _ _)

/-- C4: for every 16-bit type, append char and flags byte, parsing with
`matches_lookaside::add` a record written by a successful `pack_match` yields a
`match_extra` whose type, append char and flags are the values given to
`pack_match`, in both builds and for every value of the high byte of the type
and of the chars; `add` emplaces it under the record's address, where `find`
returns it unless the address already had an entry. -/
theorem add_recovers_type_append_flags (debug allow_tabs : Bool) (packed_size : Nat)
    (match_ : Option (List Nat)) (type : Nat) (display description : Option (List Nat))
    (append_char flags : Nat) (r : pack_result)
    (env : Env) (k : Nat) (self : matches_lookaside) (p : Ptr)
    (htype : type < 65536) (hflags : flags < 256)
    (h : pack_match debug allow_tabs packed_size match_ type display description
      append_char flags = some r)
    (hret : r.ret = true)
    (hp : p ≠ 0) (hstr : env.str p = r.buffer) (halloc : env.alloc k = true) :
    ∃ self' extra,
      matches_lookaside.add debug env k self p = some (true, self') ∧
      self'.m_map = emplace self.m_map p extra ∧
      (self.find p = Option.none → self'.find p = some extra) ∧
      extra.type = type ∧ extra.append_char = append_char ∧ extra.flags = flags := by
  obtain ⟨hbuf, -, -⟩ := pack_match_true _ _ _ _ _ _ _ _ _ r h hret
  have hparse := parse_extra_packed debug allow_tabs match_ type display description
    append_char flags
  rw [← hbuf, ← hstr] at hparse
  obtain ⟨self', hadd, hmap, hfind⟩ := add_of_parse debug env k self p _ hp halloc hparse
  exact ⟨self', _, hadd, hmap, hfind, Nat.mod_eq_of_lt htype, rfl, Nat.mod_eq_of_lt hflags⟩

/-- C4 at the type `dir | system | link` (0x0117), append char 0xe9 and flags
0xff, for the match "a" stored at address 1. -/
theorem add_recovers_type_append_flags_witness :
    ∃ self' extra,
      matches_lookaside.add false ⟨fun _ => [97, 0, 23, 1, 233, 255, 0, 0], fun _ => [],
          fun _ => true, false⟩ 0 ⟨7, []⟩ 1 = some (true, self') ∧
      self'.m_map = emplace [] 1 extra ∧
      (matches_lookaside.find ⟨7, []⟩ 1 = Option.none → self'.find 1 = some extra) ∧
      extra.type = 0x0117 ∧ extra.append_char = 0xe9 ∧ extra.flags = 0xff :=
  add_recovers_type_append_flags false false 8 (some [97]) 0x0117 Option.none Option.none
    0xe9 0xff ⟨true, [97, 0, 23, 1, 233, 255, 0, 0]⟩
    ⟨fun _ => [97, 0, 23, 1, 233, 255, 0, 0], fun _ => [], fun _ => true, false⟩ 0 ⟨7, []⟩ 1
    (by decide) (by decide) (by decide) rfl (by decide) rfl rfl

theorem strlen_replicate (n c : Nat) (hc : c ≠ 0) : strlen (List.replicate n c) = n := by
  induction n with
  | zero => rfl
  | succ n ih => rw [List.replicate_succ, strlen, if_neg hc, ih]

theorem text_replicate (n c : Nat) (hc : c ≠ 0) :
    text (List.replicate n c) = List.replicate n c := by
  induction n with
  | zero => rfl
  | succ n ih => rw [List.replicate_succ, text, if_neg hc, ih]

theorem stored_text_replicate (allow_tabs : Bool) (n : Nat) :
    stored_text allow_tabs (some (List.replicate n 97)) = List.replicate n 97 := by
  show List.map (sanitize_char allow_tabs) (text (List.replicate n 97)) = List.replicate n 97
  rw [text_replicate n 97 (by decide), List.map_replicate]
  cases allow_tabs <;> rfl

theorem long_match_wraps (n : Nat) (hn : (n + 5) % 65536 = 0) (hpos : n ≠ 0) :
    pack_match false false 0 (some (List.replicate n 97)) match_type.word (some [100])
        Option.none 0 0 =
      some ⟨true, packed_record false false (some (List.replicate n 97)) match_type.word
        (some [100]) Option.none 0 0⟩ ∧
    Option.map match_extra.display_offset
      (parse_extra false (packed_record false false (some (List.replicate n 97))
        match_type.word (some [100]) Option.none 0 0)) = some 0 ∧
    string_at (packed_record false false (some (List.replicate n 97)) match_type.word
        (some [100]) Option.none 0 0) 0 = List.replicate n 97 := by
  have hs : strlen (List.replicate n 97) = n := strlen_replicate n 97 (by decide)
  refine ⟨?_, ?_, ?_⟩
  · rw [pack_match_eq]
    have h1 : present_but_empty (some (List.replicate n 97)) = false := by
      simp only [present_but_empty, hs]; simpa using hpos
    have h2 : present_but_empty (some [100]) = false := by decide
    rw [h1, h2]; rfl
  · rw [parse_extra_packed]
    simp only [Option.map, strlen_if, hs, Bool.false_eq_true, if_false, Nat.add_zero, hn]
  · unfold string_at packed_record
    rw [List.drop_zero, stored_text_replicate]
    have e : List.replicate n 97 ++ [0] ++
        [match_type.word % 256, match_type.word / 256 % 256, 0, 0] ++
        (if false = true then [58, 76, 65, 58] else []) ++ stored_text false (some [100]) ++ [0] ++
        stored_text false Option.none ++ [0] =
        List.replicate n 97 ++ 0 :: ([match_type.word % 256, match_type.word / 256 % 256, 0, 0] ++
        (if false = true then [58, 76, 65, 58] else []) ++ stored_text false (some [100]) ++ [0] ++
        stored_text false Option.none ++ [0]) := by
      simp only [List.append_assoc, List.singleton_append, List.cons_append, List.nil_append]
    rw [e]
    apply text_append_zero
    intro c hc
    rw [List.eq_of_mem_replicate hc]
    decide

/-- C5, as stated, fails twice.  The display "a", LF, "b" of the match "m" is
found in the record as "a", space, "b".  And for a match of 65531 bytes the
parsed `display_offset` is 0, where the record holds the match itself and not
the display "d". -/
theorem lookaside_strings_altered :
    (pack_match false false 11 (some [109]) match_type.word (some [97, 10, 98])
        Option.none 0 0 = some ⟨true, [109, 0, 2, 0, 0, 0, 97, 32, 98, 0, 0]⟩ ∧
      parse_extra false [109, 0, 2, 0, 0, 0, 97, 32, 98, 0, 0] = some ⟨6, 10, 2, 0, 0⟩ ∧
      string_at [109, 0, 2, 0, 0, 0, 97, 32, 98, 0, 0] 6 = [97, 32, 98]) ∧
    (pack_match false false 0 (some (List.replicate 65531 97)) match_type.word (some [100])
        Option.none 0 0 =
        some ⟨true, packed_record false false (some (List.replicate 65531 97)) match_type.word
          (some [100]) Option.none 0 0⟩ ∧
      Option.map match_extra.display_offset
        (parse_extra false (packed_record false false (some (List.replicate 65531 97))
          match_type.word (some [100]) Option.none 0 0)) = some 0 ∧
      string_at (packed_record false false (some (List.replicate 65531 97)) match_type.word
        (some [100]) Option.none 0 0) 0 = List.replicate 65531 97) :=
  ⟨by decide, long_match_wraps 65531 (by decide) (by decide)⟩

/-- C5, amended: for every display and description given to a successful
`pack_match`, when the two offsets fit in 16 bits (strlen(match) +
strlen(display) + 6, and 4 more in a diagnostic build, is below 65536), the
NUL-terminated strings found in the packed record at the parsed
`display_offset` and `description_offset` are the display and the description
that were given with every CR and LF, and every TAB unless tabs are allowed,
replaced by a space (the empty string when absent). -/
theorem lookaside_strings (debug allow_tabs : Bool) (packed_size : Nat)
    (match_ : Option (List Nat)) (type : Nat) (display description : Option (List Nat))
    (append_char flags : Nat) (r : pack_result)
    (env : Env) (k : Nat) (self : matches_lookaside) (p : Ptr)
    (h : pack_match debug allow_tabs packed_size match_ type display description
      append_char flags = some r)
    (hret : r.ret = true)
    (hfit : strlen_if match_ + strlen_if display + 6 + (if debug then 4 else 0) < 65536)
    (hp : p ≠ 0) (hstr : env.str p = r.buffer) (halloc : env.alloc k = true) :
    ∃ self' extra,
      matches_lookaside.add debug env k self p = some (true, self') ∧
      self'.m_map = emplace self.m_map p extra ∧
      (self.find p = Option.none → self'.find p = some extra) ∧
      string_at (env.str p) extra.display_offset =
        (text_of display).map (sanitize_char allow_tabs) ∧
      string_at (env.str p) extra.description_offset =
        (text_of description).map (sanitize_char allow_tabs) ∧
      text_of Option.none = [] := by
  obtain ⟨hbuf, -, -⟩ := pack_match_true _ _ _ _ _ _ _ _ _ r h hret
  have hparse := parse_extra_packed debug allow_tabs match_ type display description
    append_char flags
  rw [← hbuf, ← hstr] at hparse
  obtain ⟨self', hadd, hmap, hfind⟩ := add_of_parse debug env k self p _ hp halloc hparse
  refine ⟨self', _, hadd, hmap, hfind, ?_, ?_, rfl⟩
  · show string_at (env.str p) ((strlen_if match_ + 5 + (if debug then 4 else 0)) % 65536) = _
    rw [Nat.mod_eq_of_lt (by omega), hstr, hbuf]
    exact string_at_display _ _ _ _ _ _ _ _
  · show string_at (env.str p)
      ((strlen_if match_ + 5 + (if debug then 4 else 0) + strlen_if display + 1) % 65536) = _
    rw [Nat.mod_eq_of_lt (by omega), hstr, hbuf]
    exact string_at_description _ _ _ _ _ _ _ _

/-- C5, amended, at the match "m" with display "a", LF, "b" and no
description, stored at address 1. -/
theorem lookaside_strings_witness :
    ∃ self' extra,
      matches_lookaside.add false ⟨fun _ => [109, 0, 2, 0, 0, 0, 97, 32, 98, 0, 0], fun _ => [],
          fun _ => true, false⟩ 0 ⟨7, []⟩ 1 = some (true, self') ∧
      self'.m_map = emplace [] 1 extra ∧
      (matches_lookaside.find ⟨7, []⟩ 1 = Option.none → self'.find 1 = some extra) ∧
      string_at [109, 0, 2, 0, 0, 0, 97, 32, 98, 0, 0] extra.display_offset =
        (text_of (some [97, 10, 98])).map (sanitize_char false) ∧
      string_at [109, 0, 2, 0, 0, 0, 97, 32, 98, 0, 0] extra.description_offset =
        (text_of Option.none).map (sanitize_char false) ∧
      text_of Option.none = [] :=
  lookaside_strings false false 11 (some [109]) match_type.word (some [97, 10, 98])
    Option.none 0 0 ⟨true, [109, 0, 2, 0, 0, 0, 97, 32, 98, 0, 0]⟩
    ⟨fun _ => [109, 0, 2, 0, 0, 0, 97, 32, 98, 0, 0], fun _ => [], fun _ => true, false⟩
    0 ⟨7, []⟩ 1 (by decide) rfl (by decide) (by decide) rfl rfl

/-- C6: `pack_match` returns false exactly when the match text is present but
empty or the display text is present but empty, and such a candidate never
fails in another way (no assertion fails on it; a non-diagnostic build never
fails at all).  In particular an empty match with no display and an empty
display are rejected, and an absent match with a non-empty display is
accepted. -/
theorem pack_match_rejects (debug allow_tabs : Bool) (packed_size : Nat)
    (match_ : Option (List Nat)) (type : Nat) (display description : Option (List Nat))
    (append_char flags : Nat) :
    (Option.map pack_result.ret (pack_match debug allow_tabs packed_size match_ type display
        description append_char flags) = some false ↔
      (present_but_empty match_ = true ∨ present_but_empty display = true)) ∧
    ((pack_match false allow_tabs packed_size match_ type display description
        append_char flags).isSome = true) ∧
    (∀ s, pack_match debug allow_tabs packed_size (some (0 :: s)) type Option.none
        description append_char flags = some ⟨false, []⟩) ∧
    (pack_match debug allow_tabs packed_size (some []) type Option.none
        description append_char flags = some ⟨false, []⟩) ∧
    (∀ s, Option.map pack_result.ret (pack_match debug allow_tabs packed_size match_ type
        (some (0 :: s)) description append_char flags) = some false) ∧
    (Option.map pack_result.ret (pack_match debug allow_tabs packed_size match_ type
        (some []) description append_char flags) = some false) ∧
    (∀ c s, Option.map pack_result.ret (pack_match debug allow_tabs
        (calc_packed_size debug Option.none (some ((c + 1) :: s)) description) Option.none type
        (some ((c + 1) :: s)) description append_char flags) = some true) := by
  have hz : ∀ s : List Nat, present_but_empty (some (0 :: s)) = true := fun s => rfl
  have hn : present_but_empty (some []) = true := rfl
  have hc : ∀ (c : Nat) (s : List Nat), present_but_empty (some ((c + 1) :: s)) = false := by
    intro c s; simp [present_but_empty, strlen]
  refine ⟨?_, ?_, ?_, ?_, ?_, ?_, ?_⟩
  · rw [pack_match_eq]
    have key : (debug && !(match_.isSome || display.isSome)) = true →
        present_but_empty match_ = false ∧ present_but_empty display = false := by
      cases match_ <;> cases display <;> simp [present_but_empty]
    generalize (debug && !(match_.isSome || display.isSome)) = c1 at key ⊢
    generalize present_but_empty match_ = bm at key ⊢
    generalize present_but_empty display = bd at key ⊢
    generalize (debug && !(packed_size == (packed_record debug allow_tabs match_ type display
      description append_char flags).length)) = c2
    cases c1 <;> cases bm <;> cases bd <;> cases c2 <;> simp at key ⊢
  · rw [pack_match_eq]
    simp only [Bool.false_and, Bool.false_eq_true, if_false]
    split
    · rfl
    · split <;> rfl
  · intro s
    rw [pack_match_eq, hz]; simp
  · rw [pack_match_eq, hn]; simp
  · intro s
    rw [pack_match_eq, hz]
    cases debug <;> by_cases hm : present_but_empty match_ = true <;> simp [hm]
  · rw [pack_match_eq, hn]
    cases debug <;> by_cases hm : present_but_empty match_ = true <;> simp [hm]
  · intro c s
    rw [pack_match_eq, hc, length_packed_record]
    simp [present_but_empty]

theorem parse_extra_release (s : List Nat) : ∃ e, parse_extra false s = some e := by
  simp [parse_extra]

theorem add_null (debug : Bool) (env : Env) (k : Nat) (self : matches_lookaside) :
    matches_lookaside.add debug env k self 0 = some (false, self) := by
  simp [matches_lookaside.add]

theorem add_loop_release_isSome (env : Env) :
    ∀ (l : List Ptr) (k : Nat) (self : matches_lookaside),
      (add_loop false env k l self).isSome = true := by
  intro l
  induction l with
  | nil => intro k self; simp [add_loop, add_null]
  | cons p rest ih =>
    intro k self
    unfold add_loop
    by_cases hp : p = 0
    · simp [matches_lookaside.add, hp]
    · by_cases ha : env.alloc k = true
      · obtain ⟨e, he⟩ := parse_extra_release (env.str p)
        simp only [matches_lookaside.add, hp, if_false, ha, Bool.not_true, Bool.false_eq_true, he]
        exact ih _ _
      · simp [matches_lookaside.add, hp, ha]

theorem add_loop_spec (debug : Bool) (env : Env) (halloc : ∀ k, env.alloc k = true) :
    ∀ (l : List Ptr) (k : Nat) (self t : matches_lookaside),
      add_loop debug env k l self = some t →
      t.m_matches = self.m_matches ∧
      (∀ q, (t.find q).isSome = true ↔
        ((self.find q).isSome = true ∨ q ∈ l.takeWhile (fun x => x != 0))) ∧
      (∀ q e, t.find q = some e →
        self.find q = some e ∨ (q ≠ 0 ∧ parse_extra debug (env.str q) = some e)) := by
  intro l
  induction l with
  | nil =>
    intro k self t h
    simp only [add_loop, add_null, Option.some.injEq] at h
    subst h
    simp only [List.takeWhile_nil, List.not_mem_nil, or_false, implies_true, true_and]
    exact fun q e hq => Or.inl hq
  | cons p rest ih =>
    intro k self t h
    unfold add_loop at h
    by_cases hp : p = 0
    · simp only [matches_lookaside.add, hp, if_true, Option.some.injEq] at h
      subst h
      simp only [hp, List.takeWhile_cons, bne_self_eq_false, Bool.false_eq_true, if_false,
        List.not_mem_nil, or_false, implies_true, true_and]
      exact fun q e hq => Or.inl hq
    · cases hparse : parse_extra debug (env.str p) with
      | none =>
        simp [matches_lookaside.add, hp, halloc, hparse] at h
      | some e =>
        simp only [matches_lookaside.add, hp, if_false, halloc, Bool.not_true,
          Bool.false_eq_true, hparse] at h
        obtain ⟨h1, h2, h3⟩ := ih _ _ _ h
        cases self with
        | mk a m =>
          refine ⟨h1, ?_, ?_⟩
          · intro q
            rw [h2 q, find_emplace]
            have hne : (p != 0) = true := by simpa using hp
            simp only [List.takeWhile_cons, hne, if_true, List.mem_cons]
            by_cases hq : q = p
            · subst hq
              cases hf : (matches_lookaside.mk a m).find q <;> simp
            · simp [hq]
          · intro q e' hq
            rcases h3 q e' hq with h4 | h4
            · rw [find_emplace] at h4
              split at h4
              · rename_i hc
                cases h4
                exact Or.inr ⟨hc.1 ▸ hp, hc.1 ▸ hparse⟩
              · exact Or.inl h4
            · exact Or.inr h4

theorem add_congr (debug : Bool) (env env' : Env) (hstr : env'.str = env.str)
    (halloc : env'.alloc = env.alloc) (k : Nat) (self : matches_lookaside) (p : Ptr) :
    matches_lookaside.add debug env' k self p = matches_lookaside.add debug env k self p := by
  simp only [matches_lookaside.add, hstr, halloc]

theorem add_loop_congr (debug : Bool) (env env' : Env) (hstr : env'.str = env.str)
    (halloc : env'.alloc = env.alloc) :
    ∀ (l : List Ptr) (k : Nat) (self : matches_lookaside),
      add_loop debug env' k l self = add_loop debug env k l self := by
  intro l
  induction l with
  | nil => intro k self; simp only [add_loop, add_congr debug env env' hstr halloc]
  | cons p rest ih =>
    intro k self
    simp only [add_loop, add_congr debug env env' hstr halloc, ih]

theorem getD_one_eq (l : List Ptr) : l.getD 1 0 = (l.drop 1).getD 0 0 := by
  cases l with
  | nil => rfl
  | cons a rest => cases rest <;> rfl

theorem takeWhile_of_head_null (l : List Ptr) (h : l.getD 0 0 = 0) :
    l.takeWhile (fun x => x != 0) = [] := by
  cases l with
  | nil => rfl
  | cons a rest =>
    have : a = 0 := by simpa using h
    simp [this]

theorem new_spec (debug : Bool) (env : Env) (a : Ptr) (halloc : ∀ k, env.alloc k = true)
    (t : matches_lookaside) (h : matches_lookaside.new debug env a = some t) :
    t.m_matches = a ∧
      (∀ q, (t.find q).isSome = true ↔ q ∈ ((env.arr a).drop 1).takeWhile (fun x => x != 0)) ∧
      (∀ q e, t.find q = some e → q ≠ 0 ∧ parse_extra debug (env.str q) = some e) := by
  unfold matches_lookaside.new at h
  split at h
  · cases h
  · split at h
    · obtain ⟨h1, h2, h3⟩ := add_loop_spec debug env halloc _ _ _ _ h
      refine ⟨h1, ?_, ?_⟩
      · intro q; rw [h2 q]; simp [find_nil]
      · intro q e hq
        rcases h3 q e hq with h4 | h4
        · simp [find_nil] at h4
        · exact h4
    · rename_i hnull
      cases h
      refine ⟨rfl, ?_, ?_⟩
      · intro q
        have : (env.arr a).getD 1 0 = 0 := by simpa using hnull
        rw [getD_one_eq] at this
        rw [takeWhile_of_head_null _ this]
        simp [find_nil]
      · intro q e hq
        simp [find_nil] at hq

theorem new_release_isSome (env : Env) (a : Ptr) :
    (matches_lookaside.new false env a).isSome = true := by
  unfold matches_lookaside.new
  simp only [Bool.false_and, Bool.false_eq_true, if_false]
  split
  · exact add_loop_release_isSome env _ _ _
  · rfl

theorem new_congr (debug : Bool) (env env' : Env) (a : Ptr) (hstr : env'.str = env.str)
    (halloc : env'.alloc = env.alloc) (harr : (env'.arr a).drop 1 = (env.arr a).drop 1) :
    matches_lookaside.new debug env' a = matches_lookaside.new debug env a := by
  unfold matches_lookaside.new
  rw [getD_one_eq, getD_one_eq (env.arr a), harr]
  simp only [add_loop_congr debug env env' hstr halloc]

/-- C7: the table built by `create_matches_lookaside(array)` has an entry for
exactly the string pointers `array[1]`, ..., `array[n]`, `array[n+1]` being the
first null element, each entry being the one parsed from the string's record;
`array[0]` is never read, an array whose element 1 is null yields the empty
table, and a lookup never changes the globals.  (Every allocation of the
table's allocator is taken to succeed; in a diagnostic build the table exists
when no assertion fails.) -/
theorem create_builds_table (debug : Bool) (env : Env) (st : State) (array : Ptr)
    (harray : array ≠ 0) (halloc : ∀ k, env.alloc k = true) :
    (∃ t, matches_lookaside.new false env array = some t ∧
      create_matches_lookaside false env st array =
        some (true, { st with s_lookasides := t :: st.s_lookasides })) ∧
    (∀ b st', create_matches_lookaside debug env st array = some (b, st') →
      ∃ t, matches_lookaside.new debug env array = some t ∧ b = true ∧
        st' = { st with s_lookasides := t :: st.s_lookasides }) ∧
    (∀ t, matches_lookaside.new debug env array = some t →
      t.associated array = true ∧
      (∀ q, (t.find q).isSome = true ↔
        q ∈ ((env.arr array).drop 1).takeWhile (fun x => x != 0)) ∧
      (∀ q e, t.find q = some e → parse_extra debug (env.str q) = some e)) ∧
    (∀ env' : Env, env'.str = env.str → env'.alloc = env.alloc →
      (env'.arr array).drop 1 = (env.arr array).drop 1 →
      matches_lookaside.new debug env' array = matches_lookaside.new debug env array) ∧
    ((env.arr array).getD 1 0 = 0 → matches_lookaside.new debug env array = some ⟨array, []⟩) ∧
    (∀ (env' : Env) (s s' : State) (q : Ptr) (r : Ret),
      step debug s env' (Call.lookup q) = some (r, s') → s' = s) := by
  refine ⟨?_, ?_, ?_, ?_, ?_, ?_⟩
  · cases hnew : matches_lookaside.new false env array with
    | none =>
      have := new_release_isSome env array
      rw [hnew] at this; cases this
    | some t =>
      exact ⟨t, rfl, by simp [create_matches_lookaside, harray, hnew]⟩
  · intro b st' h
    unfold create_matches_lookaside at h
    rw [if_neg harray] at h
    split at h
    · cases h
    · split at h
      · cases h
      · cases hnew : matches_lookaside.new debug env array with
        | none => simp [hnew] at h
        | some t =>
          simp only [hnew, Option.some.injEq, Prod.mk.injEq] at h
          exact ⟨t, rfl, h.1.symm, h.2.symm⟩
  · intro t ht
    obtain ⟨h1, h2, h3⟩ := new_spec debug env array halloc t ht
    refine ⟨by simp [matches_lookaside.associated, h1], h2, fun q e hq => (h3 q e hq).2⟩
  · intro env' hstr ha harr
    exact new_congr debug env env' array hstr ha harr
  · intro hnull
    unfold matches_lookaside.new
    have hd : (debug && array == 0) = false := by simp [harray]
    rw [hd, if_neg (by simp), if_neg (fun hc => hc hnull)]
  · intro env' s s' q r h
    unfold step at h
    cases hl : lookup_match debug env' s q with
    | none => simp [hl] at h
    | some d =>
      simp only [hl, Option.some.injEq, Prod.mk.injEq] at h
      exact h.2.symm

/-- C7 at the sample environment, for the array at address 5: the table has
entries for the addresses 10 and 11 only. -/
theorem create_builds_table_witness :
    (5 : Ptr) ≠ 0 ∧ (∀ k, sample_env.alloc k = true) ∧
    ((∃ t, matches_lookaside.new false sample_env 5 = some t ∧
      create_matches_lookaside false sample_env State.init 5 =
        some (true, { State.init with s_lookasides := t :: State.init.s_lookasides })) ∧
    (∀ b st', create_matches_lookaside false sample_env State.init 5 = some (b, st') →
      ∃ t, matches_lookaside.new false sample_env 5 = some t ∧ b = true ∧
        st' = { State.init with s_lookasides := t :: State.init.s_lookasides }) ∧
    (∀ t, matches_lookaside.new false sample_env 5 = some t →
      t.associated 5 = true ∧
      (∀ q, (t.find q).isSome = true ↔
        q ∈ ((sample_env.arr 5).drop 1).takeWhile (fun x => x != 0)) ∧
      (∀ q e, t.find q = some e → parse_extra false (sample_env.str q) = some e)) ∧
    (∀ env' : Env, env'.str = sample_env.str → env'.alloc = sample_env.alloc →
      (env'.arr 5).drop 1 = (sample_env.arr 5).drop 1 →
      matches_lookaside.new false env' 5 = matches_lookaside.new false sample_env 5) ∧
    ((sample_env.arr 5).getD 1 0 = 0 →
      matches_lookaside.new false sample_env 5 = some ⟨5, []⟩) ∧
    (∀ (env' : Env) (s s' : State) (q : Ptr) (r : Ret),
      step false s env' (Call.lookup q) = some (r, s') → s' = s)) ∧
    ((sample_env.arr 5).drop 1).takeWhile (fun x => x != 0) = [10, 11] :=
  ⟨by decide, fun _ => rfl,
    create_builds_table false sample_env State.init 5 (by decide) (fun _ => rfl), by decide⟩

theorem add_m_matches (debug : Bool) (env : Env) (k : Nat) (self : matches_lookaside) (p : Ptr)
    (b : Bool) (t : matches_lookaside)
    (h : matches_lookaside.add debug env k self p = some (b, t)) :
    t.m_matches = self.m_matches := by
  unfold matches_lookaside.add at h
  split at h
  · cases h; rfl
  · split at h
    · cases h; rfl
    · split at h
      · cases h
      · cases h; rfl

theorem add_loop_m_matches (debug : Bool) (env : Env) :
    ∀ (l : List Ptr) (k : Nat) (self t : matches_lookaside),
      add_loop debug env k l self = some t → t.m_matches = self.m_matches := by
  intro l
  induction l with
  | nil =>
    intro k self t h
    simp only [add_loop, add_null, Option.some.injEq] at h
    rw [← h]
  | cons p rest ih =>
    intro k self t h
    unfold add_loop at h
    cases hadd : matches_lookaside.add debug env k self p with
    | none => simp [hadd] at h
    | some bt =>
      obtain ⟨b, t'⟩ := bt
      have hm := add_m_matches debug env k self p b t' hadd
      cases b
      · simp only [hadd, Option.some.injEq] at h
        rw [← h, hm]
      · simp only [hadd] at h
        rw [ih _ _ _ h, hm]

theorem new_m_matches (debug : Bool) (env : Env) (a : Ptr) (t : matches_lookaside)
    (h : matches_lookaside.new debug env a = some t) : t.m_matches = a := by
  unfold matches_lookaside.new at h
  split at h
  · cases h
  · split at h
    · exact add_loop_m_matches debug env _ _ _ _ h
    · cases h; rfl

theorem erase_associated_none (l : List matches_lookaside) (a : Ptr) :
    erase_associated l a = Option.none ↔ none_associated l a = true := by
  induction l with
  | nil => simp [erase_associated, none_associated]
  | cons t rest ih =>
    unfold erase_associated
    by_cases h : t.associated a = true
    · simp [h, none_associated]
    · have h' : t.associated a = false := by simpa using h
      simp only [h', Bool.false_eq_true, if_false]
      cases he : erase_associated rest a with
      | none =>
        have := ih.mp he
        simp [none_associated] at this ⊢
        exact ⟨h', this⟩
      | some l' =>
        simp only [false_iff, reduceCtorEq]
        intro hn
        have : none_associated rest a = true := by
          simp [none_associated] at hn ⊢
          exact hn.2
        rw [ih.mpr this] at he
        cases he

theorem erase_associated_spec (l : List matches_lookaside) (a : Ptr)
    (hmem : a ∈ l.map (fun t => t.m_matches))
    (hnodup : (l.map (fun t => t.m_matches)).Nodup) :
    ∃ l', erase_associated l a = some l' ∧
      l' = l.filter (fun t => !t.associated a) ∧
      l'.map (fun t => t.m_matches) = (l.map (fun t => t.m_matches)).erase a ∧
      l'.length + 1 = l.length := by
  induction l with
  | nil => simp at hmem
  | cons t rest ih =>
    simp only [List.map_cons, List.nodup_cons] at hnodup
    unfold erase_associated
    by_cases h : t.m_matches = a
    · have hassoc : t.associated a = true := by simp [matches_lookaside.associated, h]
      refine ⟨rest, by simp [hassoc], ?_, ?_, rfl⟩
      · have hrest : ∀ x ∈ rest, (!x.associated a) = true := by
          intro x hx
          have : x.m_matches ≠ a := by
            intro hxa
            apply hnodup.1
            rw [h, ← hxa]
            exact List.mem_map_of_mem _ hx
          simp [matches_lookaside.associated, Ne.symm this]
        rw [List.filter_cons, hassoc]
        simp only [Bool.not_true, Bool.false_eq_true, if_false]
        exact (List.filter_eq_self.mpr hrest).symm
      · simp [h]
    · have hassoc : t.associated a = false := by
        simp [matches_lookaside.associated, Ne.symm h]
      have hmem' : a ∈ rest.map (fun t => t.m_matches) := by
        simp only [List.map_cons, List.mem_cons] at hmem
        rcases hmem with hm | hm
        · exact absurd hm.symm h
        · exact hm
      obtain ⟨l', h1, h2, h3, h4⟩ := ih hmem' hnodup.2
      refine ⟨t :: l', by simp [hassoc, h1], ?_, ?_, by simp [h4]⟩
      · rw [List.filter_cons, hassoc]
        simp [h2]
      · simp only [List.map_cons, h3]
        rw [List.erase_cons_tail]
        simpa using h

theorem create_step (debug : Bool) (env : Env) (st : State) (a : Ptr) (ha : a ≠ 0)
    (b : Bool) (st' : State) (h : create_matches_lookaside debug env st a = some (b, st')) :
    b = true ∧ st'.arrays = a :: st.arrays ∧
      (debug = true → st.s_lookasides.length ≤ 5) := by
  unfold create_matches_lookaside at h
  rw [if_neg ha] at h
  split at h
  · cases h
  · rename_i hsize
    split at h
    · cases h
    · cases hnew : matches_lookaside.new debug env a with
      | none => simp [hnew] at h
      | some t =>
        simp only [hnew, Option.some.injEq, Prod.mk.injEq] at h
        refine ⟨h.1.symm, ?_, ?_⟩
        · rw [← h.2]
          simp [State.arrays, new_m_matches debug env a t hnew]
        · intro hd
          simpa [hd] using hsize

theorem create_release (env : Env) (st : State) (a : Ptr) (ha : a ≠ 0) :
    ∃ st', create_matches_lookaside false env st a = some (true, st') := by
  cases hnew : matches_lookaside.new false env a with
  | none =>
    have := new_release_isSome env a
    rw [hnew] at this; cases this
  | some t =>
    exact ⟨{ st with s_lookasides := t :: st.s_lookasides },
      by simp [create_matches_lookaside, ha, hnew]⟩

theorem destroy_step (debug : Bool) (env : Env) (st : State) (a : Ptr) (ha : a ≠ 0)
    (hmem : a ∈ st.arrays) (hnodup : st.arrays.Nodup) :
    ∃ st', destroy_matches_lookaside debug env st a = some (true, st') ∧
      st'.s_lookasides = st.s_lookasides.filter (fun t => !t.associated a) ∧
      st'.arrays = st.arrays.erase a ∧
      st'.s_lookasides.length + 1 = st.s_lookasides.length := by
  obtain ⟨l', h1, h2, h3, h4⟩ := erase_associated_spec st.s_lookasides a hmem hnodup
  refine ⟨{ st with s_lookasides := l' }, ?_, h2, h3, h4⟩
  simp [destroy_matches_lookaside, ha, h1]

theorem run_cons (debug : Bool) (st : State) (env : Env) (c : Call) (rest : List (Env × Call))
    (r : Ret) (st' : State) (h : step debug st env c = some (r, st')) :
    run debug st ((env, c) :: rest) =
      match run debug st' rest with
      | Option.none => Option.none
      | some (rs, st'') => some (r :: rs, st'') := by
  simp [run, h]

theorem run_paired (debug : Bool) :
    ∀ (calls : List (Env × Call)) (st : State), st.arrays.Nodup →
      well_paired st.arrays calls = true →
      (debug = false → (run debug st calls).isSome = true) ∧
      (∀ rets final, run debug st calls = some (rets, final) →
        final.s_lookasides = [] ∧ (∀ r ∈ rets, r = Ret.int32 true) ∧
        (∀ pre env a post, calls = pre ++ (env, Call.destroy a) :: post →
          ∃ r1 s1 s2, run debug st pre = some (r1, s1) ∧
            destroy_matches_lookaside debug env s1 a = some (true, s2) ∧
            s2.s_lookasides = s1.s_lookasides.filter (fun t => !t.associated a) ∧
            s2.s_lookasides.length + 1 = s1.s_lookasides.length)) := by
  intro calls
  induction calls with
  | nil =>
    intro st _ hwp
    refine ⟨fun _ => rfl, ?_⟩
    intro rets final h
    simp only [run, Option.some.injEq, Prod.mk.injEq] at h
    obtain ⟨rfl, rfl⟩ := h
    refine ⟨?_, by simp, ?_⟩
    · have : st.arrays = [] := by simpa [well_paired] using hwp
      simpa [State.arrays] using this
    · intro pre env a post hc
      simp at hc
  | cons ec rest ih =>
    intro st hnodup hwp
    obtain ⟨env, c⟩ := ec
    cases c with
    | create a =>
      simp only [well_paired, Bool.and_eq_true, bne_iff_ne, ne_eq, Bool.not_eq_true'] at hwp
      obtain ⟨⟨ha, hfresh⟩, hrest⟩ := hwp
      have hfresh' : a ∉ st.arrays := by simpa using hfresh
      constructor
      · intro hd
        subst hd
        obtain ⟨st', hc⟩ := create_release env st a ha
        obtain ⟨-, harr, -⟩ := create_step false env st a ha true st' hc
        have hstep : step false st env (Call.create a) = some (Ret.int32 true, st') := by
          simp [step, hc]
        rw [run_cons false st env _ rest _ st' hstep]
        have hn : st'.arrays.Nodup := by rw [harr]; exact List.nodup_cons.mpr ⟨hfresh', hnodup⟩
        have := (ih st' hn (by rw [harr]; exact hrest)).1 rfl
        cases hr : run false st' rest with
        | none => rw [hr] at this; cases this
        | some out => rfl
      · intro rets final h
        cases hc : create_matches_lookaside debug env st a with
        | none => simp [run, step, hc] at h
        | some bst =>
          obtain ⟨b, st'⟩ := bst
          obtain ⟨hb, harr, -⟩ := create_step debug env st a ha b st' hc
          subst hb
          have hstep : step debug st env (Call.create a) = some (Ret.int32 true, st') := by
            simp [step, hc]
          rw [run_cons debug st env _ rest _ st' hstep] at h
          have hn : st'.arrays.Nodup := by rw [harr]; exact List.nodup_cons.mpr ⟨hfresh', hnodup⟩
          cases hr : run debug st' rest with
          | none => simp [hr] at h
          | some out =>
            obtain ⟨rs, fin⟩ := out
            simp only [hr, Option.some.injEq, Prod.mk.injEq] at h
            obtain ⟨rfl, rfl⟩ := h
            obtain ⟨h1, h2, h3⟩ := (ih st' hn (by rw [harr]; exact hrest)).2 rs fin hr
            refine ⟨h1, ?_, ?_⟩
            · intro r hr'
              rcases List.mem_cons.mp hr' with hr' | hr'
              · exact hr'
              · exact h2 r hr'
            · intro pre env' a' post hcalls
              cases pre with
              | nil => simp at hcalls
              | cons x pre' =>
                simp only [List.cons_append, List.cons.injEq] at hcalls
                obtain ⟨hx, hrest'⟩ := hcalls
                obtain ⟨r1, s1, s2, g1, g2, g3, g4⟩ := h3 pre' env' a' post hrest'
                refine ⟨Ret.int32 true :: r1, s1, s2, ?_, g2, g3, g4⟩
                rw [← hx, run_cons debug st env _ pre' _ st' hstep, g1]
    | destroy a =>
      simp only [well_paired, Bool.and_eq_true, bne_iff_ne, ne_eq] at hwp
      obtain ⟨⟨ha, hmem⟩, hrest⟩ := hwp
      have hmem' : a ∈ st.arrays := by simpa using hmem
      obtain ⟨st', hd, hfilter, harr, hlen⟩ := destroy_step debug env st a ha hmem' hnodup
      have hstep : step debug st env (Call.destroy a) = some (Ret.int32 true, st') := by
        simp [step, hd]
      have hn : st'.arrays.Nodup := by rw [harr]; exact hnodup.erase a
      have ih' := ih st' hn (by rw [harr]; exact hrest)
      constructor
      · intro hdbg
        rw [run_cons debug st env _ rest _ st' hstep]
        have := ih'.1 hdbg
        cases hr : run debug st' rest with
        | none => rw [hr] at this; cases this
        | some out => rfl
      · intro rets final h
        rw [run_cons debug st env _ rest _ st' hstep] at h
        cases hr : run debug st' rest with
        | none => simp [hr] at h
        | some out =>
          obtain ⟨rs, fin⟩ := out
          simp only [hr, Option.some.injEq, Prod.mk.injEq] at h
          obtain ⟨rfl, rfl⟩ := h
          obtain ⟨h1, h2, h3⟩ := ih'.2 rs fin hr
          refine ⟨h1, ?_, ?_⟩
          · intro r hr'
            rcases List.mem_cons.mp hr' with hr' | hr'
            · exact hr'
            · exact h2 r hr'
          · intro pre env' a' post hcalls
            cases pre with
            | nil =>
              simp only [List.nil_append, List.cons.injEq, Prod.mk.injEq, Call.destroy.injEq]
                at hcalls
              obtain ⟨⟨rfl, rfl⟩, -⟩ := hcalls
              exact ⟨[], st, st', rfl, hd, hfilter, hlen⟩
            | cons x pre' =>
              simp only [List.cons_append, List.cons.injEq] at hcalls
              obtain ⟨hx, hrest'⟩ := hcalls
              obtain ⟨r1, s1, s2, g1, g2, g3, g4⟩ := h3 pre' env' a' post hrest'
              refine ⟨Ret.int32 true :: r1, s1, s2, ?_, g2, g3, g4⟩
              rw [← hx, run_cons debug st env _ pre' _ st' hstep, g1]
    | lookup q => simp [well_paired] at hwp
    | set_oneoff q t ac fl => simp [well_paired] at hwp
    | clear_oneoff => simp [well_paired] at hwp

/-- C8: starting from an empty registry, for every sequence of
`create_matches_lookaside` and `destroy_matches_lookaside` calls on non-null
arrays in which each created array is destroyed once after its creation and
is not created again while registered, the run completes (in a non-diagnostic
build always, in a diagnostic build unless an assertion fails), the registry
is empty at the end and every call returned true; each destroy of the
sequence, in the state its predecessors lead to, returns true and removes
exactly the one table of its array, leaving the others in order. -/
theorem paired_calls_leave_registry_empty (debug : Bool) (st : State)
    (calls : List (Env × Call)) (hempty : st.s_lookasides = [])
    (hpaired : well_paired [] calls = true) :
    (run false st calls).isSome = true ∧
    (∀ rets final, run debug st calls = some (rets, final) →
      final.s_lookasides = [] ∧ (∀ r ∈ rets, r = Ret.int32 true) ∧
      (∀ pre env a post, calls = pre ++ (env, Call.destroy a) :: post →
        ∃ r1 s1 s2, run debug st pre = some (r1, s1) ∧
          destroy_matches_lookaside debug env s1 a = some (true, s2) ∧
          s2.s_lookasides = s1.s_lookasides.filter (fun t => !t.associated a) ∧
          s2.s_lookasides.length + 1 = s1.s_lookasides.length)) := by
  have harr : st.arrays = [] := by simp [State.arrays, hempty]
  have hn : st.arrays.Nodup := by rw [harr]; exact List.nodup_nil
  exact ⟨(run_paired false calls st hn (by rw [harr]; exact hpaired)).1 rfl,
    (run_paired debug calls st hn (by rw [harr]; exact hpaired)).2⟩

/-- C8 at the calls create 1, create 2, destroy 1, create 3, destroy 3,
destroy 2 from the initial globals. -/
theorem paired_calls_leave_registry_empty_witness :
    State.init.s_lookasides = [] ∧
    well_paired [] [(empty_env, Call.create 1), (empty_env, Call.create 2),
      (empty_env, Call.destroy 1), (empty_env, Call.create 3), (empty_env, Call.destroy 3),
      (empty_env, Call.destroy 2)] = true ∧
    (run false State.init [(empty_env, Call.create 1), (empty_env, Call.create 2),
      (empty_env, Call.destroy 1), (empty_env, Call.create 3), (empty_env, Call.destroy 3),
      (empty_env, Call.destroy 2)]).isSome = true ∧
    (∀ rets final, run false State.init [(empty_env, Call.create 1), (empty_env, Call.create 2),
        (empty_env, Call.destroy 1), (empty_env, Call.create 3), (empty_env, Call.destroy 3),
        (empty_env, Call.destroy 2)] = some (rets, final) →
      final.s_lookasides = [] ∧ (∀ r ∈ rets, r = Ret.int32 true) ∧
      (∀ pre env a post, [(empty_env, Call.create 1), (empty_env, Call.create 2),
          (empty_env, Call.destroy 1), (empty_env, Call.create 3), (empty_env, Call.destroy 3),
          (empty_env, Call.destroy 2)] = pre ++ (env, Call.destroy a) :: post →
        ∃ r1 s1 s2, run false State.init pre = some (r1, s1) ∧
          destroy_matches_lookaside false env s1 a = some (true, s2) ∧
          s2.s_lookasides = s1.s_lookasides.filter (fun t => !t.associated a) ∧
          s2.s_lookasides.length + 1 = s1.s_lookasides.length)) :=
  ⟨rfl, by decide,
    paired_calls_leave_registry_empty false State.init _ rfl (by decide)⟩

theorem erase_associated_length (l : List matches_lookaside) (a : Ptr) :
    ∀ l', erase_associated l a = some l' → l'.length + 1 = l.length := by
  induction l with
  | nil => intro l' h; simp [erase_associated] at h
  | cons t rest ih =>
    intro l' h
    unfold erase_associated at h
    split at h
    · cases h; rfl
    · cases he : erase_associated rest a with
      | none => simp [he] at h
      | some l'' =>
        simp only [he, Option.some.injEq] at h
        subst h
        simp [ih l'' he]

theorem destroy_length (debug : Bool) (env : Env) (st : State) (a : Ptr) (b : Bool)
    (st' : State) (h : destroy_matches_lookaside debug env st a = some (b, st')) :
    st'.s_lookasides.length ≤ st.s_lookasides.length := by
  unfold destroy_matches_lookaside at h
  split at h
  · simp only [Option.some.injEq, Prod.mk.injEq] at h
    rw [← h.2]
  · cases he : erase_associated st.s_lookasides a with
    | none =>
      simp only [he] at h
      split at h
      · cases h
      · simp only [Option.some.injEq, Prod.mk.injEq] at h
        rw [← h.2]
    | some l' =>
      simp only [he, Option.some.injEq, Prod.mk.injEq] at h
      have := erase_associated_length _ _ _ he
      rw [← h.2]
      show l'.length ≤ _
      omega

theorem step_pool_bound (env : Env) (c : Call) (st st' : State) (r : Ret)
    (h : step true st env c = some (r, st')) (hb : st.s_lookasides.length ≤ 6) :
    st'.s_lookasides.length ≤ 6 := by
  cases c with
  | create a =>
    by_cases ha : a = 0
    · simp [step, create_matches_lookaside, ha] at h
      rw [← h.2]; exact hb
    · cases hc : create_matches_lookaside true env st a with
      | none => simp [step, hc] at h
      | some bst =>
        obtain ⟨b, s⟩ := bst
        simp only [step, hc, Option.some.injEq, Prod.mk.injEq] at h
        obtain ⟨-, harr, hsz⟩ := create_step true env st a ha b s hc
        have := hsz rfl
        have hl : s.s_lookasides.length = st.s_lookasides.length + 1 := by
          have := congrArg List.length harr
          simpa [State.arrays] using this
        rw [← h.2, hl]; omega
  | destroy a =>
    cases hd : destroy_matches_lookaside true env st a with
    | none => simp [step, hd] at h
    | some bst =>
      obtain ⟨b, s⟩ := bst
      simp only [step, hd, Option.some.injEq, Prod.mk.injEq] at h
      have := destroy_length true env st a b s hd
      rw [← h.2]; omega
  | lookup q =>
    cases hl : lookup_match true env st q with
    | none => simp [step, hl] at h
    | some d =>
      simp only [step, hl, Option.some.injEq, Prod.mk.injEq] at h
      rw [← h.2]; exact hb
  | set_oneoff q t ac fl =>
    simp only [step, Option.some.injEq, Prod.mk.injEq] at h
    rw [← h.2]; exact hb
  | clear_oneoff =>
    simp only [step, Option.some.injEq, Prod.mk.injEq] at h
    rw [← h.2]; exact hb

theorem run_pool_bound :
    ∀ (calls : List (Env × Call)) (st : State) (rets : List Ret) (final : State),
      run true st calls = some (rets, final) → st.s_lookasides.length ≤ 6 →
      final.s_lookasides.length ≤ 6 := by
  intro calls
  induction calls with
  | nil =>
    intro st rets final h hb
    simp only [run, Option.some.injEq, Prod.mk.injEq] at h
    rw [← h.2]; exact hb
  | cons ec rest ih =>
    intro st rets final h hb
    obtain ⟨env, c⟩ := ec
    cases hs : step true st env c with
    | none => simp [run, hs] at h
    | some rs =>
      obtain ⟨r, st'⟩ := rs
      rw [run_cons true st env c rest r st' hs] at h
      cases hr : run true st' rest with
      | none => simp [hr] at h
      | some out =>
        obtain ⟨rs', fin⟩ := out
        simp only [hr, Option.some.injEq, Prod.mk.injEq] at h
        rw [← h.2]
        exact ih st' rs' fin hr (step_pool_bound env c st st' r hs hb)

/-- C9, as stated, fails: in a diagnostic build six creations on distinct
arrays from the empty registry all return true without a failed assertion,
and the registry then holds 6 tables. -/
theorem six_live_tables_unflagged :
    Option.map (fun out => (out.1, out.2.s_lookasides.length))
      (run true State.init [(empty_env, Call.create 1), (empty_env, Call.create 2),
        (empty_env, Call.create 3), (empty_env, Call.create 4), (empty_env, Call.create 5),
        (empty_env, Call.create 6)]) =
      some ([Ret.int32 true, Ret.int32 true, Ret.int32 true, Ret.int32 true, Ret.int32 true,
        Ret.int32 true], 6) := by
  decide

/-- C9, amended: in a diagnostic build, having more than 5 live lookaside
tables is flagged by the next creation: whenever `create_matches_lookaside` on
a non-null array returns without a failed assertion, the registry held at most
5 tables before the call and holds one more, so at most 6, after it; and from
the empty registry every sequence of calls that completes without a failed
assertion leaves at most 6 tables. -/
theorem debug_create_pool_bound (st0 : State) (calls : List (Env × Call))
    (rets : List Ret) (final : State)
    (hempty : st0.s_lookasides = [])
    (hrun : run true st0 calls = some (rets, final)) :
    final.s_lookasides.length ≤ 6 ∧
    (∀ (env : Env) (st : State) (a : Ptr) (b : Bool) (st' : State), a ≠ 0 →
      create_matches_lookaside true env st a = some (b, st') →
      st.s_lookasides.length ≤ 5 ∧
        st'.s_lookasides.length = st.s_lookasides.length + 1) := by
  refine ⟨run_pool_bound calls st0 rets final hrun (by simp [hempty]), ?_⟩
  intro env st a b st' ha hc
  obtain ⟨-, harr, hsz⟩ := create_step true env st a ha b st' hc
  refine ⟨hsz rfl, ?_⟩
  have := congrArg List.length harr
  simpa [State.arrays] using this

/-- C9, amended, at a single creation from the initial globals. -/
theorem debug_create_pool_bound_witness :
    State.init.s_lookasides = [] ∧
    run true State.init [(empty_env, Call.create 1)] =
      some ([Ret.int32 true], ⟨[⟨1, []⟩], 0, ⟨0, 0, 0, 0, 0⟩⟩) ∧
    (State.mk [⟨1, []⟩] 0 ⟨0, 0, 0, 0, 0⟩).s_lookasides.length ≤ 6 ∧
    (∀ (env : Env) (st : State) (a : Ptr) (b : Bool) (st' : State), a ≠ 0 →
      create_matches_lookaside true env st a = some (b, st') →
      st.s_lookasides.length ≤ 5 ∧
        st'.s_lookasides.length = st.s_lookasides.length + 1) :=
  ⟨rfl, by decide,
    debug_create_pool_bound State.init [(empty_env, Call.create 1)] [Ret.int32 true]
      ⟨[⟨1, []⟩], 0, ⟨0, 0, 0, 0, 0⟩⟩ rfl (by decide)⟩

theorem none_associated_iff (l : List matches_lookaside) (a : Ptr) :
    none_associated l a = true ↔ a ∉ l.map (fun t => t.m_matches) := by
  simp only [none_associated, matches_lookaside.associated, List.all_eq_true, Bool.not_eq_true',
    beq_eq_false_iff_ne, ne_eq, List.mem_map, not_exists, not_and]
  constructor
  · intro h t ht hta; exact h t ht hta.symm
  · intro h t ht hta; exact h t ht hta.symm

/-- C10: `destroy_matches_lookaside(array)` for a non-null array with no
registered table returns false and leaves the globals unchanged, unless it is
a diagnostic build outside the read-string state, where its assertion fails;
no array has a table in the initial globals, nor, the registry holding at most
one table per array, right after its table was destroyed.  With a null array
`create_matches_lookaside` and `destroy_matches_lookaside` return false,
change nothing and evaluate no assertion. -/
theorem destroy_without_table (debug : Bool) (env : Env) (st : State) (array : Ptr)
    (harray : array ≠ 0) (hnone : none_associated st.s_lookasides array = true) :
    destroy_matches_lookaside debug env st array =
      (if debug && !env.readstr then Option.none else some (false, st)) ∧
    destroy_matches_lookaside debug env st 0 = some (false, st) ∧
    create_matches_lookaside debug env st 0 = some (false, st) ∧
    none_associated State.init.s_lookasides array = true ∧
    (∀ s0 s1 : State, s0.arrays.Nodup →
      destroy_matches_lookaside debug env s0 array = some (true, s1) →
      none_associated s1.s_lookasides array = true) := by
  refine ⟨?_, ?_, ?_, rfl, ?_⟩
  · have he := (erase_associated_none st.s_lookasides array).mpr hnone
    simp [destroy_matches_lookaside, harray, he]
  · simp [destroy_matches_lookaside]
  · simp [create_matches_lookaside]
  · intro s0 s1 hn hd
    by_cases hmem : array ∈ s0.arrays
    · obtain ⟨s', h1, -, h3, -⟩ := destroy_step debug env s0 array harray hmem hn
      rw [h1] at hd
      simp only [Option.some.injEq, Prod.mk.injEq, true_and] at hd
      subst hd
      rw [none_associated_iff]
      show array ∉ s'.arrays
      rw [h3]
      exact fun hc => (List.Nodup.mem_erase_iff hn).mp hc |>.1 rfl
    · have hna := (none_associated_iff s0.s_lookasides array).mpr hmem
      have he := (erase_associated_none s0.s_lookasides array).mpr hna
      simp only [destroy_matches_lookaside, harray, if_false, he] at hd
      split at hd <;> simp at hd

/-- C10 at the array 2 in globals that hold a table for the array 1 only, in
a diagnostic build outside the read-string state. -/
theorem destroy_without_table_witness :
    (2 : Ptr) ≠ 0 ∧ none_associated [⟨1, []⟩] 2 = true ∧
    (destroy_matches_lookaside true empty_env ⟨[⟨1, []⟩], 0, ⟨0, 0, 0, 0, 0⟩⟩ 2 =
      (if true && !empty_env.readstr then Option.none
        else some (false, ⟨[⟨1, []⟩], 0, ⟨0, 0, 0, 0, 0⟩⟩)) ∧
    destroy_matches_lookaside true empty_env ⟨[⟨1, []⟩], 0, ⟨0, 0, 0, 0, 0⟩⟩ 0 =
      some (false, ⟨[⟨1, []⟩], 0, ⟨0, 0, 0, 0, 0⟩⟩) ∧
    create_matches_lookaside true empty_env ⟨[⟨1, []⟩], 0, ⟨0, 0, 0, 0, 0⟩⟩ 0 =
      some (false, ⟨[⟨1, []⟩], 0, ⟨0, 0, 0, 0, 0⟩⟩) ∧
    none_associated State.init.s_lookasides 2 = true ∧
    (∀ s0 s1 : State, s0.arrays.Nodup →
      destroy_matches_lookaside true empty_env s0 2 = some (true, s1) →
      none_associated s1.s_lookasides 2 = true)) :=
  ⟨by decide, by decide,
    destroy_without_table true empty_env ⟨[⟨1, []⟩], 0, ⟨0, 0, 0, 0, 0⟩⟩ 2 (by decide)
      (by decide)⟩

/-! ## Claims on lookups and on the host values -/

theorem lookup_tables_append (pre : List matches_lookaside) (t : matches_lookaside)
    (post : List matches_lookaside) (q : Ptr) (e : match_extra)
    (hpre : ∀ u ∈ pre, u.find q = Option.none) (ht : t.find q = some e) :
    lookup_tables (pre ++ t :: post) q = some e := by
  induction pre with
  | nil => simp [lookup_tables, ht]
  | cons u rest ih =>
    have hu : u.find q = Option.none := hpre u (List.mem_cons_self _ _)
    have hrest : ∀ v ∈ rest, v.find q = Option.none :=
      fun v hv => hpre v (List.mem_cons_of_mem _ hv)
    simp [lookup_tables, hu, ih hrest]

theorem lookup_tables_none (l : List matches_lookaside) (q : Ptr)
    (h : ∀ u ∈ l, u.find q = Option.none) : lookup_tables l q = Option.none := by
  induction l with
  | nil => rfl
  | cons u rest ih =>
    have hu : u.find q = Option.none := h u (List.mem_cons_self _ _)
    have hrest : ∀ v ∈ rest, v.find q = Option.none :=
      fun v hv => h v (List.mem_cons_of_mem _ hv)
    simp [lookup_tables, hu, ih hrest]

/-- The null pointer is no match to look up: `lookup_match` starts with
`assert(match)`.  After `set_matches_lookaside_oneoff(nullptr, file, 'x', 1)` a
diagnostic `lookup_match(nullptr)` fails that assertion and a non-diagnostic
one returns the empty details. -/
theorem lookup_oneoff_null :
    lookup_match false empty_env
        (set_matches_lookaside_oneoff State.init 0 match_type.file 120 1) 0 =
      some ⟨0, ⟨0, 0, match_type.none, 0, 0⟩⟩ ∧
    lookup_match true empty_env
        (set_matches_lookaside_oneoff State.init 0 match_type.file 120 1) 0 = Option.none := by
  decide

/-- C11: `lookup_match` consults the one-off slot first: after
`set_matches_lookaside_oneoff(m, type, append_char, flags)`, `lookup_match(m)`
returns, in both builds, details for `m` with exactly that type, append char
and flags, whatever the live tables hold; after
`clear_matches_lookaside_oneoff` the lookup of a non-null pointer is answered
by the tables alone, or by the empty details when no table holds it.  The
match `m` is a non-null pointer, as `lookup_match` asserts of its argument. -/
theorem lookup_oneoff_first (debug : Bool) (env : Env) (st : State) (m : Ptr)
    (type append_char flags : Nat) (hm : m ≠ 0) :
    (∃ d, lookup_match debug env (set_matches_lookaside_oneoff st m type append_char flags) m =
        some d ∧
      d.m_match = m ∧ d.get_type = type ∧ d.get_append_char = append_char ∧
      d.get_flags = flags) ∧
    (∀ q, q ≠ 0 →
      lookup_match debug env (clear_matches_lookaside_oneoff st) q =
        match lookup_tables st.s_lookasides q with
        | some extra => some ⟨q, extra⟩
        | Option.none =>
          if debug && !env.readstr then Option.none else some ⟨0, s_empty_extra⟩) := by
  constructor
  · refine ⟨⟨m, { st.s_extra with type := type, append_char := append_char, flags := flags }⟩,
      ?_, rfl, rfl, rfl, rfl⟩
    simp [lookup_match, set_matches_lookaside_oneoff, match_details.new, hm]
  · intro q hq
    have hq' : (0 : Ptr) ≠ q := fun h => hq h.symm
    simp only [lookup_match, clear_matches_lookaside_oneoff, match_details.new, hq, hq']
    cases lookup_tables st.s_lookasides q <;> cases debug <;> simp [hq]

/-- C11 at the pointer 7, for which the one live table holds an
entry of type dir: the one-off type file, append char 'x' and flags 1 are
returned. -/
theorem lookup_oneoff_first_witness :
    (7 : Ptr) ≠ 0 ∧
    (matches_lookaside.mk 5 [(7, ⟨1, 2, match_type.dir, 0, 0⟩)]).find 7 =
      some ⟨1, 2, match_type.dir, 0, 0⟩ ∧
    ((∃ d, lookup_match true empty_env (set_matches_lookaside_oneoff
          ⟨[⟨5, [(7, ⟨1, 2, match_type.dir, 0, 0⟩)]⟩], 0, ⟨0, 0, 0, 0, 0⟩⟩ 7
          match_type.file 120 1) 7 = some d ∧
        d.m_match = 7 ∧ d.get_type = match_type.file ∧ d.get_append_char = 120 ∧
        d.get_flags = 1) ∧
      (∀ q, q ≠ 0 →
        lookup_match true empty_env (clear_matches_lookaside_oneoff
            ⟨[⟨5, [(7, ⟨1, 2, match_type.dir, 0, 0⟩)]⟩], 0, ⟨0, 0, 0, 0, 0⟩⟩) q =
          match lookup_tables [⟨5, [(7, ⟨1, 2, match_type.dir, 0, 0⟩)]⟩] q with
          | some extra => some ⟨q, extra⟩
          | Option.none =>
            if true && !empty_env.readstr then Option.none else some ⟨0, s_empty_extra⟩)) :=
  ⟨by decide, by decide,
    lookup_oneoff_first true empty_env
      ⟨[⟨5, [(7, ⟨1, 2, match_type.dir, 0, 0⟩)]⟩], 0, ⟨0, 0, 0, 0, 0⟩⟩ 7 match_type.file 120 1
      (by decide)⟩

theorem add_find_null (debug : Bool) (env : Env) (k : Nat) (self : matches_lookaside) (p : Ptr)
    (b : Bool) (t : matches_lookaside)
    (h : matches_lookaside.add debug env k self p = some (b, t))
    (hself : self.find 0 = Option.none) : t.find 0 = Option.none := by
  unfold matches_lookaside.add at h
  split at h
  · cases h; exact hself
  · rename_i hp
    split at h
    · cases h; exact hself
    · split at h
      · cases h
      · cases h
        cases self with
        | mk a m =>
          rw [find_emplace]
          simp [Ne.symm hp, hself]

theorem add_loop_find_null (debug : Bool) (env : Env) :
    ∀ (l : List Ptr) (k : Nat) (self t : matches_lookaside),
      add_loop debug env k l self = some t → self.find 0 = Option.none →
      t.find 0 = Option.none := by
  intro l
  induction l with
  | nil =>
    intro k self t h hself
    simp only [add_loop, add_null, Option.some.injEq] at h
    rw [← h]; exact hself
  | cons p rest ih =>
    intro k self t h hself
    unfold add_loop at h
    cases hadd : matches_lookaside.add debug env k self p with
    | none => simp [hadd] at h
    | some bt =>
      obtain ⟨b, t'⟩ := bt
      have hn := add_find_null debug env k self p b t' hadd hself
      cases b
      · simp only [hadd, Option.some.injEq] at h
        rw [← h]; exact hn
      · simp only [hadd] at h
        exact ih _ _ _ h hn

theorem new_find_null (debug : Bool) (env : Env) (a : Ptr) (t : matches_lookaside)
    (h : matches_lookaside.new debug env a = some t) : t.find 0 = Option.none := by
  unfold matches_lookaside.new at h
  split at h
  · cases h
  · split at h
    · exact add_loop_find_null debug env _ _ _ _ h rfl
    · cases h; rfl

theorem create_cons (debug : Bool) (env : Env) (st : State) (a : Ptr) (st' : State)
    (h : create_matches_lookaside debug env st a = some (true, st')) :
    ∃ t, matches_lookaside.new debug env a = some t ∧
      st' = { st with s_lookasides := t :: st.s_lookasides } := by
  unfold create_matches_lookaside at h
  split at h
  · simp at h
  · split at h
    · cases h
    · split at h
      · cases h
      · cases hnew : matches_lookaside.new debug env a with
        | none => simp [hnew] at h
        | some t =>
          simp only [hnew, Option.some.injEq, Prod.mk.injEq, true_and] at h
          exact ⟨t, rfl, h.symm⟩

theorem erase_associated_sublist (l : List matches_lookaside) (a : Ptr) :
    ∀ l', erase_associated l a = some l' → l'.Sublist l := by
  induction l with
  | nil => intro l' h; simp [erase_associated] at h
  | cons t rest ih =>
    intro l' h
    unfold erase_associated at h
    split at h
    · cases h; exact List.sublist_cons_self _ _
    · cases he : erase_associated rest a with
      | none => simp [he] at h
      | some l'' =>
        simp only [he, Option.some.injEq] at h
        subst h
        exact (ih l'' he).cons₂ t

/-- C12: when the one-off slot does not hold the queried pointer and live
tables hold an entry for it, `lookup_match` returns the entry of the first of
them in `s_lookasides`, which is the most recently created one, since
`create_matches_lookaside` puts the new table at the front and
`destroy_matches_lookaside` keeps the order of the others; when no table holds
it, `lookup_match` returns details with no match and the empty extra (type
none, append char 0, flags 0), unless a diagnostic build fails an assertion
(null pointer, or not in the read-string state).  Tables are taken to hold no
entry for the null pointer, which no constructed table does. -/
theorem lookup_most_recent_table (debug : Bool) (env : Env) (st : State) (q : Ptr)
    (hslot : st.s_match ≠ q)
    (hkeys : ∀ u ∈ st.s_lookasides, u.find 0 = Option.none) :
    (∀ pre t post e, st.s_lookasides = pre ++ t :: post →
      (∀ u ∈ pre, u.find q = Option.none) → t.find q = some e →
      lookup_match debug env st q = some ⟨q, e⟩) ∧
    ((∀ u ∈ st.s_lookasides, u.find q = Option.none) →
      lookup_match debug env st q =
        if debug && (q == 0 || !env.readstr) then Option.none
        else some ⟨0, ⟨0, 0, match_type.none, 0, 0⟩⟩) ∧
    (∀ (env' : Env) (a : Ptr) (st' : State),
      create_matches_lookaside debug env' st a = some (true, st') →
      ∃ t, st'.s_lookasides = t :: st.s_lookasides ∧ t.find 0 = Option.none) ∧
    (∀ (env' : Env) (a : Ptr) (b : Bool) (st' : State),
      destroy_matches_lookaside debug env' st a = some (b, st') →
      st'.s_lookasides.Sublist st.s_lookasides) := by
  refine ⟨?_, ?_, ?_, ?_⟩
  · intro pre t post e hl hpre ht
    have hq : q ≠ 0 := by
      intro hq0
      have := hkeys t (by rw [hl]; simp)
      rw [hq0] at ht
      rw [ht] at this
      cases this
    have hlook := lookup_tables_append pre t post q e hpre ht
    rw [← hl] at hlook
    simp [lookup_match, hslot, hlook, match_details.new, hq]
  · intro hnone
    have hlook := lookup_tables_none st.s_lookasides q hnone
    by_cases hq : q = 0
    · subst hq
      cases debug <;> simp [lookup_match, hslot, hlook, match_details.new, s_empty_extra]
    · cases debug <;> simp [lookup_match, hslot, hlook, match_details.new, hq, s_empty_extra]
  · intro env' a st' h
    obtain ⟨t, hnew, hst⟩ := create_cons debug env' st a st' h
    exact ⟨t, by rw [hst], new_find_null debug env' a t hnew⟩
  · intro env' a b st' h
    unfold destroy_matches_lookaside at h
    split at h
    · simp only [Option.some.injEq, Prod.mk.injEq] at h
      rw [← h.2]
    · cases he : erase_associated st.s_lookasides a with
      | none =>
        simp only [he] at h
        split at h
        · cases h
        · simp only [Option.some.injEq, Prod.mk.injEq] at h
          rw [← h.2]
      | some l' =>
        simp only [he, Option.some.injEq, Prod.mk.injEq] at h
        rw [← h.2]
        exact erase_associated_sublist _ _ _ he

/-- C12 at the pointer 7, held by the table of the array 6 (created last) with
type file and by the table of the array 5 with type dir: the lookup returns the
entry of type file. -/
theorem lookup_most_recent_table_witness :
    (0 : Ptr) ≠ 7 ∧
    (∀ u ∈ [matches_lookaside.mk 6 [(7, ⟨1, 2, match_type.file, 0, 0⟩)],
        matches_lookaside.mk 5 [(7, ⟨3, 4, match_type.dir, 0, 0⟩)]], u.find 0 = Option.none) ∧
    lookup_match true empty_env
        ⟨[⟨6, [(7, ⟨1, 2, match_type.file, 0, 0⟩)]⟩, ⟨5, [(7, ⟨3, 4, match_type.dir, 0, 0⟩)]⟩],
          0, ⟨0, 0, 0, 0, 0⟩⟩ 7 =
      some ⟨7, ⟨1, 2, match_type.file, 0, 0⟩⟩ :=
  ⟨by decide, by decide,
    (lookup_most_recent_table true empty_env
      ⟨[⟨6, [(7, ⟨1, 2, match_type.file, 0, 0⟩)]⟩, ⟨5, [(7, ⟨3, 4, match_type.dir, 0, 0⟩)]⟩],
        0, ⟨0, 0, 0, 0, 0⟩⟩ 7 (by decide) (by decide)).1
      [] ⟨6, [(7, ⟨1, 2, match_type.file, 0, 0⟩)]⟩ [⟨5, [(7, ⟨3, 4, match_type.dir, 0, 0⟩)]⟩]
      ⟨1, 2, match_type.file, 0, 0⟩ rfl (by simp) (by decide)⟩

theorem filter_associated_length (l : List matches_lookaside) (a : Ptr) :
    (l.filter (fun t => t.associated a)).length = (l.map (fun t => t.m_matches)).count a := by
  induction l with
  | nil => rfl
  | cons t rest ih =>
    by_cases h : t.m_matches = a
    · have : t.associated a = true := by simp [matches_lookaside.associated, h]
      simp [List.filter_cons, this, h, ih]
    · have : t.associated a = false := by simp [matches_lookaside.associated, Ne.symm h]
      simp [List.filter_cons, this, h, ih, List.count_cons]

theorem one_table_iff_nodup (l : List matches_lookaside) :
    (∀ a, (l.filter (fun t => t.associated a)).length ≤ 1) ↔
      (l.map (fun t => t.m_matches)).Nodup := by
  rw [List.nodup_iff_count_le_one]
  simp only [filter_associated_length]

theorem erase_associated_arrays (l : List matches_lookaside) (a : Ptr) :
    ∀ l', erase_associated l a = some l' →
      l'.map (fun t => t.m_matches) = (l.map (fun t => t.m_matches)).erase a := by
  induction l with
  | nil => intro l' h; simp [erase_associated] at h
  | cons t rest ih =>
    intro l' h
    unfold erase_associated at h
    by_cases ht : t.m_matches = a
    · have hassoc : t.associated a = true := by simp [matches_lookaside.associated, ht]
      simp only [hassoc, if_true, Option.some.injEq] at h
      subst h
      simp [ht]
    · have hassoc : t.associated a = false := by
        simp [matches_lookaside.associated, Ne.symm ht]
      simp only [hassoc, Bool.false_eq_true, if_false] at h
      cases he : erase_associated rest a with
      | none => simp [he] at h
      | some l'' =>
        simp only [he, Option.some.injEq] at h
        subst h
        simp only [List.map_cons, ih l'' he]
        rw [List.erase_cons_tail]
        simpa using ht

theorem destroy_nodup (debug : Bool) (env : Env) (st : State) (a : Ptr) (b : Bool)
    (st' : State) (h : destroy_matches_lookaside debug env st a = some (b, st'))
    (hn : st.arrays.Nodup) : st'.arrays.Nodup := by
  unfold destroy_matches_lookaside at h
  split at h
  · simp only [Option.some.injEq, Prod.mk.injEq] at h
    rw [← h.2]; exact hn
  · cases he : erase_associated st.s_lookasides a with
    | none =>
      simp only [he] at h
      split at h
      · cases h
      · simp only [Option.some.injEq, Prod.mk.injEq] at h
        rw [← h.2]; exact hn
    | some l' =>
      simp only [he, Option.some.injEq, Prod.mk.injEq] at h
      rw [← h.2]
      show (l'.map (fun t => t.m_matches)).Nodup
      rw [erase_associated_arrays _ _ _ he]
      exact hn.erase a

theorem create_nodup (debug : Bool) (env : Env) (st : State) (a : Ptr) (b : Bool)
    (st' : State) (h : create_matches_lookaside debug env st a = some (b, st'))
    (hfresh : debug = true ∨ none_associated st.s_lookasides a = true)
    (hn : st.arrays.Nodup) : st'.arrays.Nodup := by
  by_cases ha : a = 0
  · simp only [create_matches_lookaside, ha, if_true, Option.some.injEq, Prod.mk.injEq] at h
    rw [← h.2]; exact hn
  · obtain ⟨-, harr, -⟩ := create_step debug env st a ha b st' h
    rw [harr]
    refine List.nodup_cons.mpr ⟨?_, hn⟩
    have hna : none_associated st.s_lookasides a = true := by
      rcases hfresh with hd | hf
      · subst hd
        unfold create_matches_lookaside at h
        rw [if_neg ha] at h
        split at h
        · cases h
        · split at h
          · cases h
          · rename_i hc
            simpa using hc
      · exact hf
    exact (none_associated_iff _ _).mp hna

theorem step_nodup (env : Env) (c : Call) (st st' : State) (r : Ret)
    (h : step true st env c = some (r, st')) (hn : st.arrays.Nodup) : st'.arrays.Nodup := by
  cases c with
  | create a =>
    cases hc : create_matches_lookaside true env st a with
    | none => simp [step, hc] at h
    | some bst =>
      obtain ⟨b, s⟩ := bst
      simp only [step, hc, Option.some.injEq, Prod.mk.injEq] at h
      rw [← h.2]
      exact create_nodup true env st a b s hc (Or.inl rfl) hn
  | destroy a =>
    cases hd : destroy_matches_lookaside true env st a with
    | none => simp [step, hd] at h
    | some bst =>
      obtain ⟨b, s⟩ := bst
      simp only [step, hd, Option.some.injEq, Prod.mk.injEq] at h
      rw [← h.2]
      exact destroy_nodup true env st a b s hd hn
  | lookup q =>
    cases hl : lookup_match true env st q with
    | none => simp [step, hl] at h
    | some d =>
      simp only [step, hl, Option.some.injEq, Prod.mk.injEq] at h
      rw [← h.2]; exact hn
  | set_oneoff q t ac fl =>
    simp only [step, Option.some.injEq, Prod.mk.injEq] at h
    rw [← h.2]; exact hn
  | clear_oneoff =>
    simp only [step, Option.some.injEq, Prod.mk.injEq] at h
    rw [← h.2]; exact hn

theorem run_nodup :
    ∀ (calls : List (Env × Call)) (st : State) (rets : List Ret) (final : State),
      run true st calls = some (rets, final) → st.arrays.Nodup → final.arrays.Nodup := by
  intro calls
  induction calls with
  | nil =>
    intro st rets final h hn
    simp only [run, Option.some.injEq, Prod.mk.injEq] at h
    rw [← h.2]; exact hn
  | cons ec rest ih =>
    intro st rets final h hn
    obtain ⟨env, c⟩ := ec
    cases hs : step true st env c with
    | none => simp [run, hs] at h
    | some rs =>
      obtain ⟨r, st'⟩ := rs
      rw [run_cons true st env c rest r st' hs] at h
      cases hr : run true st' rest with
      | none => simp [hr] at h
      | some out =>
        obtain ⟨rs', fin⟩ := out
        simp only [hr, Option.some.injEq, Prod.mk.injEq] at h
        rw [← h.2]
        exact ih st' rs' fin hr (step_nodup env c st st' r hs hn)

/-- C13, as stated, fails in a non-diagnostic build: creating the array 1 twice
returns true twice and leaves two tables associated with it. -/
theorem double_create_two_tables :
    run false State.init [(empty_env, Call.create 1), (empty_env, Call.create 1)] =
      some ([Ret.int32 true, Ret.int32 true], ⟨[⟨1, []⟩, ⟨1, []⟩], 0, ⟨0, 0, 0, 0, 0⟩⟩) ∧
    ([matches_lookaside.mk 1 [], matches_lookaside.mk 1 []].filter
      (fun t => t.associated 1)).length = 2 := by
  decide

/-- C13, amended: in a diagnostic build the registry holds at most one table
per array after any sequence of calls that starts from such a registry and
completes without a failed assertion; in either build a destruction keeps this,
and so does a creation for an array that has no table (the only creations that
pass the diagnostic assertion). -/
theorem registry_one_table_per_array (st0 : State) (calls : List (Env × Call))
    (rets : List Ret) (final : State)
    (hinit : ∀ a, (st0.s_lookasides.filter (fun t => t.associated a)).length ≤ 1)
    (hrun : run true st0 calls = some (rets, final)) :
    (∀ a, (final.s_lookasides.filter (fun t => t.associated a)).length ≤ 1) ∧
    (∀ (debug : Bool) (env : Env) (st : State) (array : Ptr) (b : Bool) (st' : State),
      (∀ a, (st.s_lookasides.filter (fun t => t.associated a)).length ≤ 1) →
      destroy_matches_lookaside debug env st array = some (b, st') →
      ∀ a, (st'.s_lookasides.filter (fun t => t.associated a)).length ≤ 1) ∧
    (∀ (debug : Bool) (env : Env) (st : State) (array : Ptr) (b : Bool) (st' : State),
      (∀ a, (st.s_lookasides.filter (fun t => t.associated a)).length ≤ 1) →
      none_associated st.s_lookasides array = true →
      create_matches_lookaside debug env st array = some (b, st') →
      ∀ a, (st'.s_lookasides.filter (fun t => t.associated a)).length ≤ 1) := by
  refine ⟨?_, ?_, ?_⟩
  · rw [one_table_iff_nodup] at hinit ⊢
    exact run_nodup calls st0 rets final hrun hinit
  · intro debug env st array b st' hst hd
    rw [one_table_iff_nodup] at hst ⊢
    exact destroy_nodup debug env st array b st' hd hst
  · intro debug env st array b st' hst hna hc
    rw [one_table_iff_nodup] at hst ⊢
    exact create_nodup debug env st array b st' hc (Or.inr hna) hst

/-- C13, amended, at the calls create 1, create 2, destroy 1, create 1 of a
diagnostic build, from the initial globals. -/
theorem registry_one_table_per_array_witness :
    (∀ a, (State.init.s_lookasides.filter (fun t => t.associated a)).length ≤ 1) ∧
    run true State.init [(empty_env, Call.create 1), (empty_env, Call.create 2),
        (empty_env, Call.destroy 1), (empty_env, Call.create 1)] =
      some ([Ret.int32 true, Ret.int32 true, Ret.int32 true, Ret.int32 true],
        ⟨[⟨1, []⟩, ⟨2, []⟩], 0, ⟨0, 0, 0, 0, 0⟩⟩) ∧
    (∀ a, ((State.mk [⟨1, []⟩, ⟨2, []⟩] 0 ⟨0, 0, 0, 0, 0⟩).s_lookasides.filter
      (fun t => t.associated a)).length ≤ 1) :=
  ⟨fun _ => Nat.zero_le _, by decide,
    (registry_one_table_per_array State.init [(empty_env, Call.create 1),
      (empty_env, Call.create 2), (empty_env, Call.destroy 1), (empty_env, Call.create 1)]
      [Ret.int32 true, Ret.int32 true, Ret.int32 true, Ret.int32 true]
      ⟨[⟨1, []⟩, ⟨2, []⟩], 0, ⟨0, 0, 0, 0, 0⟩⟩ (fun _ => Nat.zero_le _) (by decide)).1⟩

theorem override_match_append_eq (debug : Bool) (env : Env) (st : State)
    (has_mask sup_mask : Nat) (host : Host) (q : Ptr) :
    override_match_append debug env st has_mask sup_mask host q =
      match lookup_match debug env st q with
      | Option.none => Option.none
      | some d =>
        some {
          rl_completion_append_character :=
            if d.get_append_char ≠ 0 then ((d.get_append_char % 256 : Nat) : Int)
            else host.rl_completion_append_character
          rl_completion_suppress_append :=
            if d.get_flags &&& has_mask ≠ 0 then
              (if d.get_flags &&& sup_mask ≠ 0 then 1 else 0)
            else host.rl_completion_suppress_append
          rl_filename_completion_desired :=
            if host.rl_filename_completion_desired ≠ 0 then
              (if is_pathish d.get_type then 1 else 0)
            else host.rl_filename_completion_desired } := by
  unfold override_match_append
  cases lookup_match debug env st q with
  | none => rfl
  | some d =>
    simp only
    by_cases h1 : d.get_append_char ≠ 0 <;> by_cases h2 : d.get_flags &&& has_mask ≠ 0 <;>
      by_cases h3 : host.rl_filename_completion_desired ≠ 0 <;> simp [h1, h2, h3]

/-- C14: `override_match_append` overrides the host's suppress-append setting
only if the match's flags carry the has-suppress-append bit, and it then
becomes the suppress-append bit (1 or 0); it overrides the host's append
character only if the match's append char is non-zero, and it then becomes that
char as a `uint8`; otherwise each of the two host values is left unchanged.
The call completes exactly when the lookup of the match does. -/
theorem override_append_and_suppress (debug : Bool) (env : Env) (st : State)
    (MATCH_FLAG_HAS_SUPPRESS_APPEND MATCH_FLAG_SUPPRESS_APPEND : Nat) (host : Host)
    (match_ : Ptr) :
    (lookup_match debug env st match_ = Option.none →
      override_match_append debug env st MATCH_FLAG_HAS_SUPPRESS_APPEND
        MATCH_FLAG_SUPPRESS_APPEND host match_ = Option.none) ∧
    (∀ details, lookup_match debug env st match_ = some details →
      ∃ host', override_match_append debug env st MATCH_FLAG_HAS_SUPPRESS_APPEND
          MATCH_FLAG_SUPPRESS_APPEND host match_ = some host' ∧
        host'.rl_completion_suppress_append =
          (if details.get_flags &&& MATCH_FLAG_HAS_SUPPRESS_APPEND ≠ 0 then
            (if details.get_flags &&& MATCH_FLAG_SUPPRESS_APPEND ≠ 0 then 1 else 0)
          else host.rl_completion_suppress_append) ∧
        host'.rl_completion_append_character =
          (if details.get_append_char ≠ 0 then ((details.get_append_char % 256 : Nat) : Int)
          else host.rl_completion_append_character)) := by
  constructor
  · intro h
    rw [override_match_append_eq, h]
  · intro details h
    rw [override_match_append_eq, h]
    exact ⟨_, rfl, rfl, rfl⟩

/-- C15: after `override_match_append(match)` the host's
filename-completion-desired value is true (non-zero) exactly when it was true
before the call and `is_pathish` holds of the type of the match; in particular
the call never turns filename completion on when it was off.  The call
completes exactly when the lookup of the match does. -/
theorem override_filename_completion (debug : Bool) (env : Env) (st : State)
    (MATCH_FLAG_HAS_SUPPRESS_APPEND MATCH_FLAG_SUPPRESS_APPEND : Nat) (host : Host)
    (match_ : Ptr) :
    ((override_match_append debug env st MATCH_FLAG_HAS_SUPPRESS_APPEND
        MATCH_FLAG_SUPPRESS_APPEND host match_).isSome =
      (lookup_match debug env st match_).isSome) ∧
    (∀ details host', lookup_match debug env st match_ = some details →
      override_match_append debug env st MATCH_FLAG_HAS_SUPPRESS_APPEND
        MATCH_FLAG_SUPPRESS_APPEND host match_ = some host' →
      (host'.rl_filename_completion_desired ≠ 0 ↔
        (host.rl_filename_completion_desired ≠ 0 ∧ is_pathish details.get_type = true)) ∧
      (host.rl_filename_completion_desired = 0 → host'.rl_filename_completion_desired = 0)) := by
  constructor
  · rw [override_match_append_eq]
    cases lookup_match debug env st match_ <;> rfl
  · intro details host' h ho
    rw [override_match_append_eq, h] at ho
    simp only [Option.some.injEq] at ho
    subst ho
    by_cases h3 : host.rl_filename_completion_desired = 0
    · simp [h3]
    · by_cases h4 : is_pathish details.get_type = true <;> simp [h3, h4]

/-- C14 at a match found in the one-off slot with append char 'x' and flags 6,
the masks being 2 and 4: the append character becomes 'x' and suppress-append
becomes 1. -/
theorem override_append_and_suppress_witness :
    ∃ host', override_match_append true empty_env
        ⟨[], 7, ⟨0, 0, match_type.file, 120, 6⟩⟩ 2 4 ⟨32, 0, 1⟩ 7 = some host' ∧
      host'.rl_completion_suppress_append =
        (if match_details.get_flags ⟨7, ⟨0, 0, match_type.file, 120, 6⟩⟩ &&& 2 ≠ 0 then
          (if match_details.get_flags ⟨7, ⟨0, 0, match_type.file, 120, 6⟩⟩ &&& 4 ≠ 0 then 1
            else 0)
        else (Host.mk 32 0 1).rl_completion_suppress_append) ∧
      host'.rl_completion_append_character =
        (if match_details.get_append_char ⟨7, ⟨0, 0, match_type.file, 120, 6⟩⟩ ≠ 0 then
          ((match_details.get_append_char ⟨7, ⟨0, 0, match_type.file, 120, 6⟩⟩ % 256 : Nat) : Int)
        else (Host.mk 32 0 1).rl_completion_append_character) :=
  (override_append_and_suppress true empty_env ⟨[], 7, ⟨0, 0, match_type.file, 120, 6⟩⟩ 2 4
    ⟨32, 0, 1⟩ 7).2 ⟨7, ⟨0, 0, match_type.file, 120, 6⟩⟩ (by decide)

/-- C15 at a match of type word found in the one-off slot, filename completion
being on before the call: it is off after it. -/
theorem override_filename_completion_witness :
    ((Host.mk 32 0 0).rl_filename_completion_desired ≠ 0 ↔
      ((Host.mk 32 0 1).rl_filename_completion_desired ≠ 0 ∧
        is_pathish (match_details.get_type ⟨7, ⟨0, 0, match_type.word, 0, 0⟩⟩) = true)) ∧
    ((Host.mk 32 0 1).rl_filename_completion_desired = 0 →
      (Host.mk 32 0 0).rl_filename_completion_desired = 0) :=
  (override_filename_completion true empty_env ⟨[], 7, ⟨0, 0, match_type.word, 0, 0⟩⟩ 2 4
    ⟨32, 0, 1⟩ 7).2 ⟨7, ⟨0, 0, match_type.word, 0, 0⟩⟩ ⟨32, 0, 0⟩ (by decide) (by decide)

/-! ## Claims on `shadow_bool` -/

theorem shadow_calls_snoc (s : shadow_bool) (cs : List shadow_call) (c : shadow_call) :
    s.calls (cs ++ [c]) = (s.calls cs).call c := by
  simp [shadow_bool.calls, List.foldl_append]

theorem shadow_calls_invariant (d : Bool) :
    ∀ latest_first : List shadow_call,
      ((shadow_bool.new d).calls latest_first.reverse).m_default = d ∧
      ((shadow_bool.new d).calls latest_first.reverse).m_has_explicit =
        (last_explicit_from_latest latest_first).isSome ∧
      (∀ v, last_explicit_from_latest latest_first = some v →
        ((shadow_bool.new d).calls latest_first.reverse).m_explicit = v) ∧
      ((shadow_bool.new d).calls latest_first.reverse).m_implicit =
        (last_implicit_from_latest latest_first).getD d := by
  intro l
  induction l with
  | nil =>
    simp [shadow_bool.calls, shadow_bool.new, shadow_bool.reset, last_explicit_from_latest,
      last_implicit_from_latest]
  | cons c earlier ih =>
    obtain ⟨h1, h2, h3, h4⟩ := ih
    rw [List.reverse_cons, shadow_calls_snoc]
    cases c with
    | set_explicit v =>
      simp [shadow_bool.call, shadow_bool.set_explicit, last_explicit_from_latest,
        last_implicit_from_latest, h1, h4]
    | set_implicit v =>
      simp only [shadow_bool.call, shadow_bool.set_implicit, last_explicit_from_latest,
        last_implicit_from_latest, Option.getD_some]
      exact ⟨h1, h2, h3, trivial⟩
    | reset =>
      simp [shadow_bool.call, shadow_bool.reset, last_explicit_from_latest,
        last_implicit_from_latest, h1]

/-- C16: for a `shadow_bool` constructed with default `d` and any sequence of
`set_explicit`, `set_implicit` and `reset` calls, `get()` returns the value of
the last `set_explicit` since the last `reset` if there is one, else the value
of the last `set_implicit` since the last `reset` if there is one, else `d`;
`is_explicit()` is true exactly in the first case, and a copy has the same
`get()` and `is_explicit()`. -/
theorem shadow_bool_get (d : Bool) (cs : List shadow_call) :
    ((shadow_bool.new d).calls cs).get =
      (match last_explicit cs with
        | some v => v
        | Option.none =>
          match last_implicit cs with
          | some v => v
          | Option.none => d) ∧
    ((shadow_bool.new d).calls cs).is_explicit = (last_explicit cs).isSome ∧
    ((shadow_bool.new d).calls cs).copy.get = ((shadow_bool.new d).calls cs).get ∧
    ((shadow_bool.new d).calls cs).copy.is_explicit =
      ((shadow_bool.new d).calls cs).is_explicit := by
  obtain ⟨-, h2, h3, h4⟩ := shadow_calls_invariant d cs.reverse
  rw [List.reverse_reverse] at h2 h3 h4
  refine ⟨?_, h2, rfl, rfl⟩
  unfold shadow_bool.get last_explicit last_implicit
  rw [h2, h4]
  cases he : last_explicit_from_latest cs.reverse with
  | none =>
    cases last_implicit_from_latest cs.reverse <;> simp
  | some v => simp [h3 v he]

/-! ## Claims on the token table of `word_classifications` -/

theorem insert_set_eq {α : Type} (l : List α) (a b : α) :
    ∀ i, i < l.length →
      vector_insert (l.set i a) (i + 1) b = l.take i ++ a :: b :: l.drop (i + 1) := by
  induction l with
  | nil => intro i h; simp at h
  | cons x rest ih =>
    intro i h
    cases i with
    | zero => simp [vector_insert]
    | succ j =>
      have hj : j < rest.length := by simpa using h
      have := ih j hj
      simp only [vector_insert] at this ⊢
      simp only [List.set_cons_succ, List.take_succ_cons, List.drop_succ_cons, List.cons_append,
        this]

theorem set_eq_take_cons_drop_of_lt {α : Type} (l : List α) (a : α) :
    ∀ i, i < l.length → l.set i a = l.take i ++ a :: l.drop (i + 1) := by
  induction l with
  | nil => intro i h; simp at h
  | cons x rest ih =>
    intro i h
    cases i with
    | zero => simp
    | succ j =>
      have hj : j < rest.length := by simpa using h
      simp [ih j hj]

theorem getElem?_take_cons_self {α : Type} (l : List α) (a : α) (tail : List α) (i : Nat)
    (h : i < l.length) : (l.take i ++ a :: tail)[i]? = some a := by
  have hlen : (l.take i).length = i := by simp [Nat.min_eq_left (Nat.le_of_lt h)]
  rw [List.getElem?_append_right (by omega), hlen]
  simp

theorem getElem?_take_cons_next {α : Type} (l : List α) (a b : α) (tail : List α) (i : Nat)
    (h : i < l.length) : (l.take i ++ a :: b :: tail)[i + 1]? = some b := by
  have hlen : (l.take i).length = i := by simp [Nat.min_eq_left (Nat.le_of_lt h)]
  rw [List.getElem?_append_right (by omega), hlen]
  simp

theorem break_word_eq (debug : Bool) (s : word_classifications) (index length : Nat)
    (tok : word_class_info) (htok : s.m_info[index]? = some tok) :
    s.break_word debug index length =
      if debug && !(tok.word_class == word_class.invalid) then Outcome.assertion_failed
      else if debug && !(!tok.flush) then Outcome.assertion_failed
      else if debug && !(decide (length > 0) &&
          decide (length < u32 (tok.end_ + 4294967296 - tok.start))) then
        Outcome.assertion_failed
      else Outcome.done { s with
        m_info := s.m_info.take index ++
          { tok with end_ := u32 (tok.start + length) } ::
          { tok with start := u32 (tok.start + length), argmatcher := false } ::
          s.m_info.drop (index + 1) } := by
  obtain ⟨h, hget⟩ := List.getElem?_eq_some_iff.mp htok
  unfold word_classifications.break_word
  rw [dif_pos h]
  simp only [hget, insert_set_eq _ _ _ index h]

theorem break_word_out_of_range (debug : Bool) (s : word_classifications) (index length : Nat)
    (h : s.m_info.length ≤ index) : s.break_word debug index length = Outcome.done s := by
  unfold word_classifications.break_word
  rw [dif_neg (by omega)]

theorem unbreak_word_eq (debug : Bool) (s : word_classifications) (index length : Nat)
    (tok : word_class_info) (htok : s.m_info[index]? = some tok) :
    s.unbreak_word debug index length false =
      if debug && !(match s.m_info[index + 1]? with
          | some next => decide (u32 (tok.start + length) ≤ next.start)
          | Option.none => true) then Outcome.assertion_failed
      else if debug && !(if index + 1 = s.m_info.length then
          decide (u32 (tok.start + length) ≤ s.m_length) else true) then
        Outcome.assertion_failed
      else Outcome.done { s with
        m_info := s.m_info.set index { tok with end_ := u32 (tok.start + length) } } := by
  obtain ⟨h, hget⟩ := List.getElem?_eq_some_iff.mp htok
  unfold word_classifications.unbreak_word
  rw [dif_pos h]
  simp only [hget, Bool.false_eq_true, if_false]
  by_cases h1 : index + 1 < s.m_info.length
  · simp only [dif_pos h1, List.getElem?_eq_getElem h1]
  · simp only [dif_neg h1, List.getElem?_eq_none (Nat.le_of_not_lt h1)]

theorem u32_sub_of_le (a b : Nat) (hab : a ≤ b) (hb : b < 4294967296) :
    u32 (b + 4294967296 - a) = b - a := by
  unfold u32
  omega

theorem u32_of_lt (a : Nat) (h : a < 4294967296) : u32 a = a := by
  unfold u32
  omega

/-- C17: for every token table and every index of an already-classified token
(one whose class is below `word_class::max`), `classify_word(index, wc,
overwrite=false)` returns with the whole classification state unchanged, so
with the token's class unchanged, for every `wc`, in both builds and whatever
`to_word_class` computes. -/
theorem classify_word_keeps_classified (debug : Bool) (to_word_class : Nat → Nat)
    (s : word_classifications) (index wc : Nat) (tok : word_class_info)
    (htok : s.m_info[index]? = some tok) (hclass : tok.word_class < word_class.max) :
    s.classify_word debug to_word_class index wc false = Outcome.done s ∧
      s.is_word_classified index = true := by
  obtain ⟨h, hget⟩ := List.getElem?_eq_some_iff.mp htok
  have hc : s.is_word_classified index = true := by
    unfold word_classifications.is_word_classified
    rw [dif_pos h, hget]
    simpa using hclass
  refine ⟨?_, hc⟩
  unfold word_classifications.classify_word
  simp [h, hc]

/-- C17 at the second token, of class 2, of a table of two tokens. -/
theorem classify_word_keeps_classified_witness :
    word_classifications.classify_word true (fun c => c % 8)
        ⟨[⟨0, 5, 255, true, false⟩, ⟨6, 9, 2, false, false⟩], [],
          some [32, 32, 32, 32, 32, 32, 32, 32, 32], 9, []⟩ 1 3 false =
      Outcome.done ⟨[⟨0, 5, 255, true, false⟩, ⟨6, 9, 2, false, false⟩], [],
        some [32, 32, 32, 32, 32, 32, 32, 32, 32], 9, []⟩ ∧
    word_classifications.is_word_classified
      ⟨[⟨0, 5, 255, true, false⟩, ⟨6, 9, 2, false, false⟩], [],
        some [32, 32, 32, 32, 32, 32, 32, 32, 32], 9, []⟩ 1 = true :=
  classify_word_keeps_classified true (fun c => c % 8)
    ⟨[⟨0, 5, 255, true, false⟩, ⟨6, 9, 2, false, false⟩], [],
      some [32, 32, 32, 32, 32, 32, 32, 32, 32], 9, []⟩ 1 3 ⟨6, 9, 2, false, false⟩
    rfl (by decide)

theorem getElem?_split_lt {α : Type} (l tail : List α) :
    ∀ i j, j < i → i ≤ l.length → (l.take i ++ tail)[j]? = l[j]? := by
  induction l with
  | nil => intro i j hj hi; simp at hi; omega
  | cons x rest ih =>
    intro i j hj hi
    cases i with
    | zero => omega
    | succ i' =>
      cases j with
      | zero => simp
      | succ j' =>
        have := ih i' j' (by omega) (by simpa using hi)
        simpa using this

theorem getElem?_split_gt {α : Type} (l : List α) (a b : α) :
    ∀ i j, i < l.length → i < j →
      (l.take i ++ a :: b :: l.drop (i + 1))[j + 1]? = l[j]? := by
  induction l with
  | nil => intro i j hi; simp at hi
  | cons x rest ih =>
    intro i j hi hj
    cases i with
    | zero =>
      cases j with
      | zero => omega
      | succ j' => simp
    | succ i' =>
      cases j with
      | zero => omega
      | succ j' =>
        have := ih i' j' (by simpa using hi) (by omega)
        simpa using this

theorem length_split {α : Type} (l : List α) (a b : α) (i : Nat) (h : i < l.length) :
    (l.take i ++ a :: b :: l.drop (i + 1)).length = l.length + 1 := by
  simp [Nat.min_eq_left (Nat.le_of_lt h)]
  omega

/-- C18, as stated, fails: on the single token [0, 5), `break_word(0, 2)`
followed by `unbreak_word(0, 5, false)` leaves, in a non-diagnostic build, the
two tokens [0, 5) and [2, 5) and not the original table, and fails
`unbreak_word`'s assertion in a diagnostic build. -/
theorem break_unbreak_not_restored :
    word_classifications.break_word false
        ⟨[⟨0, 5, 255, false, false⟩], [], some [32, 32, 32, 32, 32], 5, []⟩ 0 2 =
      Outcome.done ⟨[⟨0, 2, 255, false, false⟩, ⟨2, 5, 255, false, false⟩], [],
        some [32, 32, 32, 32, 32], 5, []⟩ ∧
    word_classifications.unbreak_word false
        ⟨[⟨0, 2, 255, false, false⟩, ⟨2, 5, 255, false, false⟩], [],
          some [32, 32, 32, 32, 32], 5, []⟩ 0 5 false =
      Outcome.done ⟨[⟨0, 5, 255, false, false⟩, ⟨2, 5, 255, false, false⟩], [],
        some [32, 32, 32, 32, 32], 5, []⟩ ∧
    word_classifications.unbreak_word true
        ⟨[⟨0, 2, 255, false, false⟩, ⟨2, 5, 255, false, false⟩], [],
          some [32, 32, 32, 32, 32], 5, []⟩ 0 5 false =
      Outcome.assertion_failed := by
  decide

/-- C18, amended: for every token table and index `i` whose token satisfies
`break_word`'s precondition, `break_word(i, k)` followed by
`unbreak_word(i, L, skip_word=false)`, with `L` the token's original span
length, gives token `i` its original span [start, end) back, all its fields
being as before, but does not restore the table: the token [start+k, end)
inserted by `break_word` stays at `i + 1`, so the table has one token more than
before `break_word`; this is the non-diagnostic build, and in a diagnostic build
`unbreak_word` fails its assertion that token `i` ends at or before the start of
token `i + 1`. -/
theorem break_unbreak_keeps_inserted (s : word_classifications) (i k : Nat)
    (tok : word_class_info) (htok : s.m_info[i]? = some tok)
    (hclass : tok.word_class = word_class.invalid) (hflush : tok.flush = false)
    (hpos : 0 < k) (hlen : k < tok.end_ - tok.start) (hend : tok.end_ < 4294967296) :
    ∃ s1, s.break_word false i k = Outcome.done s1 ∧
      s.break_word true i k = Outcome.done s1 ∧
      s1.unbreak_word false i (tok.end_ - tok.start) false =
        Outcome.done { s with
          m_info := s.m_info.take i ++ tok ::
            ⟨tok.start + k, tok.end_, word_class.invalid, false, false⟩ ::
            s.m_info.drop (i + 1) } ∧
      (s.m_info.take i ++ tok :: ⟨tok.start + k, tok.end_, word_class.invalid, false, false⟩ ::
        s.m_info.drop (i + 1)).length = s.m_info.length + 1 ∧
      s1.unbreak_word true i (tok.end_ - tok.start) false = Outcome.assertion_failed := by
  obtain ⟨h, -⟩ := List.getElem?_eq_some_iff.mp htok
  have hsub : u32 (tok.end_ + 4294967296 - tok.start) = tok.end_ - tok.start :=
    u32_sub_of_le _ _ (by omega) hend
  have hadd : u32 (tok.start + k) = tok.start + k := u32_of_lt _ (by omega)
  have hbreak : ∀ debug, s.break_word debug i k = Outcome.done { s with
      m_info := s.m_info.take i ++ { tok with end_ := tok.start + k } ::
        ⟨tok.start + k, tok.end_, word_class.invalid, false, false⟩ ::
        s.m_info.drop (i + 1) } := by
    intro debug
    rw [break_word_eq debug s i k tok htok, hsub, hadd]
    cases tok with
    | mk st en wc am fl =>
      simp only at hclass hflush hlen
      subst hclass hflush
      simp [hpos, hlen]
  refine ⟨_, hbreak false, hbreak true, ?_, length_split _ _ _ i h, ?_⟩
  · have h1 := getElem?_take_cons_self s.m_info { tok with end_ := tok.start + k }
      (⟨tok.start + k, tok.end_, word_class.invalid, false, false⟩ :: s.m_info.drop (i + 1)) i h
    rw [unbreak_word_eq false _ i _ _ h1]
    have hlt : i < (s.m_info.take i ++ { tok with end_ := tok.start + k } ::
        ⟨tok.start + k, tok.end_, word_class.invalid, false, false⟩ ::
        s.m_info.drop (i + 1)).length := by
      rw [length_split _ _ _ i h]; omega
    have hL : u32 (tok.start + (tok.end_ - tok.start)) = tok.end_ := by
      rw [show tok.start + (tok.end_ - tok.start) = tok.end_ by omega]
      exact u32_of_lt _ hend
    simp only [Bool.false_and, Bool.false_eq_true, if_false, hL]
    rw [set_eq_take_cons_drop_of_lt _ _ i hlt]
    have htake : (s.m_info.take i ++ { tok with end_ := tok.start + k } ::
        ⟨tok.start + k, tok.end_, word_class.invalid, false, false⟩ ::
        s.m_info.drop (i + 1)).take i = s.m_info.take i := by
      rw [List.take_left' (by simp [Nat.min_eq_left (Nat.le_of_lt h)])]
    have hdrop : (s.m_info.take i ++ { tok with end_ := tok.start + k } ::
        ⟨tok.start + k, tok.end_, word_class.invalid, false, false⟩ ::
        s.m_info.drop (i + 1)).drop (i + 1) =
        ⟨tok.start + k, tok.end_, word_class.invalid, false, false⟩ ::
          s.m_info.drop (i + 1) := by
      have e : s.m_info.take i ++ { tok with end_ := tok.start + k } ::
          ⟨tok.start + k, tok.end_, word_class.invalid, false, false⟩ ::
          s.m_info.drop (i + 1) =
          (s.m_info.take i ++ [{ tok with end_ := tok.start + k }]) ++
          (⟨tok.start + k, tok.end_, word_class.invalid, false, false⟩ ::
            s.m_info.drop (i + 1)) := by simp
      rw [e, List.drop_left' (by simp [Nat.min_eq_left (Nat.le_of_lt h)])]
    simp only [htake, hdrop]
  · have h1 := getElem?_take_cons_self s.m_info { tok with end_ := tok.start + k }
      (⟨tok.start + k, tok.end_, word_class.invalid, false, false⟩ :: s.m_info.drop (i + 1)) i h
    have h2 := getElem?_take_cons_next s.m_info { tok with end_ := tok.start + k }
      ⟨tok.start + k, tok.end_, word_class.invalid, false, false⟩ (s.m_info.drop (i + 1)) i h
    rw [unbreak_word_eq true _ i _ _ h1]
    have hL : u32 (tok.start + (tok.end_ - tok.start)) = tok.end_ := by
      rw [show tok.start + (tok.end_ - tok.start) = tok.end_ by omega]
      exact u32_of_lt _ hend
    simp only [h2, hL]
    have : ¬ tok.end_ ≤ tok.start + k := by omega
    simp [this]

/-- C18, amended, at the first token [0, 5) of a table of two tokens, broken
at 2. -/
theorem break_unbreak_keeps_inserted_witness :
    ∃ s1, word_classifications.break_word false
          ⟨[⟨0, 5, 255, true, false⟩, ⟨6, 9, 2, false, false⟩], [],
            some [32, 32, 32, 32, 32, 32, 32, 32, 32], 9, []⟩ 0 2 = Outcome.done s1 ∧
      word_classifications.break_word true
          ⟨[⟨0, 5, 255, true, false⟩, ⟨6, 9, 2, false, false⟩], [],
            some [32, 32, 32, 32, 32, 32, 32, 32, 32], 9, []⟩ 0 2 = Outcome.done s1 ∧
      s1.unbreak_word false 0 (5 - 0) false =
        Outcome.done ⟨[⟨0, 5, 255, true, false⟩, ⟨0 + 2, 5, word_class.invalid, false, false⟩,
          ⟨6, 9, 2, false, false⟩], [], some [32, 32, 32, 32, 32, 32, 32, 32, 32], 9, []⟩ ∧
      ([⟨0, 5, 255, true, false⟩, ⟨0 + 2, 5, word_class.invalid, false, false⟩,
        ⟨6, 9, 2, false, false⟩] : List word_class_info).length = 2 + 1 ∧
      s1.unbreak_word true 0 (5 - 0) false = Outcome.assertion_failed :=
  break_unbreak_keeps_inserted
    ⟨[⟨0, 5, 255, true, false⟩, ⟨6, 9, 2, false, false⟩], [],
      some [32, 32, 32, 32, 32, 32, 32, 32, 32], 9, []⟩ 0 2 ⟨0, 5, 255, true, false⟩
    rfl rfl rfl (by decide) (by decide) (by decide)

/-- C19, as stated, fails in a non-diagnostic build, where nothing is checked
and the split is performed: on the token [0, 5), with length 5, with length 0,
and, with length 2, on a classified token and on a flush-pending one. -/
theorem break_word_unchecked :
    word_classifications.break_word false
        ⟨[⟨0, 5, 255, false, false⟩], [], some [32, 32, 32, 32, 32], 5, []⟩ 0 5 =
      Outcome.done ⟨[⟨0, 5, 255, false, false⟩, ⟨5, 5, 255, false, false⟩], [],
        some [32, 32, 32, 32, 32], 5, []⟩ ∧
    word_classifications.break_word false
        ⟨[⟨0, 5, 255, false, false⟩], [], some [32, 32, 32, 32, 32], 5, []⟩ 0 0 =
      Outcome.done ⟨[⟨0, 0, 255, false, false⟩, ⟨0, 5, 255, false, false⟩], [],
        some [32, 32, 32, 32, 32], 5, []⟩ ∧
    word_classifications.break_word false
        ⟨[⟨0, 5, 3, false, false⟩], [], some [32, 32, 32, 32, 32], 5, []⟩ 0 2 =
      Outcome.done ⟨[⟨0, 2, 3, false, false⟩, ⟨2, 5, 3, false, false⟩], [],
        some [32, 32, 32, 32, 32], 5, []⟩ ∧
    word_classifications.break_word false
        ⟨[⟨0, 5, 255, false, true⟩], [], some [32, 32, 32, 32, 32], 5, []⟩ 0 2 =
      Outcome.done ⟨[⟨0, 2, 255, false, true⟩, ⟨2, 5, 255, false, true⟩], [],
        some [32, 32, 32, 32, 32], 5, []⟩ := by
  decide

/-- C19, amended: in a diagnostic build `break_word(index, length)` with length
greater than or equal to the token's span length (or with length 0, or on a
classified or flush-pending token) is rejected as a precondition violation: its
assertions hold exactly when the token is unclassified, not flush-pending and
0 < length < end - start (the `uint32` difference, which is the span length
when start <= end), and no split is performed otherwise, the failed assertion
ending the call; in a non-diagnostic build nothing is checked and the split is
performed whatever the token and the length. -/
theorem break_word_assertions (s : word_classifications) (index length : Nat)
    (tok : word_class_info) (htok : s.m_info[index]? = some tok) :
    (s.break_word true index length = Outcome.assertion_failed ↔
      ¬(tok.word_class = word_class.invalid ∧ tok.flush = false ∧ 0 < length ∧
        length < u32 (tok.end_ + 4294967296 - tok.start))) ∧
    ((tok.word_class = word_class.invalid ∧ tok.flush = false ∧ 0 < length ∧
        length < u32 (tok.end_ + 4294967296 - tok.start)) →
      ∃ s', s.break_word true index length = Outcome.done s' ∧
        s'.m_info.length = s.m_info.length + 1) ∧
    (tok.start ≤ tok.end_ → tok.end_ < 4294967296 →
      u32 (tok.end_ + 4294967296 - tok.start) = tok.end_ - tok.start) ∧
    (∃ s', s.break_word false index length = Outcome.done s' ∧
      s'.m_info.length = s.m_info.length + 1) := by
  obtain ⟨h, -⟩ := List.getElem?_eq_some_iff.mp htok
  refine ⟨?_, ?_, fun h1 h2 => u32_sub_of_le _ _ h1 h2, ?_⟩
  · rw [break_word_eq true s index length tok htok]
    by_cases h1 : tok.word_class = word_class.invalid
    · by_cases h2 : tok.flush = false
      · by_cases h3 : 0 < length
        · by_cases h4 : length < u32 (tok.end_ + 4294967296 - tok.start)
          · simp [h1, h2, h3, h4]
          · simp [h1, h2, h3, h4]
        · simp [h1, h2, h3]
      · have h2' : tok.flush = true := by simpa using h2
        simp [h1, h2']
    · simp [h1]
  · intro hp
    obtain ⟨h1, h2, h3, h4⟩ := hp
    rw [break_word_eq true s index length tok htok]
    refine ⟨{ s with
      m_info := s.m_info.take index ++
        { tok with end_ := u32 (tok.start + length) } ::
        { tok with start := u32 (tok.start + length), argmatcher := false } ::
        s.m_info.drop (index + 1) }, ?_, length_split _ _ _ index h⟩
    simp [h1, h2, h3, h4]
  · rw [break_word_eq false s index length tok htok]
    refine ⟨{ s with
      m_info := s.m_info.take index ++
        { tok with end_ := u32 (tok.start + length) } ::
        { tok with start := u32 (tok.start + length), argmatcher := false } ::
        s.m_info.drop (index + 1) }, ?_, length_split _ _ _ index h⟩
    simp

/-- C19, amended, at the token [0, 5) with length 5, in a diagnostic build: the
assertion on the length fails. -/
theorem break_word_assertions_witness :
    ([⟨0, 5, 255, false, false⟩] : List word_class_info)[0]? = some ⟨0, 5, 255, false, false⟩ ∧
    word_classifications.break_word true
        ⟨[⟨0, 5, 255, false, false⟩], [], some [32, 32, 32, 32, 32], 5, []⟩ 0 5 =
      Outcome.assertion_failed :=
  ⟨rfl, (break_word_assertions
    ⟨[⟨0, 5, 255, false, false⟩], [], some [32, 32, 32, 32, 32], 5, []⟩
    0 5 ⟨0, 5, 255, false, false⟩ rfl).1.mpr (by decide)⟩

/-- C20: under its precondition, `break_word(index, length)` on a token
[start, end) leaves token `index` as [start, start+length) with its other
fields unchanged and inserts directly after it a new token [start+length, end)
that is unclassified, not flush-pending and has its argmatcher flag cleared;
the token count grows by one, the tokens before `index` are unchanged, the
tokens after it are moved by one position unchanged, and the face array and
the face definitions are untouched.  An out-of-range index is a no-op. -/
theorem break_word_splits (debug : Bool) (s : word_classifications) (index length : Nat)
    (tok : word_class_info) (htok : s.m_info[index]? = some tok)
    (hclass : tok.word_class = word_class.invalid) (hflush : tok.flush = false)
    (hpos : 0 < length) (hlen : length < tok.end_ - tok.start)
    (hend : tok.end_ < 4294967296) :
    ∃ s', s.break_word debug index length = Outcome.done s' ∧
      s'.m_info[index]? = some { tok with end_ := tok.start + length } ∧
      s'.m_info[index + 1]? =
        some ⟨tok.start + length, tok.end_, word_class.invalid, false, false⟩ ∧
      s'.m_info.length = s.m_info.length + 1 ∧
      (∀ j, j < index → s'.m_info[j]? = s.m_info[j]?) ∧
      (∀ j, index < j → s'.m_info[j + 1]? = s.m_info[j]?) ∧
      s'.m_faces = s.m_faces ∧ s'.m_length = s.m_length ∧
      s'.m_face_definitions = s.m_face_definitions ∧ s'.m_face_map = s.m_face_map ∧
      (∀ i n, s.m_info.length ≤ i → s.break_word debug i n = Outcome.done s) := by
  obtain ⟨h, -⟩ := List.getElem?_eq_some_iff.mp htok
  have hsub : u32 (tok.end_ + 4294967296 - tok.start) = tok.end_ - tok.start :=
    u32_sub_of_le _ _ (by omega) hend
  have hadd : u32 (tok.start + length) = tok.start + length := u32_of_lt _ (by omega)
  have hbreak : s.break_word debug index length = Outcome.done { s with
      m_info := s.m_info.take index ++ { tok with end_ := tok.start + length } ::
        ⟨tok.start + length, tok.end_, word_class.invalid, false, false⟩ ::
        s.m_info.drop (index + 1) } := by
    rw [break_word_eq debug s index length tok htok, hsub, hadd]
    cases tok with
    | mk st en wc am fl =>
      simp only at hclass hflush hlen
      subst hclass hflush
      simp [hpos, hlen]
  refine ⟨_, hbreak, getElem?_take_cons_self _ _ _ index h,
    getElem?_take_cons_next _ _ _ _ index h, length_split _ _ _ index h, ?_, ?_,
    rfl, rfl, rfl, rfl, fun i n hi => break_word_out_of_range debug s i n hi⟩
  · intro j hj
    exact getElem?_split_lt _ _ index j hj (Nat.le_of_lt h)
  · intro j hj
    exact getElem?_split_gt _ _ _ index j h hj

/-- C20 at the first token [0, 5), with an argmatcher, of a table of two
tokens, broken at 2 in a diagnostic build. -/
theorem break_word_splits_witness :
    ∃ s', word_classifications.break_word true
          ⟨[⟨0, 5, 255, true, false⟩, ⟨6, 9, 2, false, false⟩], [],
            some [32, 32, 32, 32, 32, 32, 32, 32, 32], 9, []⟩ 0 2 = Outcome.done s' ∧
      s'.m_info[0]? = some ⟨0, 0 + 2, 255, true, false⟩ ∧
      s'.m_info[0 + 1]? = some ⟨0 + 2, 5, word_class.invalid, false, false⟩ ∧
      s'.m_info.length = 2 + 1 ∧
      (∀ j, j < 0 → s'.m_info[j]? =
        ([⟨0, 5, 255, true, false⟩, ⟨6, 9, 2, false, false⟩] : List word_class_info)[j]?) ∧
      (∀ j, 0 < j → s'.m_info[j + 1]? =
        ([⟨0, 5, 255, true, false⟩, ⟨6, 9, 2, false, false⟩] : List word_class_info)[j]?) ∧
      s'.m_faces = some [32, 32, 32, 32, 32, 32, 32, 32, 32] ∧ s'.m_length = 9 ∧
      s'.m_face_definitions = [] ∧ s'.m_face_map = [] ∧
      (∀ i n, 2 ≤ i → word_classifications.break_word true
          ⟨[⟨0, 5, 255, true, false⟩, ⟨6, 9, 2, false, false⟩], [],
            some [32, 32, 32, 32, 32, 32, 32, 32, 32], 9, []⟩ i n =
        Outcome.done ⟨[⟨0, 5, 255, true, false⟩, ⟨6, 9, 2, false, false⟩], [],
          some [32, 32, 32, 32, 32, 32, 32, 32, 32], 9, []⟩) :=
  break_word_splits true
    ⟨[⟨0, 5, 255, true, false⟩, ⟨6, 9, 2, false, false⟩], [],
      some [32, 32, 32, 32, 32, 32, 32, 32, 32], 9, []⟩ 0 2 ⟨0, 5, 255, true, false⟩
    rfl rfl rfl (by decide) (by decide) (by decide)

/-! ## Claims on `unbreak_word` with `skip_word` and on `add_command` -/

theorem unbreak_word_skip_eq (debug : Bool) (s : word_classifications) (index length : Nat)
    (tok next : word_class_info) (htok : s.m_info[index]? = some tok)
    (hnext : s.m_info[index + 1]? = some next) :
    s.unbreak_word debug index length true =
      if debug && !(u32 (tok.start + length) == next.start) then Outcome.assertion_failed
      else Outcome.done { s with
        m_info := (s.m_info.set index { tok with flush := true, end_ := tok.start }).set
          (index + 1) { next with start := tok.start } } := by
  obtain ⟨h, hget⟩ := List.getElem?_eq_some_iff.mp htok
  obtain ⟨h1, hget1⟩ := List.getElem?_eq_some_iff.mp hnext
  unfold word_classifications.unbreak_word
  rw [dif_pos h]
  simp only [if_true, dif_pos h1, hget, hget1]

theorem set_set_split {α : Type} (l : List α) (a b a' b' : α) (tail : List α) :
    ∀ i, i < l.length →
      ((l.take i ++ a :: b :: tail).set i a').set (i + 1) b' = l.take i ++ a' :: b' :: tail := by
  induction l with
  | nil => intro i h; simp at h
  | cons x rest ih =>
    intro i h
    cases i with
    | zero => simp
    | succ j =>
      have hj : j < rest.length := by simpa using h
      have := ih j hj
      simpa using this

theorem getElem?_split_other {α : Type} (l : List α) (a b a' b' : α) (tail : List α) :
    ∀ i j, i < l.length → j ≠ i → j ≠ i + 1 →
      (l.take i ++ a' :: b' :: tail)[j]? = (l.take i ++ a :: b :: tail)[j]? := by
  induction l with
  | nil => intro i j h; simp at h
  | cons x rest ih =>
    intro i j h hj hj1
    cases i with
    | zero =>
      cases j with
      | zero => omega
      | succ j' =>
        cases j' with
        | zero => omega
        | succ j'' => simp
    | succ i' =>
      cases j with
      | zero => simp
      | succ j' =>
        have := ih i' j' (by simpa using h) (by omega) (by omega)
        simpa using this

theorem break_word_done (debug : Bool) (s s1 : word_classifications) (index length : Nat)
    (tok : word_class_info) (htok : s.m_info[index]? = some tok)
    (h : s.break_word debug index length = Outcome.done s1) :
    s1 = { s with
      m_info := s.m_info.take index ++
        { tok with end_ := u32 (tok.start + length) } ::
        { tok with start := u32 (tok.start + length), argmatcher := false } ::
        s.m_info.drop (index + 1) } := by
  rw [break_word_eq debug s index length tok htok] at h
  split at h
  · cases h
  · split at h
    · cases h
    · split at h
      · cases h
      · cases h; rfl

/-- C21: after a `break_word(i, k)` that returned, on a token [start, end)
(with start + k below 2^32, as under `break_word`'s precondition),
`unbreak_word(i, k, skip_word=true)` returns, in both builds, with the token
count and every token's index kept: token `i` is the zero-length flush-pending
stub [start, start), token `i + 1` spans the whole original [start, end), and
no other token and no other member changes. -/
theorem unbreak_word_skip_after_break (debug : Bool) (s s1 : word_classifications) (i k : Nat)
    (tok : word_class_info) (htok : s.m_info[i]? = some tok)
    (hsum : tok.start + k < 4294967296)
    (hbreak : s.break_word debug i k = Outcome.done s1) :
    ∃ s2, s1.unbreak_word debug i k true = Outcome.done s2 ∧
      s2.m_info.length = s1.m_info.length ∧
      s2.m_info[i]? = some { tok with end_ := tok.start, flush := true } ∧
      s2.m_info[i + 1]? = some { tok with argmatcher := false } ∧
      (∀ j, j ≠ i → j ≠ i + 1 → s2.m_info[j]? = s1.m_info[j]?) ∧
      s2.m_faces = s.m_faces ∧ s2.m_length = s.m_length ∧
      s2.m_face_definitions = s.m_face_definitions ∧ s2.m_face_map = s.m_face_map := by
  obtain ⟨h, -⟩ := List.getElem?_eq_some_iff.mp htok
  have hadd : u32 (tok.start + k) = tok.start + k := u32_of_lt _ hsum
  have hs1 := break_word_done debug s s1 i k tok htok hbreak
  rw [hadd] at hs1
  subst hs1
  have h1 := getElem?_take_cons_self s.m_info { tok with end_ := tok.start + k }
    ({ tok with start := tok.start + k, argmatcher := false } :: s.m_info.drop (i + 1)) i h
  have h2 := getElem?_take_cons_next s.m_info { tok with end_ := tok.start + k }
    { tok with start := tok.start + k, argmatcher := false } (s.m_info.drop (i + 1)) i h
  refine ⟨{ s with
      m_info := s.m_info.take i ++ { tok with end_ := tok.start, flush := true } ::
        { tok with argmatcher := false } :: s.m_info.drop (i + 1) }, ?_, ?_, ?_, ?_, ?_,
      rfl, rfl, rfl, rfl⟩
  · rw [unbreak_word_skip_eq debug _ i k _ _ h1 h2]
    simp only [hadd, beq_self_eq_true, Bool.not_true, Bool.and_false, Bool.false_eq_true,
      if_false]
    rw [set_set_split _ _ _ _ _ _ i h]
  · rw [length_split _ _ _ i h, length_split _ _ _ i h]
  · exact getElem?_take_cons_self _ _ _ i h
  · exact getElem?_take_cons_next _ _ _ _ i h
  · intro j hj hj1
    exact getElem?_split_other _ _ _ _ _ _ i j h hj hj1

/-- C21 at the first token [0, 5), with an argmatcher, of a table of two
tokens, broken at 2 in a diagnostic build. -/
theorem unbreak_word_skip_after_break_witness :
    word_classifications.break_word true
        ⟨[⟨0, 5, 255, true, false⟩, ⟨6, 9, 2, false, false⟩], [],
          some [32, 32, 32, 32, 32, 32, 32, 32, 32], 9, []⟩ 0 2 =
      Outcome.done ⟨[⟨0, 2, 255, true, false⟩, ⟨2, 5, 255, false, false⟩,
        ⟨6, 9, 2, false, false⟩], [], some [32, 32, 32, 32, 32, 32, 32, 32, 32], 9, []⟩ ∧
    word_classifications.unbreak_word true
        ⟨[⟨0, 2, 255, true, false⟩, ⟨2, 5, 255, false, false⟩, ⟨6, 9, 2, false, false⟩], [],
          some [32, 32, 32, 32, 32, 32, 32, 32, 32], 9, []⟩ 0 2 true =
      Outcome.done ⟨[⟨0, 0, 255, true, true⟩, ⟨0, 5, 255, false, false⟩,
        ⟨6, 9, 2, false, false⟩], [], some [32, 32, 32, 32, 32, 32, 32, 32, 32], 9, []⟩ ∧
    (∃ s2, word_classifications.unbreak_word true
          ⟨[⟨0, 2, 255, true, false⟩, ⟨2, 5, 255, false, false⟩, ⟨6, 9, 2, false, false⟩], [],
            some [32, 32, 32, 32, 32, 32, 32, 32, 32], 9, []⟩ 0 2 true = Outcome.done s2 ∧
      s2.m_info.length =
        ([⟨0, 2, 255, true, false⟩, ⟨2, 5, 255, false, false⟩, ⟨6, 9, 2, false, false⟩] :
          List word_class_info).length ∧
      s2.m_info[0]? = some ⟨0, 0, 255, true, true⟩ ∧
      s2.m_info[0 + 1]? = some ⟨0, 5, 255, false, false⟩ ∧
      (∀ j, j ≠ 0 → j ≠ 0 + 1 → s2.m_info[j]? =
        ([⟨0, 2, 255, true, false⟩, ⟨2, 5, 255, false, false⟩, ⟨6, 9, 2, false, false⟩] :
          List word_class_info)[j]?) ∧
      s2.m_faces = some [32, 32, 32, 32, 32, 32, 32, 32, 32] ∧ s2.m_length = 9 ∧
      s2.m_face_definitions = [] ∧ s2.m_face_map = []) :=
  ⟨by decide, by decide,
    unbreak_word_skip_after_break true
      ⟨[⟨0, 5, 255, true, false⟩, ⟨6, 9, 2, false, false⟩], [],
        some [32, 32, 32, 32, 32, 32, 32, 32, 32], 9, []⟩
      ⟨[⟨0, 2, 255, true, false⟩, ⟨2, 5, 255, false, false⟩, ⟨6, 9, 2, false, false⟩], [],
        some [32, 32, 32, 32, 32, 32, 32, 32, 32], 9, []⟩
      0 2 ⟨0, 5, 255, true, false⟩ rfl (by decide) (by decide)⟩

theorem add_command_loop_eq (words : List word) :
    ∀ m_info, add_command_loop words m_info =
      m_info ++ words.map (fun w =>
        ⟨w.offset, u32 (w.offset + w.length), word_class.invalid, false, false⟩) := by
  induction words with
  | nil => intro m_info; simp [add_command_loop]
  | cons w rest ih =>
    intro m_info
    simp [add_command_loop, ih]

/-- C22: `add_command(line)` on a table holding `n` tokens returns `n` and
appends one token per word of the line in order, the `j`-th with span
[offset_j, offset_j + length_j), class unclassified, argmatcher false and flush
false; the `n` existing tokens, the face array and the face definitions are
unchanged.  The token count and the ends of the words are taken to fit in a
`uint32`. -/
theorem add_command_appends (s : word_classifications) (words : List word)
    (hcount : s.m_info.length < 4294967296)
    (hwords : ∀ w ∈ words, w.offset + w.length < 4294967296) :
    (s.add_command words).1 = s.m_info.length ∧
    (s.add_command words).2.m_info =
      s.m_info ++ words.map (fun w =>
        ⟨w.offset, w.offset + w.length, word_class.invalid, false, false⟩) ∧
    (s.add_command words).2.m_info.length = s.m_info.length + words.length ∧
    (∀ j, j < s.m_info.length → (s.add_command words).2.m_info[j]? = s.m_info[j]?) ∧
    (∀ j w, words[j]? = some w →
      (s.add_command words).2.m_info[s.m_info.length + j]? =
        some ⟨w.offset, w.offset + w.length, word_class.invalid, false, false⟩) ∧
    (s.add_command words).2.m_faces = s.m_faces ∧
    (s.add_command words).2.m_length = s.m_length ∧
    (s.add_command words).2.m_face_definitions = s.m_face_definitions ∧
    (s.add_command words).2.m_face_map = s.m_face_map := by
  have hmap : words.map (fun w =>
        (⟨w.offset, u32 (w.offset + w.length), word_class.invalid, false, false⟩ :
          word_class_info)) =
      words.map (fun w => ⟨w.offset, w.offset + w.length, word_class.invalid, false, false⟩) := by
    apply List.map_congr_left
    intro w hw
    rw [u32_of_lt _ (hwords w hw)]
  have hinfo : (s.add_command words).2.m_info =
      s.m_info ++ words.map (fun w =>
        ⟨w.offset, w.offset + w.length, word_class.invalid, false, false⟩) := by
    simp only [word_classifications.add_command, add_command_loop_eq, hmap]
  refine ⟨u32_of_lt _ hcount, hinfo, ?_, ?_, ?_, rfl, rfl, rfl, rfl⟩
  · rw [hinfo]; simp
  · intro j hj
    rw [hinfo, List.getElem?_append_left hj]
  · intro j w hw
    rw [hinfo, List.getElem?_append_right (by omega)]
    simp [hw]

/-- C22 at a table of one token and a line of the two words at offsets 4 and
8, of lengths 2 and 5. -/
theorem add_command_appends_witness :
    word_classifications.add_command
        ⟨[⟨0, 3, 2, true, false⟩], [], some [32, 32, 32], 3, []⟩ [⟨4, 2⟩, ⟨8, 5⟩] =
      (1, ⟨[⟨0, 3, 2, true, false⟩, ⟨4, 6, 255, false, false⟩, ⟨8, 13, 255, false, false⟩], [],
        some [32, 32, 32], 3, []⟩) ∧
    (word_classifications.add_command
        ⟨[⟨0, 3, 2, true, false⟩], [], some [32, 32, 32], 3, []⟩ [⟨4, 2⟩, ⟨8, 5⟩]).1 =
      ([⟨0, 3, 2, true, false⟩] : List word_class_info).length :=
  ⟨by decide,
    (add_command_appends ⟨[⟨0, 3, 2, true, false⟩], [], some [32, 32, 32], 3, []⟩
      [⟨4, 2⟩, ⟨8, 5⟩] (by decide) (by decide)).1⟩

/-! ## Claims on the face definitions -/

theorem fm_find_nil (q : List Nat) : face_map_find [] q = Option.none := rfl

theorem fm_find_cons (kv : List Nat × Nat) (m : List (List Nat × Nat)) (q : List Nat) :
    face_map_find (kv :: m) q = if kv.1 = q then some kv.2 else face_map_find m q := by
  unfold face_map_find
  by_cases h : kv.1 = q
  · simp [List.find?, h]
  · have hb : (kv.1 == q) = false := by simpa using h
    simp [List.find?, hb, h]

theorem fm_find_append_single (m : List (List Nat × Nat)) (p q : List Nat) (c : Nat) :
    face_map_find (m ++ [(p, c)]) q =
      match face_map_find m q with
      | some x => some x
      | Option.none => if p = q then some c else Option.none := by
  induction m with
  | nil => simp [fm_find_cons, fm_find_nil]
  | cons kv rest ih =>
    rw [List.cons_append, fm_find_cons, fm_find_cons]
    by_cases h : kv.1 = q
    · simp [h]
    · simp [h, ih]

theorem fm_find_isSome (m : List (List Nat × Nat)) (p : List Nat) :
    (face_map_find m p).isSome = m.any (fun kv => kv.1 == p) := by
  induction m with
  | nil => rfl
  | cons kv rest ih =>
    rw [fm_find_cons]
    by_cases h : kv.1 = p
    · simp [h]
    · simp [h, ih]

theorem fm_find_emplace (m : List (List Nat × Nat)) (p q : List Nat) (c : Nat) :
    face_map_find (face_map_emplace m p c) q =
      if q = p ∧ face_map_find m p = Option.none then some c else face_map_find m q := by
  have hany := fm_find_isSome m p
  unfold face_map_emplace
  cases hf : face_map_find m p with
  | some x =>
    rw [hf] at hany
    simp [← hany]
  | none =>
    rw [hf] at hany
    have hany2 : (m.any fun kv => kv.1 == p) = false := by simpa using hany.symm
    simp only [hany2, Bool.false_eq_true, if_false, and_true, fm_find_append_single]
    by_cases hq : q = p
    · subst hq; simp [hf]
    · simp only [hq, if_false, Ne.symm hq]
      cases face_map_find m q <;> rfl

theorem fm_find_mem (m : List (List Nat × Nat)) (q : List Nat) (c : Nat)
    (h : face_map_find m q = some c) : (q, c) ∈ m := by
  induction m with
  | nil => simp [fm_find_nil] at h
  | cons kv rest ih =>
    rw [fm_find_cons] at h
    by_cases hk : kv.1 = q
    · simp only [hk, if_true, Option.some.injEq] at h
      have : kv = (q, c) := by
        cases kv; simp only at hk h; simp [hk, h]
      rw [this]; exact List.mem_cons_self _ _
    · simp only [hk, if_false] at h
      exact List.mem_cons_of_mem _ (ih h)

theorem ensure_face_eq (s : word_classifications) (sgr : List Nat) :
    s.ensure_face sgr =
      match face_map_find s.m_face_map sgr with
      | some face => (face, s)
      | Option.none =>
        if face_max ≤ s.m_face_definitions.length then (0, s)
        else (face_base + s.m_face_definitions.length,
          { s with
            m_face_definitions := s.m_face_definitions ++ [sgr]
            m_face_map := s.m_face_map ++ [(sgr, face_base + s.m_face_definitions.length)] }) := by
  unfold word_classifications.ensure_face
  cases hf : face_map_find s.m_face_map sgr with
  | some c => rfl
  | none =>
    simp only [ge_iff_le]
    by_cases hcap : face_max ≤ s.m_face_definitions.length
    · simp [hcap]
    · have hlt : s.m_face_definitions.length < 100 := by
        simpa [face_max] using hcap
      have hchar : to_char (face_base + s.m_face_definitions.length) =
          face_base + s.m_face_definitions.length := by
        unfold to_char face_base; omega
      have hany : (s.m_face_map.any fun kv => kv.1 == sgr) = false := by
        have := fm_find_isSome s.m_face_map sgr
        rw [hf] at this
        simpa using this.symm
      simp only [hcap, if_false, hchar, face_map_emplace, hany, Bool.false_eq_true]

/-- C23: `ensure_face` is idempotent per string: for every state and every
string, calling `ensure_face` on it twice returns the same code both times and
the second call leaves the object, so its face-definition table, unchanged. -/
theorem ensure_face_idempotent (s : word_classifications) (sgr : List Nat) :
    ((s.ensure_face sgr).2.ensure_face sgr).1 = (s.ensure_face sgr).1 ∧
    ((s.ensure_face sgr).2.ensure_face sgr).2 = (s.ensure_face sgr).2 ∧
    ((s.ensure_face sgr).2.ensure_face sgr).2.m_face_definitions =
      (s.ensure_face sgr).2.m_face_definitions := by
  have key : (s.ensure_face sgr).2.ensure_face sgr = s.ensure_face sgr := by
    rw [ensure_face_eq s sgr]
    cases hf : face_map_find s.m_face_map sgr with
    | some c =>
      simp only
      rw [ensure_face_eq, hf]
    | none =>
      by_cases hcap : face_max ≤ s.m_face_definitions.length
      · simp only [hcap, if_true]
        rw [ensure_face_eq, hf]
        simp [hcap]
      · simp only [hcap, if_false]
        rw [ensure_face_eq]
        simp only [fm_find_append_single, hf, if_true]
  rw [key]
  exact ⟨rfl, rfl, rfl⟩

/-- C25: once 100 color definitions are interned, `ensure_face` of a string
that is not interned returns the null sentinel 0 and leaves the object, so the
face table, unchanged; an interned string returns its existing code, whatever
the number of definitions, and nothing changes; with fewer than 100
definitions `ensure_face` of a string that is not interned returns the
non-null code 128 + the number of definitions and appends the string. -/
theorem ensure_face_cap (s : word_classifications) (sgr : List Nat) :
    (face_max ≤ s.m_face_definitions.length → face_map_find s.m_face_map sgr = Option.none →
      s.ensure_face sgr = (0, s)) ∧
    (∀ c, face_map_find s.m_face_map sgr = some c → s.ensure_face sgr = (c, s)) ∧
    (s.m_face_definitions.length < face_max → face_map_find s.m_face_map sgr = Option.none →
      (s.ensure_face sgr).1 = face_base + s.m_face_definitions.length ∧
      (s.ensure_face sgr).1 ≠ 0 ∧
      (s.ensure_face sgr).2.m_face_definitions = s.m_face_definitions ++ [sgr] ∧
      face_map_find (s.ensure_face sgr).2.m_face_map sgr =
        some (face_base + s.m_face_definitions.length)) ∧
    face_max = 100 ∧ face_base = 128 := by
  refine ⟨?_, ?_, ?_, rfl, rfl⟩
  · intro hcap hf
    rw [ensure_face_eq, hf]
    simp [hcap]
  · intro c hf
    rw [ensure_face_eq, hf]
  · intro hlt hf
    have hcap : ¬ face_max ≤ s.m_face_definitions.length := by omega
    rw [ensure_face_eq, hf]
    simp [hcap, fm_find_append_single, hf, face_base]

/-- C25 at an object with 100 definitions, for a string that is not among
them. -/
theorem ensure_face_cap_witness :
    word_classifications.ensure_face
        ⟨[], (List.range 100).map (fun i => [i + 1]), Option.none, 0,
          (List.range 100).map (fun i => ([i + 1], 128 + i))⟩ [200] =
      (0, ⟨[], (List.range 100).map (fun i => [i + 1]), Option.none, 0,
        (List.range 100).map (fun i => ([i + 1], 128 + i))⟩) :=
  (ensure_face_cap ⟨[], (List.range 100).map (fun i => [i + 1]), Option.none, 0,
    (List.range 100).map (fun i => ([i + 1], 128 + i))⟩ [200]).1 (by decide) (by decide)

theorem face_map_sound_iff (s : word_classifications) :
    face_map_sound s = true ↔
      s.m_face_definitions.length ≤ face_max ∧
      ∀ kv ∈ s.m_face_map, face_base ≤ kv.2 ∧
        s.m_face_definitions[kv.2 - face_base]? = some kv.1 := by
  simp [face_map_sound]

theorem sound_find (s : word_classifications) (hs : face_map_sound s = true) (q : List Nat)
    (c : Nat) (h : face_map_find s.m_face_map q = some c) :
    face_base ≤ c ∧ c < face_base + face_max ∧
      s.m_face_definitions[c - face_base]? = some q := by
  obtain ⟨hlen, hall⟩ := (face_map_sound_iff s).mp hs
  obtain ⟨h1, h2⟩ := hall (q, c) (fm_find_mem _ _ _ h)
  refine ⟨h1, ?_, h2⟩
  obtain ⟨hlt, -⟩ := List.getElem?_eq_some_iff.mp h2
  simp only at hlt h1
  omega

theorem ensure_face_sound (s : word_classifications) (sgr : List Nat)
    (hs : face_map_sound s = true) : face_map_sound (s.ensure_face sgr).2 = true := by
  obtain ⟨hlen, hall⟩ := (face_map_sound_iff s).mp hs
  rw [ensure_face_eq]
  cases hf : face_map_find s.m_face_map sgr with
  | some c => exact hs
  | none =>
    by_cases hcap : face_max ≤ s.m_face_definitions.length
    · simp only [hcap, if_true]; exact hs
    · simp only [hcap, if_false]
      rw [face_map_sound_iff]
      refine ⟨by simp; omega, ?_⟩
      intro kv hkv
      simp only [List.mem_append, List.mem_singleton] at hkv
      rcases hkv with hkv | hkv
      · obtain ⟨h1, h2⟩ := hall kv hkv
        refine ⟨h1, ?_⟩
        obtain ⟨hlt, -⟩ := List.getElem?_eq_some_iff.mp h2
        simp only
        rw [List.getElem?_append_left hlt]
        exact h2
      · subst hkv
        simp [face_base]

theorem ensure_face_find_self (s : word_classifications) (sgr : List Nat)
    (hc : (s.ensure_face sgr).1 ≠ 0) :
    face_map_find (s.ensure_face sgr).2.m_face_map sgr = some (s.ensure_face sgr).1 := by
  rw [ensure_face_eq] at hc ⊢
  cases hf : face_map_find s.m_face_map sgr with
  | some c => simpa using hf
  | none =>
    rw [hf] at hc
    by_cases hcap : face_max ≤ s.m_face_definitions.length
    · simp [hcap] at hc
    · simp only [hcap, if_false, fm_find_append_single, hf, if_true]

theorem ensure_face_find_mono (s : word_classifications) (sgr q : List Nat) (c : Nat)
    (h : face_map_find s.m_face_map q = some c) :
    face_map_find (s.ensure_face sgr).2.m_face_map q = some c := by
  rw [ensure_face_eq]
  cases hf : face_map_find s.m_face_map sgr with
  | some c' => exact h
  | none =>
    by_cases hcap : face_max ≤ s.m_face_definitions.length
    · simp only [hcap, if_true]; exact h
    · simp only [hcap, if_false, fm_find_append_single, h]

theorem ensure_faces_sound :
    ∀ (strs : List (List Nat)) (s : word_classifications),
      face_map_sound s = true → face_map_sound (ensure_faces s strs).2 = true := by
  intro strs
  induction strs with
  | nil => intro s hs; exact hs
  | cons sgr rest ih =>
    intro s hs
    exact ih _ (ensure_face_sound s sgr hs)

theorem ensure_faces_find_mono :
    ∀ (strs : List (List Nat)) (s : word_classifications) (q : List Nat) (c : Nat),
      face_map_find s.m_face_map q = some c →
      face_map_find (ensure_faces s strs).2.m_face_map q = some c := by
  intro strs
  induction strs with
  | nil => intro s q c h; exact h
  | cons sgr rest ih =>
    intro s q c h
    exact ih _ q c (ensure_face_find_mono s sgr q c h)

theorem ensure_faces_find :
    ∀ (strs : List (List Nat)) (s : word_classifications) (i : Nat) (si : List Nat) (ci : Nat),
      strs[i]? = some si → (ensure_faces s strs).1[i]? = some ci → ci ≠ 0 →
      face_map_find (ensure_faces s strs).2.m_face_map si = some ci := by
  intro strs
  induction strs with
  | nil => intro s i si ci h; simp at h
  | cons sgr rest ih =>
    intro s i si ci hs hc hne
    cases i with
    | zero =>
      simp only [List.getElem?_cons_zero, Option.some.injEq] at hs
      simp only [ensure_faces, List.getElem?_cons_zero, Option.some.injEq] at hc
      subst hs hc
      exact ensure_faces_find_mono rest _ _ _ (ensure_face_find_self s sgr hne)
    | succ j =>
      simp only [List.getElem?_cons_succ] at hs
      simp only [ensure_faces, List.getElem?_cons_succ] at hc
      exact ih _ j si ci hs hc hne

theorem get_face_output_eq (s : word_classifications) (c : Nat) (h1 : face_base ≤ c)
    (h2 : c < 256) : s.get_face_output c = s.m_face_definitions[c - face_base]? := by
  unfold face_base at h1 ⊢
  have hidx : u32 (c % 256 + 4294967296 - 128) = c - 128 := by
    unfold u32; omega
  unfold word_classifications.get_face_output
  simp only [hidx]
  split
  · rename_i h
    exact (List.getElem?_eq_none (by omega)).symm
  · rfl

/-- C26: in an object whose face map agrees with its definitions, as in every
object built by `init` and `ensure_face`, if `ensure_face` of a string returns
a non-null code then the code lies in 128..227 and `get_face_output` of that
code, on the object after the call, returns the string. -/
theorem ensure_face_get_face_output (s : word_classifications) (sgr : List Nat)
    (hs : face_map_sound s = true) (hc : (s.ensure_face sgr).1 ≠ 0) :
    (s.ensure_face sgr).2.get_face_output (s.ensure_face sgr).1 = some sgr ∧
      face_base ≤ (s.ensure_face sgr).1 ∧ (s.ensure_face sgr).1 < face_base + face_max := by
  have hsound := ensure_face_sound s sgr hs
  have hfind := ensure_face_find_self s sgr hc
  obtain ⟨h1, h2, h3⟩ := sound_find _ hsound sgr _ hfind
  refine ⟨?_, h1, h2⟩
  rw [get_face_output_eq _ _ h1 (by unfold face_base face_max at h2; omega)]
  exact h3

/-- C26 at a fresh object and at an object holding two definitions. -/
theorem ensure_face_get_face_output_witness :
    (word_classifications.get_face_output
        (word_classifications.ensure_face ⟨[], [], Option.none, 0, []⟩ [49, 59, 51, 50]).2
        (word_classifications.ensure_face ⟨[], [], Option.none, 0, []⟩ [49, 59, 51, 50]).1 =
      some [49, 59, 51, 50] ∧
      face_base ≤
        (word_classifications.ensure_face ⟨[], [], Option.none, 0, []⟩ [49, 59, 51, 50]).1 ∧
      (word_classifications.ensure_face ⟨[], [], Option.none, 0, []⟩ [49, 59, 51, 50]).1 <
        face_base + face_max) ∧
    (word_classifications.ensure_face ⟨[], [], Option.none, 0, []⟩ [49, 59, 51, 50]).1 = 128 :=
  ⟨ensure_face_get_face_output ⟨[], [], Option.none, 0, []⟩ [49, 59, 51, 50] (by decide)
    (by decide), by decide⟩

theorem init_face_defs_defs :
    ∀ (defs : List (List Nat)) (s : word_classifications),
      (init_face_defs defs s).m_face_definitions = s.m_face_definitions ++ defs := by
  intro defs
  induction defs with
  | nil => intro s; simp [init_face_defs]
  | cons d rest ih =>
    intro s
    simp only [init_face_defs]
    rw [ih]
    simp

theorem init_face_defs_frame :
    ∀ (defs : List (List Nat)) (s : word_classifications),
      (init_face_defs defs s).m_info = s.m_info ∧
      (init_face_defs defs s).m_faces = s.m_faces ∧
      (init_face_defs defs s).m_length = s.m_length := by
  intro defs
  induction defs with
  | nil => intro s; simp [init_face_defs]
  | cons d rest ih =>
    intro s
    simp only [init_face_defs]
    exact ih _

theorem init_face_defs_find_mono :
    ∀ (defs : List (List Nat)) (s : word_classifications) (q : List Nat) (c : Nat),
      face_map_find s.m_face_map q = some c →
      face_map_find (init_face_defs defs s).m_face_map q = some c := by
  intro defs
  induction defs with
  | nil => intro s q c h; exact h
  | cons d rest ih =>
    intro s q c h
    simp only [init_face_defs]
    apply ih
    simp only [fm_find_emplace]
    by_cases hq : q = d
    · subst hq
      simp [h]
    · simp [hq, h]

theorem init_face_defs_find :
    ∀ (defs : List (List Nat)) (s : word_classifications),
      s.m_face_definitions.length + defs.length ≤ face_max →
      ∀ (i : Nat) (d : List Nat), defs[i]? = some d → (∀ j, j < i → defs[j]? ≠ some d) →
        face_map_find s.m_face_map d = Option.none →
        face_map_find (init_face_defs defs s).m_face_map d =
          some (face_base + s.m_face_definitions.length + i) := by
  intro defs
  induction defs with
  | nil => intro s _ i d h; simp at h
  | cons d0 rest ih =>
    intro s hlen i d hi hfirst hnone
    simp only [List.length_cons] at hlen
    have hch : to_char (face_base + s.m_face_definitions.length) =
        face_base + s.m_face_definitions.length := by
      unfold to_char face_base; unfold face_max at hlen; omega
    simp only [init_face_defs, hch]
    cases i with
    | zero =>
      simp only [List.getElem?_cons_zero, Option.some.injEq] at hi
      subst hi
      apply init_face_defs_find_mono
      simp [fm_find_emplace, hnone]
    | succ j =>
      simp only [List.getElem?_cons_succ] at hi
      have hne : d ≠ d0 := by
        intro h
        exact hfirst 0 (Nat.succ_pos j) (by simp [h])
      have hstep := ih
        { m_info := s.m_info, m_face_definitions := s.m_face_definitions ++ [d0],
          m_faces := s.m_faces, m_length := s.m_length,
          m_face_map := face_map_emplace s.m_face_map d0
            (face_base + s.m_face_definitions.length) }
        (by simp; omega) j d hi
        (fun j' hj' => by
          have := hfirst (j' + 1) (by omega)
          simpa using this)
        (by simp [fm_find_emplace, hne, hnone])
      rw [hstep]
      simp only [List.length_append, List.length_singleton, Option.some.injEq]
      omega

theorem init_face_defs_sound :
    ∀ (defs : List (List Nat)) (s : word_classifications),
      face_map_sound s = true → s.m_face_definitions.length + defs.length ≤ face_max →
      face_map_sound (init_face_defs defs s) = true := by
  intro defs
  induction defs with
  | nil => intro s hs _; exact hs
  | cons d0 rest ih =>
    intro s hs hlen
    simp only [List.length_cons] at hlen
    have hch : to_char (face_base + s.m_face_definitions.length) =
        face_base + s.m_face_definitions.length := by
      unfold to_char face_base; unfold face_max at hlen; omega
    simp only [init_face_defs, hch]
    apply ih
    · obtain ⟨-, hall⟩ := (face_map_sound_iff s).mp hs
      rw [face_map_sound_iff]
      refine ⟨by simp; omega, ?_⟩
      intro kv hkv
      have hold : ∀ kv ∈ s.m_face_map, face_base ≤ kv.2 ∧
          (s.m_face_definitions ++ [d0])[kv.2 - face_base]? = some kv.1 := by
        intro kv hkv
        obtain ⟨h1, h2⟩ := hall kv hkv
        refine ⟨h1, ?_⟩
        obtain ⟨hlt, -⟩ := List.getElem?_eq_some_iff.mp h2
        rw [List.getElem?_append_left hlt]
        exact h2
      simp only [face_map_emplace] at hkv
      split at hkv
      · exact hold kv hkv
      · simp only [List.mem_append, List.mem_singleton] at hkv
        rcases hkv with hkv | hkv
        · exact hold kv hkv
        · subst hkv
          simp [face_base]
    · simp; omega

theorem face_map_sound_congr (s t : word_classifications)
    (h1 : s.m_face_definitions = t.m_face_definitions) (h2 : s.m_face_map = t.m_face_map) :
    face_map_sound s = face_map_sound t := by
  unfold face_map_sound
  rw [h1, h2]

theorem init_self_eq (malloc_ok : Bool) (self : word_classifications) (n : Nat) :
    word_classifications.init malloc_ok self n face_defs_ptr.self =
      word_classifications.init malloc_ok self n face_defs_ptr.null := by
  unfold word_classifications.init word_classifications.clear
  rfl

theorem init_null_eq (malloc_ok : Bool) (self : word_classifications) (n : Nat) :
    word_classifications.init malloc_ok self n face_defs_ptr.null =
      if n ≠ 0 ∧ malloc_ok = true then
        ⟨[], [], some (List.replicate n FACE_SPACE), u32 n, []⟩
      else ⟨[], [], Option.none, 0, []⟩ := by
  unfold word_classifications.init word_classifications.clear
  by_cases hn : n = 0 <;> cases malloc_ok <;> simp [hn]

theorem init_other_eq (malloc_ok : Bool) (self : word_classifications) (n : Nat)
    (p : word_classifications) :
    word_classifications.init malloc_ok self n (face_defs_ptr.other p) =
      if n ≠ 0 ∧ malloc_ok = true then
        { init_face_defs p.m_face_definitions ⟨[], [], Option.none, 0, []⟩ with
          m_faces := some (List.replicate n FACE_SPACE)
          m_length := u32 n }
      else init_face_defs p.m_face_definitions ⟨[], [], Option.none, 0, []⟩ := by
  unfold word_classifications.init word_classifications.clear
  by_cases hn : n = 0 <;> cases malloc_ok <;> simp [hn]

theorem init_defs (malloc_ok : Bool) (self : word_classifications) (n : Nat)
    (fd : face_defs_ptr) :
    (word_classifications.init malloc_ok self n fd).m_face_definitions =
      (match fd with
        | face_defs_ptr.other p => p.m_face_definitions
        | face_defs_ptr.self => []
        | face_defs_ptr.null => []) ∧
    (word_classifications.init malloc_ok self n fd).m_face_map =
      (match fd with
        | face_defs_ptr.other p =>
          (init_face_defs p.m_face_definitions ⟨[], [], Option.none, 0, []⟩).m_face_map
        | face_defs_ptr.self => []
        | face_defs_ptr.null => []) ∧
    (word_classifications.init malloc_ok self n fd).m_info = [] := by
  have hnull : (word_classifications.init malloc_ok self n face_defs_ptr.null).m_face_definitions
        = [] ∧
      (word_classifications.init malloc_ok self n face_defs_ptr.null).m_face_map = [] ∧
      (word_classifications.init malloc_ok self n face_defs_ptr.null).m_info = [] := by
    rw [init_null_eq]
    split <;> exact ⟨rfl, rfl, rfl⟩
  cases fd with
  | null => exact hnull
  | self =>
    rw [init_self_eq]
    exact hnull
  | other p =>
    have h1 := init_face_defs_defs p.m_face_definitions ⟨[], [], Option.none, 0, []⟩
    have h2 := (init_face_defs_frame p.m_face_definitions ⟨[], [], Option.none, 0, []⟩).1
    simp only [List.nil_append] at h1 h2
    rw [init_other_eq]
    split
    · exact ⟨h1, rfl, h2⟩
    · exact ⟨h1, rfl, h2⟩

theorem get_face_replicate (s : word_classifications) (n pos : Nat)
    (hf : s.m_faces = some (List.replicate n FACE_SPACE)) (hl : s.m_length ≤ n) :
    s.get_face pos = FACE_SPACE := by
  unfold word_classifications.get_face
  split
  · rfl
  · rename_i h
    rw [hf, Option.getD_some, List.getD_eq_getElem?_getD, List.getElem?_replicate]
    have : pos < n := by omega
    simp [this]

theorem get_face_of_length_zero (s : word_classifications) (pos : Nat) (hl : s.m_length = 0) :
    s.get_face pos = FACE_SPACE := by
  unfold word_classifications.get_face
  rw [hl, if_pos (Nat.zero_le _)]
  rfl

theorem init_get_face (malloc_ok : Bool) (self : word_classifications) (n : Nat)
    (fd : face_defs_ptr) (pos : Nat) :
    (word_classifications.init malloc_ok self n fd).get_face pos = FACE_SPACE := by
  have hu : u32 n ≤ n := by unfold u32; exact Nat.mod_le _ _
  have hnull : (word_classifications.init malloc_ok self n face_defs_ptr.null).get_face pos =
      FACE_SPACE := by
    rw [init_null_eq]
    split
    · exact get_face_replicate _ n pos rfl hu
    · exact get_face_of_length_zero _ pos rfl
  cases fd with
  | null => exact hnull
  | self =>
    rw [init_self_eq]
    exact hnull
  | other p =>
    rw [init_other_eq]
    split
    · exact get_face_replicate _ n pos rfl hu
    · exact get_face_of_length_zero _ pos
        (init_face_defs_frame p.m_face_definitions ⟨[], [], Option.none, 0, []⟩).2.2

theorem init_sound (malloc_ok : Bool) (self : word_classifications) (n : Nat)
    (fd : face_defs_ptr)
    (hfd : ∀ p, fd = face_defs_ptr.other p → p.m_face_definitions.length ≤ face_max) :
    face_map_sound (word_classifications.init malloc_ok self n fd) = true := by
  obtain ⟨hd, hm, -⟩ := init_defs malloc_ok self n fd
  cases fd with
  | null =>
    rw [face_map_sound_iff, hd, hm]
    simp
  | self =>
    rw [face_map_sound_iff, hd, hm]
    simp
  | other p =>
    have hlen := hfd p rfl
    have h := init_face_defs_sound p.m_face_definitions ⟨[], [], Option.none, 0, []⟩
      (by decide) (by simpa using hlen)
    rw [← h]
    apply face_map_sound_congr
    · rw [hd, init_face_defs_defs]
      simp
    · rw [hm]

theorem face_map_complete_iff (s : word_classifications) :
    face_map_complete s = true ↔
      ∀ d ∈ s.m_face_definitions, (face_map_find s.m_face_map d).isSome = true := by
  simp [face_map_complete]

theorem step_complete (s : word_classifications) (d0 : List Nat) (c : Nat)
    (hc : face_map_complete s = true) :
    face_map_complete
      { m_info := s.m_info, m_face_definitions := s.m_face_definitions ++ [d0],
        m_faces := s.m_faces, m_length := s.m_length,
        m_face_map := face_map_emplace s.m_face_map d0 c } = true := by
  rw [face_map_complete_iff] at hc ⊢
  intro d hd
  simp only [List.mem_append, List.mem_singleton] at hd
  simp only [fm_find_emplace]
  rcases hd with hd | hd
  · have := hc d hd
    split
    · rfl
    · exact this
  · subst hd
    cases hf : face_map_find s.m_face_map d with
    | none => simp
    | some x => simp

theorem init_face_defs_complete :
    ∀ (defs : List (List Nat)) (s : word_classifications),
      face_map_complete s = true → face_map_complete (init_face_defs defs s) = true := by
  intro defs
  induction defs with
  | nil => intro s hs; exact hs
  | cons d0 rest ih =>
    intro s hs
    simp only [init_face_defs]
    exact ih _ (step_complete s d0 _ hs)

/-- The objects built by `init` have a face map that agrees with the
definitions and covers them, and no definition twice, when the prior instance
has at most `face_max` definitions and none twice. -/
theorem init_face_table (malloc_ok : Bool) (self : word_classifications) (n : Nat)
    (fd : face_defs_ptr)
    (hfd : ∀ p, fd = face_defs_ptr.other p →
      p.m_face_definitions.length ≤ face_max ∧ p.m_face_definitions.Nodup) :
    face_map_sound (word_classifications.init malloc_ok self n fd) = true ∧
    face_map_complete (word_classifications.init malloc_ok self n fd) = true ∧
    (word_classifications.init malloc_ok self n fd).m_face_definitions.Nodup := by
  obtain ⟨hd, hm, -⟩ := init_defs malloc_ok self n fd
  refine ⟨init_sound malloc_ok self n fd (fun p hp => (hfd p hp).1), ?_, ?_⟩
  · cases fd with
    | null =>
      rw [face_map_complete_iff, hd]
      simp
    | self =>
      rw [face_map_complete_iff, hd]
      simp
    | other p =>
      have h := init_face_defs_complete p.m_face_definitions ⟨[], [], Option.none, 0, []⟩
        (by decide)
      rw [face_map_complete_iff] at h ⊢
      rw [init_face_defs_defs] at h
      rw [hd, hm]
      simpa using h
  · rw [hd]
    cases fd with
    | null => exact List.nodup_nil
    | self => exact List.nodup_nil
    | other p => exact (hfd p rfl).2

/-- The call `ensure_face` keeps the face map in agreement with the
definitions and covering them, and adds no definition twice. -/
theorem ensure_face_face_table (s : word_classifications) (sgr : List Nat)
    (hs : face_map_sound s = true) (hc : face_map_complete s = true)
    (hn : s.m_face_definitions.Nodup) :
    face_map_sound (s.ensure_face sgr).2 = true ∧
    face_map_complete (s.ensure_face sgr).2 = true ∧
    (s.ensure_face sgr).2.m_face_definitions.Nodup := by
  refine ⟨ensure_face_sound s sgr hs, ?_⟩
  rw [ensure_face_eq]
  cases hf : face_map_find s.m_face_map sgr with
  | some c => exact ⟨hc, hn⟩
  | none =>
    by_cases hcap : face_max ≤ s.m_face_definitions.length
    · simp only [hcap, if_true]
      exact ⟨hc, hn⟩
    · simp only [hcap, if_false]
      constructor
      · have := step_complete s sgr (face_base + s.m_face_definitions.length) hc
        simpa [face_map_emplace, ← fm_find_isSome, hf] using this
      · have hnot : sgr ∉ s.m_face_definitions := by
          intro hmem
          have := (face_map_complete_iff s).mp hc sgr hmem
          rw [hf] at this
          exact absurd this (by simp)
        rw [List.nodup_append]
        refine ⟨hn, List.nodup_singleton _, ?_⟩
        intro a ha hb
        simp only [List.mem_singleton] at hb
        subst hb
        exact hnot ha

theorem ensure_faces_length :
    ∀ (strs : List (List Nat)) (s : word_classifications),
      (ensure_faces s strs).1.length = strs.length := by
  intro strs
  induction strs with
  | nil => intro s; rfl
  | cons sgr rest ih => intro s; simp [ensure_faces, ih]

theorem sound_find_inj (s : word_classifications) (hs : face_map_sound s = true)
    (q1 q2 : List Nat) (c1 c2 : Nat) (h1 : face_map_find s.m_face_map q1 = some c1)
    (h2 : face_map_find s.m_face_map q2 = some c2) (hne : q1 ≠ q2) : c1 ≠ c2 := by
  intro hc
  subst hc
  have e1 := (sound_find s hs q1 c1 h1).2.2
  have e2 := (sound_find s hs q2 c1 h2).2.2
  rw [e1] at e2
  exact hne (Option.some.inj e2)

/-- C24: in the object reached from `init` (without a prior instance, with the
object itself as prior, or with another prior instance, which holds at most
`face_max` definitions) by any sequence of `ensure_face`
calls, two calls for distinct strings that both returned a non-null code
returned different codes, and every non-null code returned lies in
128..227; the same holds of the face map at the end: distinct strings have
distinct codes, every code lies in 128..227, and there are at most 100
definitions. -/
theorem ensure_face_injective (malloc_ok : Bool) (self : word_classifications)
    (line_length : Nat) (prior : face_defs_ptr)
    (hprior : ∀ p, prior = face_defs_ptr.other p → p.m_face_definitions.length ≤ face_max)
    (strs : List (List Nat)) :
    (∀ (i j : Nat) (si sj : List Nat) (ci cj : Nat),
      strs[i]? = some si → strs[j]? = some sj →
      (ensure_faces (word_classifications.init malloc_ok self line_length prior) strs).1[i]? =
        some ci →
      (ensure_faces (word_classifications.init malloc_ok self line_length prior) strs).1[j]? =
        some cj →
      ci ≠ 0 → cj ≠ 0 → si ≠ sj → ci ≠ cj) ∧
    (∀ c ∈ (ensure_faces (word_classifications.init malloc_ok self line_length prior) strs).1,
      c ≠ 0 → 128 ≤ c ∧ c ≤ 227) ∧
    (∀ q1 q2 c1 c2,
      face_map_find
        (ensure_faces (word_classifications.init malloc_ok self line_length prior)
          strs).2.m_face_map q1 = some c1 →
      face_map_find
        (ensure_faces (word_classifications.init malloc_ok self line_length prior)
          strs).2.m_face_map q2 = some c2 →
      q1 ≠ q2 → c1 ≠ c2) ∧
    (∀ q c,
      face_map_find
        (ensure_faces (word_classifications.init malloc_ok self line_length prior)
          strs).2.m_face_map q = some c → 128 ≤ c ∧ c ≤ 227) ∧
    (ensure_faces (word_classifications.init malloc_ok self line_length prior)
      strs).2.m_face_definitions.length ≤ face_max := by
  have h0 := init_sound malloc_ok self line_length prior hprior
  generalize word_classifications.init malloc_ok self line_length prior = s0 at h0 ⊢
  have hfin := ensure_faces_sound strs s0 h0
  have hrange : ∀ q c, face_map_find (ensure_faces s0 strs).2.m_face_map q = some c →
      128 ≤ c ∧ c ≤ 227 := by
    intro q c h
    obtain ⟨h1, h2, -⟩ := sound_find _ hfin q c h
    unfold face_base at h1 h2
    unfold face_max at h2
    omega
  refine ⟨?_, ?_, ?_, hrange, ((face_map_sound_iff _).mp hfin).1⟩
  · intro i j si sj ci cj hsi hsj hci hcj hni hnj hne
    exact sound_find_inj _ hfin si sj ci cj (ensure_faces_find strs s0 i si ci hsi hci hni)
      (ensure_faces_find strs s0 j sj cj hsj hcj hnj) hne
  · intro c hc hne
    obtain ⟨i, hi⟩ := List.getElem?_of_mem hc
    have hlt : i < strs.length := by
      have := (List.getElem?_eq_some_iff.mp hi).1
      rwa [ensure_faces_length] at this
    exact hrange strs[i] c
      (ensure_faces_find strs s0 i strs[i] c (List.getElem?_eq_getElem hlt) hi hne)
  · intro q1 q2 c1 c2 h1 h2 hne
    exact sound_find_inj _ hfin q1 q2 c1 c2 h1 h2 hne

/-- C24 at a fresh object of line length 3 on which three strings are
interned, the first one twice. -/
theorem ensure_face_injective_witness :
    (ensure_faces
        (word_classifications.init true ⟨[], [], Option.none, 0, []⟩ 3 face_defs_ptr.null)
        [[65], [66], [65], [67]]).1 = [128, 129, 128, 130] ∧
    (∀ c ∈ (ensure_faces
        (word_classifications.init true ⟨[], [], Option.none, 0, []⟩ 3 face_defs_ptr.null)
        [[65], [66], [65], [67]]).1, c ≠ 0 → 128 ≤ c ∧ c ≤ 227) :=
  ⟨by decide,
    (ensure_face_injective true ⟨[], [], Option.none, 0, []⟩ 3 face_defs_ptr.null
      (fun _ h => nomatch h) [[65], [66], [65], [67]]).2.1⟩

/-- C27 fails as stated at two inputs.  When the prior instance is the object
that is initialised, `init` clears it before it reads the definitions: the
object holding the definition "A" with code 128 (built by `init` and
`ensure_face`) holds no definition after `init(1, this)`, and
`get_face_output(128)` is null.  When the prior instance holds the definition
"A" twice with "A" interned as 129 (the object that `ensure_face("A")` leaves
after the move constructor), `ensure_face("A")` on the new object returns 128
and not 129. -/
theorem init_not_inherited :
    word_classifications.ensure_face
        (word_classifications.init true ⟨[], [], Option.none, 0, []⟩ 1 face_defs_ptr.null)
        [65] =
      (128, ⟨[], [[65]], some [32], 1, [([65], 128)]⟩) ∧
    face_map_find
      (⟨[], [[65]], some [32], 1, [([65], 128)]⟩ : word_classifications).m_face_map [65] =
        some 128 ∧
    word_classifications.init true ⟨[], [[65]], some [32], 1, [([65], 128)]⟩ 1
        face_defs_ptr.self =
      ⟨[], [], some [32], 1, []⟩ ∧
    word_classifications.get_face_output
      (word_classifications.init true ⟨[], [[65]], some [32], 1, [([65], 128)]⟩ 1
        face_defs_ptr.self) 128 = Option.none ∧
    (word_classifications.ensure_face
      (word_classifications.init true ⟨[], [[65]], some [32], 1, [([65], 128)]⟩ 1
        face_defs_ptr.self) [65]).2.m_face_definitions = [[65]] ∧
    (word_classifications.ensure_face
        (word_classifications.move ⟨[], [[65]], some [32], 1, [([65], 128)]⟩).1 [65]).2 =
      ⟨[], [[65], [65]], some [32], 1, [([65], 129)]⟩ ∧
    face_map_find
      (⟨[], [[65], [65]], some [32], 1, [([65], 129)]⟩ : word_classifications).m_face_map
        [65] = some 129 ∧
    (word_classifications.ensure_face
      (word_classifications.init true ⟨[], [], Option.none, 0, []⟩ 1
        (face_defs_ptr.other ⟨[], [[65], [65]], some [32], 1, [([65], 129)]⟩)) [65]).1 =
      128 := by
  decide

/-- C27, amended: after `init(length, prior)`, whether or not memory is
obtained and whatever `prior` is, every position has the unclassified default
face and the token table is empty.  If `prior` is another object than the one
initialised and its face map agrees with its definitions, as in every object
built by `init`, `ensure_face` and the move constructor, then the new object
holds the definitions of `prior` in the same order and, for every string
interned in `prior` with code `c`, `get_face_output(c)` returns the string; if
moreover `prior` holds no definition twice, as in every object built by `init`
and `ensure_face`, `ensure_face` of the string returns `c` and leaves the
object unchanged.  The same holds for the string of the definition `i` with
`c = 128 + i`, `ensure_face` returning `c` when no earlier definition is the
same string.  Without a prior instance the definitions are empty, and with the
object itself as prior `init` does what it does without a prior instance. -/
theorem init_inherits (malloc_ok : Bool) (self : word_classifications) (line_length : Nat)
    (prior : word_classifications) (hsound : face_map_sound prior = true) :
    (∀ (fd : face_defs_ptr) (pos : Nat),
      (word_classifications.init malloc_ok self line_length fd).get_face pos = FACE_SPACE ∧
      (word_classifications.init malloc_ok self line_length fd).m_info = []) ∧
    (word_classifications.init malloc_ok self line_length
      (face_defs_ptr.other prior)).m_face_definitions = prior.m_face_definitions ∧
    (∀ s c, face_map_find prior.m_face_map s = some c →
      (word_classifications.init malloc_ok self line_length
        (face_defs_ptr.other prior)).get_face_output c = some s) ∧
    (prior.m_face_definitions.Nodup →
      ∀ s c, face_map_find prior.m_face_map s = some c →
        (word_classifications.init malloc_ok self line_length
          (face_defs_ptr.other prior)).ensure_face s =
        (c, word_classifications.init malloc_ok self line_length
          (face_defs_ptr.other prior))) ∧
    (∀ i s, prior.m_face_definitions[i]? = some s →
      (word_classifications.init malloc_ok self line_length
        (face_defs_ptr.other prior)).get_face_output (face_base + i) = some s ∧
      ((∀ j, j < i → prior.m_face_definitions[j]? ≠ some s) →
        (word_classifications.init malloc_ok self line_length
          (face_defs_ptr.other prior)).ensure_face s =
        (face_base + i, word_classifications.init malloc_ok self line_length
          (face_defs_ptr.other prior)))) ∧
    (word_classifications.init malloc_ok self line_length
      face_defs_ptr.null).m_face_definitions = [] ∧
    word_classifications.init malloc_ok self line_length face_defs_ptr.self =
      word_classifications.init malloc_ok self line_length face_defs_ptr.null := by
  obtain ⟨hd, hm, -⟩ := init_defs malloc_ok self line_length (face_defs_ptr.other prior)
  obtain ⟨hd0, -, -⟩ := init_defs malloc_ok self line_length face_defs_ptr.null
  simp only at hd hm hd0
  have hlen := ((face_map_sound_iff prior).mp hsound).1
  have hidx : ∀ i s, prior.m_face_definitions[i]? = some s →
      (word_classifications.init malloc_ok self line_length
        (face_defs_ptr.other prior)).get_face_output (face_base + i) = some s ∧
      ((∀ j, j < i → prior.m_face_definitions[j]? ≠ some s) →
        (word_classifications.init malloc_ok self line_length
          (face_defs_ptr.other prior)).ensure_face s =
        (face_base + i, word_classifications.init malloc_ok self line_length
          (face_defs_ptr.other prior))) := by
    intro i s his
    have hlt := (List.getElem?_eq_some_iff.mp his).1
    constructor
    · rw [get_face_output_eq _ _ (Nat.le_add_right _ _)
        (by unfold face_base; unfold face_max at hlen; omega), hd]
      simpa using his
    · intro hfirst
      have hfind := init_face_defs_find prior.m_face_definitions ⟨[], [], Option.none, 0, []⟩
        (by simpa using hlen) i s his hfirst rfl
      simp only [List.length_nil, Nat.add_zero] at hfind
      rw [ensure_face_eq, hm, hfind]
  refine ⟨fun fd pos => ⟨init_get_face _ _ _ fd pos, (init_defs _ _ _ fd).2.2⟩, hd, ?_, ?_,
    hidx, hd0, init_self_eq malloc_ok self line_length⟩
  · intro s c hsc
    obtain ⟨h1, -, h3⟩ := sound_find prior hsound s c hsc
    have := (hidx (c - face_base) s h3).1
    rwa [Nat.add_sub_cancel' h1] at this
  · intro hnodup s c hsc
    obtain ⟨h1, -, h3⟩ := sound_find prior hsound s c hsc
    have hlt := (List.getElem?_eq_some_iff.mp h3).1
    have hfirst : ∀ j, j < c - face_base → prior.m_face_definitions[j]? ≠ some s := by
      intro j hj
      rw [← h3]
      exact List.nodup_iff_getElem?_ne_getElem?.mp hnodup j (c - face_base) hj hlt
    have := (hidx (c - face_base) s h3).2 hfirst
    rwa [Nat.add_sub_cancel' h1] at this

/-- C27, amended, at a prior instance holding two definitions, for a line of
length 4. -/
theorem init_inherits_witness :
    word_classifications.get_face_output
        (word_classifications.init true ⟨[], [], Option.none, 0, []⟩ 4
          (face_defs_ptr.other
            ⟨[], [[65], [66]], some [32, 1], 2, [([65], 128), ([66], 129)]⟩)) 129 =
      some [66] ∧
    word_classifications.ensure_face
        (word_classifications.init true ⟨[], [], Option.none, 0, []⟩ 4
          (face_defs_ptr.other
            ⟨[], [[65], [66]], some [32, 1], 2, [([65], 128), ([66], 129)]⟩)) [66] =
      (129, word_classifications.init true ⟨[], [], Option.none, 0, []⟩ 4
          (face_defs_ptr.other
            ⟨[], [[65], [66]], some [32, 1], 2, [([65], 128), ([66], 129)]⟩)) :=
  ⟨(init_inherits true ⟨[], [], Option.none, 0, []⟩ 4
      ⟨[], [[65], [66]], some [32, 1], 2, [([65], 128), ([66], 129)]⟩
      (by decide)).2.2.1 [66] 129 (by decide),
    by decide⟩

/-! ## Claims on finish and on equals -/

theorem set_getElem_same {α : Type} (l : List α) (i : Nat) (h : i < l.length) :
    l.set i l[i] = l := by
  apply List.ext_getElem?
  intro j
  rw [List.getElem?_set]
  by_cases hij : i = j
  · subst hij
    simp [h]
  · simp [hij]

theorem finish_pos_eq (fc : face_codes) (show_argmatchers : Bool) (info : word_class_info)
    (faces : List Nat) (pos : Nat) (h : pos < faces.length) :
    finish_pos fc show_argmatchers info faces pos =
      Outcome.done (faces.set pos (paint_face fc show_argmatchers info faces[pos])) := by
  unfold finish_pos paint_face
  rw [dif_pos h]
  by_cases hx : faces[pos] = FACE_SPACE
  · simp only [hx, beq_self_eq_true, if_true]
    by_cases ha : (info.argmatcher && show_argmatchers) = true
    · rw [if_pos ha, if_pos ha]
    · rw [if_neg ha, if_neg ha]
      by_cases hw : info.word_class < word_class.max
      · rw [if_pos hw, if_pos hw]
      · rw [if_neg hw, if_neg hw]
        have := set_getElem_same faces pos h
        rw [hx] at this
        rw [this]
  · have hb : (faces[pos] == FACE_SPACE) = false := by simpa using hx
    rw [hb, if_neg hx, set_getElem_same faces pos h]
    rfl

theorem finish_range_spec (fc : face_codes) (show_argmatchers : Bool) (info : word_class_info) :
    ∀ (count pos : Nat) (faces : List Nat), (count = 0 ∨ pos + count ≤ faces.length) →
      ∃ faces', finish_range fc show_argmatchers info count pos faces = Outcome.done faces' ∧
        faces'.length = faces.length ∧
        ∀ p, faces'[p]? = (faces[p]?).map (fun x =>
          if pos ≤ p ∧ p < pos + count then paint_face fc show_argmatchers info x else x) := by
  intro count
  induction count with
  | zero =>
    intro pos faces _
    refine ⟨faces, rfl, rfl, ?_⟩
    intro p
    have : ¬(pos ≤ p ∧ p < pos + 0) := by omega
    simp only [this, if_false]
    cases faces[p]? <;> rfl
  | succ count ih =>
    intro pos faces hlen
    have hpos : pos < faces.length := by omega
    obtain ⟨faces', h1, h2, h3⟩ := ih (pos + 1)
      (faces.set pos (paint_face fc show_argmatchers info faces[pos]))
      (by rw [List.length_set]; omega)
    refine ⟨faces', ?_, by rw [h2, List.length_set], ?_⟩
    · simp only [finish_range, finish_pos_eq fc show_argmatchers info faces pos hpos]
      exact h1
    · intro p
      rw [h3, List.getElem?_set]
      by_cases hp : pos = p
      · subst hp
        have c1 : ¬(pos + 1 ≤ pos ∧ pos < pos + 1 + count) := by omega
        have c2 : pos ≤ pos ∧ pos < pos + (count + 1) := by omega
        simp only [hpos, if_true, Option.map_some', c1, if_false, c2,
          List.getElem?_eq_getElem hpos, and_self]
      · have c : (pos + 1 ≤ p ∧ p < pos + 1 + count) ↔ (pos ≤ p ∧ p < pos + (count + 1)) := by
          omega
        simp only [hp, if_false, c]

theorem finish_loop_spec (fc : face_codes) (show_argmatchers : Bool) (m_length : Nat) :
    ∀ (tokens : List word_class_info) (faces : List Nat), m_length ≤ faces.length →
      ∃ faces', finish_loop fc show_argmatchers m_length tokens faces = Outcome.done faces' ∧
        faces'.length = faces.length ∧
        ∀ p, faces'[p]? =
          (faces[p]?).map (finish_face fc show_argmatchers m_length tokens p) := by
  intro tokens
  induction tokens with
  | nil =>
    intro faces _
    refine ⟨faces, rfl, rfl, ?_⟩
    intro p
    cases faces[p]? <;> rfl
  | cons info rest ih =>
    intro faces hlen
    obtain ⟨faces1, h1, h2, h3⟩ := finish_range_spec fc show_argmatchers info
      (min info.end_ m_length - info.start) info.start faces (by omega)
    obtain ⟨faces2, k1, k2, k3⟩ := ih faces1 (by omega)
    refine ⟨faces2, ?_, by rw [k2, h2], ?_⟩
    · simp only [finish_loop, h1]
      exact k1
    · intro p
      rw [k3, h3]
      have c : (info.start ≤ p ∧ p < info.start + (min info.end_ m_length - info.start)) ↔
          (info.start ≤ p ∧ p < min info.end_ m_length) := by omega
      cases faces[p]? with
      | none => rfl
      | some x => simp only [Option.map_some', finish_face, c]

theorem paint_face_of_ne (fc : face_codes) (show_argmatchers : Bool) (info : word_class_info)
    (x : Nat) (hx : x ≠ FACE_SPACE) : paint_face fc show_argmatchers info x = x := by
  unfold paint_face
  rw [if_neg hx]

theorem finish_face_of_ne (fc : face_codes) (show_argmatchers : Bool) (m_length : Nat) :
    ∀ (tokens : List word_class_info) (p x : Nat), x ≠ FACE_SPACE →
      finish_face fc show_argmatchers m_length tokens p x = x := by
  intro tokens
  induction tokens with
  | nil => intro p x _; rfl
  | cons info rest ih =>
    intro p x hx
    simp only [finish_face, paint_face_of_ne fc show_argmatchers info x hx, ite_self]
    exact ih p x hx

theorem finish_face_of_outside (fc : face_codes) (show_argmatchers : Bool) (m_length : Nat) :
    ∀ (tokens : List word_class_info) (p x : Nat),
      (∀ info ∈ tokens, ¬(info.start ≤ p ∧ p < min info.end_ m_length)) →
      finish_face fc show_argmatchers m_length tokens p x = x := by
  intro tokens
  induction tokens with
  | nil => intro p x _; rfl
  | cons info rest ih =>
    intro p x h
    have h0 := h info (List.mem_cons_self _ _)
    simp only [finish_face, h0, if_false]
    exact ih p x (fun a ha => h a (List.mem_cons_of_mem _ ha))

theorem finish_face_append (fc : face_codes) (show_argmatchers : Bool) (m_length : Nat) :
    ∀ (l1 l2 : List word_class_info) (p x : Nat),
      finish_face fc show_argmatchers m_length (l1 ++ l2) p x =
        finish_face fc show_argmatchers m_length l2 p
          (finish_face fc show_argmatchers m_length l1 p x) := by
  intro l1
  induction l1 with
  | nil => intro l2 p x; rfl
  | cons info rest ih =>
    intro l2 p x
    simp only [List.cons_append, finish_face]
    exact ih l2 p _

theorem finish_face_of_disjoint (fc : face_codes) (show_argmatchers : Bool) (m_length : Nat)
    (tokens : List word_class_info)
    (hdisj : tokens.Pairwise (fun a b => spans_disjoint a b = true))
    (tok : word_class_info) (htok : tok ∈ tokens) (p x : Nat)
    (h1 : tok.start ≤ p) (h2 : p < tok.end_) (h3 : p < m_length) :
    finish_face fc show_argmatchers m_length tokens p x =
      paint_face fc show_argmatchers tok x := by
  obtain ⟨pre, post, rfl⟩ := List.append_of_mem htok
  rw [List.pairwise_append] at hdisj
  obtain ⟨-, hpost, hpre⟩ := hdisj
  rw [List.pairwise_cons] at hpost
  have hout : ∀ a : word_class_info, (spans_disjoint a tok = true ∨ spans_disjoint tok a = true) →
      ¬(a.start ≤ p ∧ p < min a.end_ m_length) := by
    intro a ha
    unfold spans_disjoint at ha
    simp only [decide_eq_true_eq] at ha
    omega
  rw [finish_face_append, finish_face_of_outside fc show_argmatchers m_length pre p x
    (fun a ha => hout a (Or.inl (hpre a ha tok (List.mem_cons_self _ _))))]
  have hin : tok.start ≤ p ∧ p < min tok.end_ m_length := by omega
  simp only [finish_face, hin, and_self, if_true]
  exact finish_face_of_outside fc show_argmatchers m_length post p _
    (fun a ha => hout a (Or.inr (hpost.1 a ha)))

theorem finish_spec (fc : face_codes) (s : word_classifications) (show_argmatchers : Bool)
    (hlen : s.m_length ≤ (s.m_faces.getD []).length) :
    ∃ faces', s.finish fc show_argmatchers =
        Outcome.done { s with m_faces := s.m_faces.map (fun _ => faces') } ∧
      faces'.length = (s.m_faces.getD []).length ∧
      ∀ p, faces'[p]? =
        ((s.m_faces.getD [])[p]?).map (finish_face fc show_argmatchers s.m_length s.m_info p) := by
  obtain ⟨faces', h1, h2, h3⟩ := finish_loop_spec fc show_argmatchers s.m_length s.m_info
    (s.m_faces.getD []) hlen
  refine ⟨faces', ?_, h2, h3⟩
  unfold word_classifications.finish
  rw [h1]

theorem finish_done (fc : face_codes) (s : word_classifications) (show_argmatchers : Bool)
    (hlen : s.m_length ≤ (s.m_faces.getD []).length) :
    ∃ s', s.finish fc show_argmatchers = Outcome.done s' ∧
      s'.m_info = s.m_info ∧ s'.m_face_definitions = s.m_face_definitions ∧
      s'.m_face_map = s.m_face_map ∧ s'.m_length = s.m_length ∧
      s'.m_faces.isSome = s.m_faces.isSome ∧
      (s'.m_faces.getD []).length = (s.m_faces.getD []).length ∧
      ∀ p : Nat, (s'.m_faces.getD [])[p]? =
        ((s.m_faces.getD [])[p]?).map (finish_face fc show_argmatchers s.m_length s.m_info p) := by
  obtain ⟨faces', h1, h2, h3⟩ := finish_spec fc s show_argmatchers hlen
  refine ⟨_, h1, rfl, rfl, rfl, rfl, ?_, ?_, ?_⟩
  · simp
  · cases hf : s.m_faces with
    | none => simp
    | some f => simpa [hf] using h2
  · intro p
    cases hf : s.m_faces with
    | none => simp
    | some f => simpa [hf] using h3 p

theorem get_face_eq_of_getElem? (s t : word_classifications) (p : Nat)
    (hlen : t.m_length = s.m_length)
    (h : (t.m_faces.getD [])[p]? = (s.m_faces.getD [])[p]?) : t.get_face p = s.get_face p := by
  unfold word_classifications.get_face
  rw [hlen, List.getD_eq_getElem?_getD, List.getD_eq_getElem?_getD, h]

/-- C28: on an object whose face array holds at least `m_length` bytes, as
after `init`, `finish(show_argmatchers)` returns without indexing the face
array out of range; it leaves the token table, the face definitions, the face
map, the line length and the size of the face array unchanged; a position
whose face differs from the unclassified default keeps its face, and so does
a position at or beyond the line length or outside the span of every token,
both in the face array and as read by `get_face`. -/
theorem finish_frame (fc : face_codes) (s : word_classifications) (show_argmatchers : Bool)
    (hlen : s.m_length ≤ (s.m_faces.getD []).length) :
    ∃ s', s.finish fc show_argmatchers = Outcome.done s' ∧
      s'.m_info = s.m_info ∧ s'.m_face_definitions = s.m_face_definitions ∧
      s'.m_face_map = s.m_face_map ∧ s'.m_length = s.m_length ∧
      s'.m_faces.isSome = s.m_faces.isSome ∧
      (s'.m_faces.getD []).length = (s.m_faces.getD []).length ∧
      (∀ p : Nat, (s.m_faces.getD [])[p]? ≠ some FACE_SPACE →
        (s'.m_faces.getD [])[p]? = (s.m_faces.getD [])[p]?) ∧
      (∀ p : Nat, (s.m_length ≤ p ∨ ∀ info ∈ s.m_info, ¬(info.start ≤ p ∧ p < info.end_)) →
        (s'.m_faces.getD [])[p]? = (s.m_faces.getD [])[p]?) ∧
      (∀ p, s.get_face p ≠ FACE_SPACE → s'.get_face p = s.get_face p) ∧
      (∀ p, (∀ info ∈ s.m_info, ¬(info.start ≤ p ∧ p < info.end_)) →
        s'.get_face p = s.get_face p) := by
  obtain ⟨s', h1, h2, h3, h4, h5, h6, h7, h8⟩ := finish_done fc s show_argmatchers hlen
  have hpainted : ∀ p : Nat, (s.m_faces.getD [])[p]? ≠ some FACE_SPACE →
      (s'.m_faces.getD [])[p]? = (s.m_faces.getD [])[p]? := by
    intro p hp
    rw [h8]
    cases hx : (s.m_faces.getD [])[p]? with
    | none => rfl
    | some x =>
      rw [hx] at hp
      have hne : x ≠ FACE_SPACE := fun h => hp (by rw [h])
      simp only [Option.map_some', finish_face_of_ne fc show_argmatchers s.m_length s.m_info p x hne]
  have houtside : ∀ p : Nat,
      (s.m_length ≤ p ∨ ∀ info ∈ s.m_info, ¬(info.start ≤ p ∧ p < info.end_)) →
      (s'.m_faces.getD [])[p]? = (s.m_faces.getD [])[p]? := by
    intro p hp
    rw [h8]
    have hout : ∀ info ∈ s.m_info, ¬(info.start ≤ p ∧ p < min info.end_ s.m_length) := by
      intro info hinfo
      rcases hp with hp | hp
      · omega
      · have := hp info hinfo
        omega
    cases hx : (s.m_faces.getD [])[p]? with
    | none => rfl
    | some x =>
      simp only [Option.map_some',
        finish_face_of_outside fc show_argmatchers s.m_length s.m_info p x hout]
  refine ⟨s', h1, h2, h3, h4, h5, h6, h7, hpainted, houtside, ?_, ?_⟩
  · intro p hp
    apply get_face_eq_of_getElem? s s' p h5
    apply hpainted
    intro hx
    apply hp
    unfold word_classifications.get_face
    split
    · rfl
    · rw [List.getD_eq_getElem?_getD, hx]
      rfl
  · intro p hp
    exact get_face_eq_of_getElem? s s' p h5 (houtside p (Or.inr hp))

/-- C28 on a line of length 6 with a painted position inside the one token
and unclassified positions outside it. -/
theorem finish_frame_witness :
    ∃ s', word_classifications.finish ⟨1, 2, 3, 4, 5, 6, 7, 8, 9⟩
        ⟨[⟨1, 4, 3, false, false⟩], [], some [32, 32, 200, 32, 32, 32], 6, []⟩ true =
          Outcome.done s' ∧
      s'.m_faces = some [32, 4, 200, 4, 32, 32] :=
  (finish_frame ⟨1, 2, 3, 4, 5, 6, 7, 8, 9⟩
    ⟨[⟨1, 4, 3, false, false⟩], [], some [32, 32, 200, 32, 32, 32], 6, []⟩ true
    (by decide)).elim (fun s' h => ⟨s', h.1, by
      have e := h.1
      have d : word_classifications.finish ⟨1, 2, 3, 4, 5, 6, 7, 8, 9⟩
          ⟨[⟨1, 4, 3, false, false⟩], [], some [32, 32, 200, 32, 32, 32], 6, []⟩ true =
          Outcome.done ⟨[⟨1, 4, 3, false, false⟩], [], some [32, 4, 200, 4, 32, 32], 6, []⟩ := by
        decide
      rw [d] at e
      cases e
      rfl⟩)

/-- C29: on an object whose face array holds at least `m_length` bytes and
whose tokens have pairwise disjoint spans, `finish(show_argmatchers)` returns,
and every position below the line length that lies in the span of a token and
was unclassified before has afterwards the argmatcher face if the token has an
argmatcher and `show_argmatchers` is set, otherwise the entry of `c_faces` for
the token's class (other, unrecognized, executable, command, alias, argument,
flag, none, in this order) if the token has a class, and is still
unclassified if the token has none. -/
theorem finish_paints (fc : face_codes) (s : word_classifications) (show_argmatchers : Bool)
    (hlen : s.m_length ≤ (s.m_faces.getD []).length)
    (hdisj : s.m_info.Pairwise (fun a b => spans_disjoint a b = true)) :
    ∃ s', s.finish fc show_argmatchers = Outcome.done s' ∧
      (∀ tok ∈ s.m_info, ∀ p, tok.start ≤ p → p < tok.end_ → p < s.m_length →
        s.get_face p = FACE_SPACE →
        s'.get_face p =
          if tok.argmatcher = true ∧ show_argmatchers = true then fc.FACE_ARGMATCHER
          else if tok.word_class < word_class.max then (c_faces fc).getD tok.word_class 0
          else FACE_SPACE) ∧
      c_faces fc = [fc.FACE_OTHER, fc.FACE_UNRECOGNIZED, fc.FACE_EXECUTABLE, fc.FACE_COMMAND,
        fc.FACE_ALIAS, fc.FACE_ARGUMENT, fc.FACE_FLAG, fc.FACE_NONE] := by
  obtain ⟨s', h1, -, -, -, h5, -, h7, h8⟩ := finish_done fc s show_argmatchers hlen
  refine ⟨s', h1, ?_, rfl⟩
  intro tok htok p hp1 hp2 hp3 hface
  have hlt : p < (s.m_faces.getD []).length := by omega
  have hx : (s.m_faces.getD [])[p]? = some FACE_SPACE := by
    unfold word_classifications.get_face at hface
    rw [if_neg (by omega), List.getD_eq_getElem?_getD, List.getElem?_eq_getElem hlt] at hface
    rw [List.getElem?_eq_getElem hlt]
    simpa using hface
  have hnew := h8 p
  rw [hx, Option.map_some',
    finish_face_of_disjoint fc show_argmatchers s.m_length s.m_info hdisj tok htok p FACE_SPACE
      hp1 hp2 hp3] at hnew
  unfold word_classifications.get_face
  rw [h5, if_neg (by omega), List.getD_eq_getElem?_getD, hnew]
  unfold paint_face
  simp only [if_true, Option.getD_some, Bool.and_eq_true]

/-- C29 on a line of length 8 with an argmatcher token, a command token and a
token without a class. -/
theorem finish_paints_witness :
    ∃ s', word_classifications.finish ⟨1, 2, 3, 4, 5, 6, 7, 8, 9⟩
        ⟨[⟨0, 2, 3, true, false⟩, ⟨3, 5, 3, false, false⟩, ⟨6, 8, 255, false, false⟩], [],
          some [32, 32, 32, 32, 32, 32, 32, 32], 8, []⟩ true = Outcome.done s' ∧
      s'.get_face 4 = 4 :=
  (finish_paints ⟨1, 2, 3, 4, 5, 6, 7, 8, 9⟩
    ⟨[⟨0, 2, 3, true, false⟩, ⟨3, 5, 3, false, false⟩, ⟨6, 8, 255, false, false⟩], [],
      some [32, 32, 32, 32, 32, 32, 32, 32], 8, []⟩ true (by decide)
    (by simp [spans_disjoint])).elim (fun s' h => ⟨s', h.1,
      h.2.1 ⟨3, 5, 3, false, false⟩ (by simp) 4 (by decide) (by decide) (by decide)
        (by decide)⟩)

theorem strncmp_eq_iff :
    ∀ (n : Nat) (a b : List Nat),
      strncmp_eq a b n = true ↔ text (a.take n) = text (b.take n) := by
  intro n
  induction n with
  | zero => intro a b; simp [strncmp_eq]
  | succ n ih =>
    intro a b
    cases a with
    | nil =>
      cases b with
      | nil => simp [strncmp_eq]
      | cons y b' =>
        by_cases hy : y = 0
        · simp [strncmp_eq, text, hy]
        · have hy' : ¬ 0 = y := fun h => hy h.symm
          simp [strncmp_eq, text, hy, hy']
    | cons x a' =>
      cases b with
      | nil =>
        by_cases hx : x = 0
        · simp [strncmp_eq, text, hx]
        · simp [strncmp_eq, text, hx]
      | cons y b' =>
        by_cases hxy : x = y
        · subst hxy
          by_cases hx : x = 0
          · simp [strncmp_eq, text, hx]
          · simp [strncmp_eq, text, hx, ih a' b']
        · by_cases hx : x = 0
          · have hy : ¬ y = 0 := fun h => hxy (by rw [hx, h])
            have hy' : ¬ 0 = y := fun h => hy h.symm
            simp [strncmp_eq, text, hx, hy, hy']
          · by_cases hy : y = 0
            · simp [strncmp_eq, text, hx, hy, hxy]
            · simp [strncmp_eq, text, hx, hy, hxy]

theorem definitions_all_eq_iff (a b : List (List Nat)) (hlen : a.length = b.length) :
    (List.range a.length).reverse.all (fun ii => a.getD ii [] == b.getD ii []) = true ↔
      a = b := by
  constructor
  · intro h
    simp only [List.all_eq_true, List.mem_reverse, List.mem_range, beq_iff_eq] at h
    apply List.ext_getElem hlen
    intro i h1 h2
    have := h i h1
    rw [List.getD_eq_getElem?_getD, List.getD_eq_getElem?_getD, List.getElem?_eq_getElem h1,
      List.getElem?_eq_getElem h2] at this
    simpa using this
  · intro h
    subst h
    simp

theorem text_eq_self_of_no_nul : ∀ (l : List Nat), 0 ∉ l → text l = l := by
  intro l
  induction l with
  | nil => intro _; rfl
  | cons x rest ih =>
    intro h
    simp only [List.mem_cons, not_or] at h
    have hx : ¬ x = 0 := fun e => h.1 e.symm
    simp only [text, hx, if_false, ih h.2]

/-- C30, as the code has it: `equals` is true exactly when both face arrays
are null, whatever the face definitions, or both are non-null and the objects
have the same line length, face arrays that agree as C strings over the line
length (`strncmp`: up to the first NUL byte), and the same face definitions in
the same order.  For two non-null face arrays of the line length without a NUL
byte this is: same line length, same face bytes, same definitions. -/
theorem equals_iff (a b : word_classifications) :
    (a.equals b = true ↔
      (a.m_faces = Option.none ∧ b.m_faces = Option.none) ∨
      (∃ fa fb, a.m_faces = some fa ∧ b.m_faces = some fb ∧ a.m_length = b.m_length ∧
        text (fa.take a.m_length) = text (fb.take a.m_length) ∧
        a.m_face_definitions = b.m_face_definitions)) ∧
    (∀ fa fb, a.m_faces = some fa → b.m_faces = some fb → fa.length = a.m_length →
      fb.length = b.m_length → 0 ∉ fa → 0 ∉ fb →
      (a.equals b = true ↔
        a.m_length = b.m_length ∧ fa = fb ∧ a.m_face_definitions = b.m_face_definitions)) := by
  have main : a.equals b = true ↔
      (a.m_faces = Option.none ∧ b.m_faces = Option.none) ∨
      (∃ fa fb, a.m_faces = some fa ∧ b.m_faces = some fb ∧ a.m_length = b.m_length ∧
        text (fa.take a.m_length) = text (fb.take a.m_length) ∧
        a.m_face_definitions = b.m_face_definitions) := by
    unfold word_classifications.equals
    cases hfa : a.m_faces with
    | none =>
      cases hfb : b.m_faces with
      | none => simp
      | some fb => simp
    | some fa =>
      cases hfb : b.m_faces with
      | none => simp
      | some fb =>
        simp only
        constructor
        · intro h
          by_cases hd : a.m_face_definitions.length ≠ b.m_face_definitions.length
          · rw [if_pos hd] at h
            exact absurd h (by decide)
          · rw [if_neg hd] at h
            by_cases hl : a.m_length ≠ b.m_length
            · rw [if_pos hl] at h
              exact absurd h (by decide)
            · rw [if_neg hl] at h
              by_cases hs : (!strncmp_eq fa fb a.m_length) = true
              · rw [if_pos hs] at h
                exact absurd h (by decide)
              · rw [if_neg hs] at h
                have hs' : strncmp_eq fa fb a.m_length = true := by simpa using hs
                have hd' : a.m_face_definitions.length = b.m_face_definitions.length :=
                  not_not.mp hd
                exact Or.inr ⟨fa, fb, rfl, rfl, not_not.mp hl,
                  (strncmp_eq_iff a.m_length fa fb).mp hs',
                  (definitions_all_eq_iff _ _ hd').mp h⟩
        · intro h
          rcases h with ⟨h, -⟩ | ⟨fa', fb', e1, e2, hl, ht, hdefs⟩
          · exact absurd h (by simp)
          · cases e1
            cases e2
            have hd : ¬ a.m_face_definitions.length ≠ b.m_face_definitions.length := by
              rw [hdefs]; simp
            have hs : ¬ (!strncmp_eq fa fb a.m_length) = true := by
              rw [(strncmp_eq_iff a.m_length fa fb).mpr ht]; simp
            rw [if_neg hd, if_neg (not_not.mpr hl), if_neg hs]
            exact (definitions_all_eq_iff _ _ (by rw [hdefs])).mpr hdefs
  refine ⟨main, ?_⟩
  intro fa fb hfa hfb hla hlb hna hnb
  rw [main]
  constructor
  · intro h
    rcases h with ⟨h, -⟩ | ⟨fa', fb', e1, e2, hl, ht, hd⟩
    · rw [hfa] at h
      exact absurd h (by simp)
    · rw [hfa] at e1
      rw [hfb] at e2
      cases e1
      cases e2
      refine ⟨hl, ?_, hd⟩
      have e1 : fa.take a.m_length = fa := List.take_of_length_le (by omega)
      have e2 : fb.take a.m_length = fb := List.take_of_length_le (by omega)
      rw [e1, e2, text_eq_self_of_no_nul _ hna, text_eq_self_of_no_nul _ hnb] at ht
      exact ht
  · rintro ⟨hl, hf, hd⟩
    exact Or.inr ⟨fa, fb, hfa, hfb, hl, by rw [hf], hd⟩

/-- C30 refuted: two objects initialised for an empty line, the second one
from a prior instance holding one face definition, have the same line length
and the same face at every position, but not the same face definitions, and
`equals` is true; and two face arrays of length 2 that start with a NUL byte
and differ at position 1 are equal for `equals`. -/
theorem equals_ignores_definitions :
    word_classifications.init true ⟨[], [], Option.none, 0, []⟩ 0 face_defs_ptr.null =
      ⟨[], [], Option.none, 0, []⟩ ∧
    word_classifications.init true ⟨[], [], Option.none, 0, []⟩ 0
        (face_defs_ptr.other ⟨[], [[65]], Option.none, 0, [([65], 128)]⟩) =
      ⟨[], [[65]], Option.none, 0, [([65], 128)]⟩ ∧
    word_classifications.equals ⟨[], [], Option.none, 0, []⟩
      ⟨[], [[65]], Option.none, 0, [([65], 128)]⟩ = true ∧
    word_classifications.get_face_output ⟨[], [], Option.none, 0, []⟩ 128 = Option.none ∧
    word_classifications.get_face_output ⟨[], [[65]], Option.none, 0, [([65], 128)]⟩ 128 =
      some [65] ∧
    word_classifications.equals ⟨[], [], some [0, 65], 2, []⟩ ⟨[], [], some [0, 66], 2, []⟩ =
      true ∧
    word_classifications.get_face ⟨[], [], some [0, 65], 2, []⟩ 1 = 65 ∧
    word_classifications.get_face ⟨[], [], some [0, 66], 2, []⟩ 1 = 66 := by
  decide

/-! ## Claims on the rest of `word_classifications` and of the lookaside -/

theorem two_assertions_cases {α : Type} (a b : Prop) [Decidable a] [Decidable b] (x : α) :
    (if a then Outcome.assertion_failed
      else if b then Outcome.assertion_failed else Outcome.done x) = Outcome.done x ∨
    (if a then Outcome.assertion_failed
      else if b then Outcome.assertion_failed else Outcome.done x) =
      Outcome.assertion_failed := by
  by_cases ha : a
  · rw [if_pos ha]; exact Or.inr rfl
  · rw [if_neg ha]
    by_cases hb : b
    · rw [if_pos hb]; exact Or.inr rfl
    · rw [if_neg hb]; exact Or.inl rfl

/-- C33: `unbreak_word(index, length, skip_word=false)` on a token table with
a token at `index` returns, unless an assertion of a diagnostic build fails,
with the end of that token set to `start + length` (as a `uint32`) and nothing
else changed: the other fields of the token, every other token, the token
count, the face array, the line length and the face definitions; in a
non-diagnostic build it always returns.  On an index outside the table it
returns with the object unchanged, in both builds. -/
theorem unbreak_word_sets_end (debug : Bool) (s : word_classifications) (index length : Nat) :
    (∀ tok, s.m_info[index]? = some tok →
      (s.unbreak_word debug index length false =
          Outcome.done { s with
            m_info := s.m_info.set index { tok with end_ := u32 (tok.start + length) } } ∨
        (debug = true ∧
          s.unbreak_word debug index length false = Outcome.assertion_failed)) ∧
      s.unbreak_word false index length false =
        Outcome.done { s with
          m_info := s.m_info.set index { tok with end_ := u32 (tok.start + length) } } ∧
      (tok.start + length < 4294967296 → u32 (tok.start + length) = tok.start + length) ∧
      (∀ s', s.unbreak_word debug index length false = Outcome.done s' →
        s'.m_info.length = s.m_info.length ∧
        s'.m_info[index]? = some { tok with end_ := u32 (tok.start + length) } ∧
        (∀ j, j ≠ index → s'.m_info[j]? = s.m_info[j]?) ∧
        s'.m_faces = s.m_faces ∧ s'.m_length = s.m_length ∧
        s'.m_face_definitions = s.m_face_definitions ∧ s'.m_face_map = s.m_face_map)) ∧
    (s.m_info.length ≤ index → s.unbreak_word debug index length false = Outcome.done s) := by
  constructor
  · intro tok htok
    obtain ⟨h, -⟩ := List.getElem?_eq_some_iff.mp htok
    have heq := unbreak_word_eq debug s index length tok htok
    have hrel := unbreak_word_eq false s index length tok htok
    simp only [Bool.false_and, Bool.false_eq_true, if_false] at hrel
    have hcases : s.unbreak_word debug index length false =
          Outcome.done { s with
            m_info := s.m_info.set index { tok with end_ := u32 (tok.start + length) } } ∨
        (debug = true ∧
          s.unbreak_word debug index length false = Outcome.assertion_failed) := by
      cases debug with
      | false => exact Or.inl hrel
      | true =>
        rw [heq]
        rcases two_assertions_cases
          ((true && !(match s.m_info[index + 1]? with
            | some next => decide (u32 (tok.start + length) ≤ next.start)
            | Option.none => true)) = true)
          ((true && !(if index + 1 = s.m_info.length then
            decide (u32 (tok.start + length) ≤ s.m_length) else true)) = true)
          ({ s with
            m_info := s.m_info.set index { tok with end_ := u32 (tok.start + length) } } :
              word_classifications)
          with hc | hc
        · exact Or.inl hc
        · exact Or.inr ⟨rfl, hc⟩
    refine ⟨hcases, hrel, fun hlt => u32_of_lt _ hlt, ?_⟩
    intro s' hs'
    have hval : s' = { s with
        m_info := s.m_info.set index { tok with end_ := u32 (tok.start + length) } } := by
      rcases hcases with hc | ⟨-, hc⟩
      · rw [hc] at hs'
        cases hs'
        rfl
      · rw [hc] at hs'
        cases hs'
    subst hval
    refine ⟨by simp, by simp [h], ?_, rfl, rfl, rfl, rfl⟩
    intro j hj
    simp [List.getElem?_set, Ne.symm hj]
  · intro h
    unfold word_classifications.unbreak_word
    rw [dif_neg (by omega)]

/-- C33 on the first of two tokens, in a diagnostic build, and on an index
outside the table. -/
theorem unbreak_word_sets_end_witness :
    word_classifications.unbreak_word true
        ⟨[⟨0, 2, 255, true, false⟩, ⟨6, 9, 2, false, false⟩], [[65]],
          some [32, 32, 32, 32, 32, 32, 32, 32, 32], 9, [([65], 128)]⟩ 0 5 false =
      Outcome.done ⟨[⟨0, 5, 255, true, false⟩, ⟨6, 9, 2, false, false⟩], [[65]],
        some [32, 32, 32, 32, 32, 32, 32, 32, 32], 9, [([65], 128)]⟩ ∧
    word_classifications.unbreak_word true
        ⟨[⟨0, 2, 255, true, false⟩, ⟨6, 9, 2, false, false⟩], [[65]],
          some [32, 32, 32, 32, 32, 32, 32, 32, 32], 9, [([65], 128)]⟩ 2 5 false =
      Outcome.done ⟨[⟨0, 2, 255, true, false⟩, ⟨6, 9, 2, false, false⟩], [[65]],
        some [32, 32, 32, 32, 32, 32, 32, 32, 32], 9, [([65], 128)]⟩ :=
  ⟨by decide,
    (unbreak_word_sets_end true
      ⟨[⟨0, 2, 255, true, false⟩, ⟨6, 9, 2, false, false⟩], [[65]],
        some [32, 32, 32, 32, 32, 32, 32, 32, 32], 9, [([65], 128)]⟩ 2 5).2 (by decide)⟩

theorem sanitize_char_idem (allow_tabs : Bool) (c : Nat) :
    sanitize_char allow_tabs (sanitize_char allow_tabs c) = sanitize_char allow_tabs c := by
  by_cases h : (c == 13 || c == 10 || (c == 9 && !allow_tabs)) = true
  · have e : sanitize_char allow_tabs c = 32 := by
      unfold sanitize_char
      rw [if_pos h]
    rw [e]
    cases allow_tabs <;> rfl
  · have e : sanitize_char allow_tabs c = c := by
      unfold sanitize_char
      rw [if_neg h]
    rw [e, e]

theorem sanitize_char_eq (allow_tabs : Bool) (c : Nat) :
    sanitize_char allow_tabs c =
      if c = 13 ∨ c = 10 ∨ (c = 9 ∧ allow_tabs = false) then 32 else c := by
  unfold sanitize_char
  cases allow_tabs <;> simp [or_assoc]

theorem sanitize_char_ne_cr_lf (allow_tabs : Bool) (c : Nat) :
    sanitize_char allow_tabs c ≠ 13 ∧ sanitize_char allow_tabs c ≠ 10 ∧
      (allow_tabs = false → sanitize_char allow_tabs c ≠ 9) := by
  rw [sanitize_char_eq]
  by_cases h : c = 13 ∨ c = 10 ∨ (c = 9 ∧ allow_tabs = false)
  · rw [if_pos h]
    exact ⟨by decide, by decide, fun _ => by decide⟩
  · rw [if_neg h]
    simp only [not_or, not_and] at h
    exact ⟨h.1, h.2.1, fun ha h9 => h.2.2 h9 ha⟩

/-- C35: `append_string_into_buffer` returns the position at which it
started and leaves the buffer extended by exactly `strlen(input) + 1` bytes
(one NUL for a null input): the bytes of the input before its NUL, each as it
is except that CR and LF, and TAB unless tabs are allowed, become a space,
and then a NUL.  The text written holds no CR and no LF (and no TAB unless
tabs are allowed), and appending the text written gives the same bytes
again. -/
theorem append_string_into_buffer_spec (allow_tabs : Bool) (buffer : List Nat)
    (s : Option (List Nat)) :
    (append_string_into_buffer buffer s allow_tabs).1 = buffer.length ∧
    (append_string_into_buffer buffer s allow_tabs).2 =
      buffer ++ stored_text allow_tabs s ++ [0] ∧
    (append_string_into_buffer buffer s allow_tabs).2.length =
      buffer.length + (strlen_if s + 1) ∧
    (stored_text allow_tabs s).length = strlen_if s ∧
    (∀ (i c : Nat), (text_of s)[i]? = some c →
      (stored_text allow_tabs s)[i]? =
        some (if c = 13 ∨ c = 10 ∨ (c = 9 ∧ allow_tabs = false) then 32 else c)) ∧
    (∀ c ∈ stored_text allow_tabs s,
      c ≠ 0 ∧ c ≠ 13 ∧ c ≠ 10 ∧ (allow_tabs = false → c ≠ 9)) ∧
    append_string_into_buffer buffer (some (stored_text allow_tabs s ++ [0])) allow_tabs =
      append_string_into_buffer buffer s allow_tabs := by
  have h2 := append_string_into_buffer_eq allow_tabs buffer s
  have hlen := length_stored_text allow_tabs s
  have hnz := stored_text_ne_zero allow_tabs s
  have h1 : ∀ t, (append_string_into_buffer buffer t allow_tabs).1 = buffer.length := by
    intro t
    unfold append_string_into_buffer
    rfl
  refine ⟨h1 s, ?_, ?_, hlen, ?_, ?_, ?_⟩
  · rw [h2]; rfl
  · rw [h2]
    simp only [List.length_append, List.length_singleton]
    have : ((text_of s).map (sanitize_char allow_tabs)).length = strlen_if s := hlen
    omega
  · intro i c hc
    unfold stored_text
    rw [List.getElem?_map, hc, Option.map_some', sanitize_char_eq]
  · intro c hc
    refine ⟨hnz c hc, ?_⟩
    unfold stored_text at hc
    obtain ⟨x, -, rfl⟩ := List.mem_map.mp hc
    exact sanitize_char_ne_cr_lf allow_tabs x
  · apply Prod.ext
    · rw [h1, h1]
    · rw [h2, append_string_into_buffer_eq]
      have ht : text_of (some (stored_text allow_tabs s ++ [0])) = stored_text allow_tabs s :=
        text_append_single_zero _ hnz
      rw [ht]
      unfold stored_text
      rw [List.map_map]
      congr 2
      apply List.map_congr_left
      intro x _
      exact sanitize_char_idem allow_tabs x

/-- C36: for a record written by `pack_match` in a non-diagnostic build, the
parsed `display_offset` is `(strlen(match) + 5) mod 65536` and the parsed
`description_offset` is `(strlen(match) + strlen(display) + 6) mod 65536`, the
length of a null string counting as 0; the display and the description are
stored at the byte offsets `strlen(match) + 5` and
`strlen(match) + strlen(display) + 6` of the record, and the two parsed
offsets are these byte offsets exactly when
`strlen(match) + strlen(display) + 6 <= 65535`. -/
theorem parsed_offsets (allow_tabs : Bool) (packed_size : Nat)
    (match_ : Option (List Nat)) (type : Nat) (display description : Option (List Nat))
    (append_char flags : Nat) (r : pack_result)
    (h : pack_match false allow_tabs packed_size match_ type display description
      append_char flags = some r)
    (hret : r.ret = true) :
    ∃ e, parse_extra false r.buffer = some e ∧
      e.display_offset = (strlen_if match_ + 5) % 65536 ∧
      e.description_offset = (strlen_if match_ + strlen_if display + 6) % 65536 ∧
      string_at r.buffer (strlen_if match_ + 5) = stored_text allow_tabs display ∧
      string_at r.buffer (strlen_if match_ + strlen_if display + 6) =
        stored_text allow_tabs description ∧
      ((e.display_offset = strlen_if match_ + 5 ∧
          e.description_offset = strlen_if match_ + strlen_if display + 6) ↔
        strlen_if match_ + strlen_if display + 6 ≤ 65535) := by
  obtain ⟨hbuf, -, -⟩ := pack_match_true false allow_tabs packed_size match_ type display
    description append_char flags r h hret
  have hp := parse_extra_packed false allow_tabs match_ type display description
    append_char flags
  have hd := string_at_display false allow_tabs match_ type display description
    append_char flags
  have hs := string_at_description false allow_tabs match_ type display description
    append_char flags
  simp only [Bool.false_eq_true, if_false, Nat.add_zero] at hp hd hs
  rw [hbuf]
  refine ⟨_, hp, rfl, ?_, hd, ?_, ?_⟩
  · simp only
    congr 1
    omega
  · rw [← hs]
    congr 1
    omega
  · simp only
    omega

/-- C36 at the match "m" with display "abc": the parsed offsets are 6 and
10. -/
theorem parsed_offsets_witness :
    ∃ e, parse_extra false [109, 0, 2, 0, 0, 0, 97, 98, 99, 0, 0] = some e ∧
      e.display_offset = 6 ∧ e.description_offset = 10 :=
  (parsed_offsets false 11 (some [109]) match_type.word (some [97, 98, 99]) Option.none 0 0
    ⟨true, [109, 0, 2, 0, 0, 0, 97, 98, 99, 0, 0]⟩ (by decide) rfl).elim
    (fun e he => ⟨e, he.1, he.2.1, he.2.2.1⟩)

theorem apply_face_loop_spec (m_length face : Nat) (overwrite : Bool)
    (hm : m_length < 4294967296) :
    ∀ (length start : Nat) (faces : List Nat), m_length ≤ faces.length →
      ∃ faces', apply_face_loop m_length face overwrite length start faces =
          Outcome.done faces' ∧
        faces'.length = faces.length ∧
        ∀ p : Nat, faces'[p]? = (faces[p]?).map (fun x =>
          if start ≤ p ∧ p < start + length ∧ p < m_length then
            (if overwrite = true ∨ x = 32 then face else x)
          else x) := by
  intro length
  induction length with
  | zero =>
    intro start faces _
    refine ⟨faces, rfl, rfl, ?_⟩
    intro p
    have : ¬(start ≤ p ∧ p < start + 0 ∧ p < m_length) := by omega
    simp only [this, if_false]
    cases faces[p]? <;> rfl
  | succ length ih =>
    intro start faces hlen
    by_cases hs : start < m_length
    · have hpos : start < faces.length := by omega
      have hu : u32 (start + 1) = start + 1 := u32_of_lt _ (by omega)
      have hstep : (if (overwrite || faces[start] == 32) = true then faces.set start face
          else faces) =
          faces.set start (if overwrite = true ∨ faces[start] = 32 then face
            else faces[start]) := by
        by_cases hc : overwrite = true ∨ faces[start] = 32
        · have hb : (overwrite || faces[start] == 32) = true := by simpa using hc
          rw [if_pos hb, if_pos hc]
        · have hb : ¬(overwrite || faces[start] == 32) = true := by simpa using hc
          rw [if_neg hb, if_neg hc, set_getElem_same faces start hpos]
      obtain ⟨faces', h1, h2, h3⟩ := ih (start + 1)
        (faces.set start (if overwrite = true ∨ faces[start] = 32 then face else faces[start]))
        (by rw [List.length_set]; exact hlen)
      refine ⟨faces', ?_, by rw [h2, List.length_set], ?_⟩
      · simp only [apply_face_loop, hs, if_true, dif_pos hpos, hu, hstep]
        exact h1
      · intro p
        rw [h3, List.getElem?_set]
        by_cases hp : start = p
        · subst hp
          have c1 : ¬(start + 1 ≤ start ∧ start < start + 1 + length ∧ start < m_length) := by
            omega
          have c2 : start ≤ start ∧ start < start + (length + 1) ∧ start < m_length := by
            omega
          rw [if_pos rfl, if_pos hpos, List.getElem?_eq_getElem hpos, Option.map_some',
            Option.map_some', if_neg c1, if_pos c2]
        · have c : (start + 1 ≤ p ∧ p < start + 1 + length ∧ p < m_length) ↔
              (start ≤ p ∧ p < start + (length + 1) ∧ p < m_length) := by
            omega
          simp only [hp, if_false, c]
    · refine ⟨faces, ?_, rfl, ?_⟩
      · simp only [apply_face_loop, hs, if_false]
      · intro p
        have : ¬(start ≤ p ∧ p < start + (length + 1) ∧ p < m_length) := by omega
        simp only [this, if_false]
        cases faces[p]? <;> rfl

theorem apply_face_done (s : word_classifications) (start length face : Nat)
    (overwrite : Bool) (hlen : s.m_length ≤ (s.m_faces.getD []).length)
    (hm : s.m_length < 4294967296) :
    ∃ s', s.apply_face start length face overwrite = Outcome.done s' ∧
      s'.m_info = s.m_info ∧ s'.m_face_definitions = s.m_face_definitions ∧
      s'.m_face_map = s.m_face_map ∧ s'.m_length = s.m_length ∧
      s'.m_faces.isSome = s.m_faces.isSome ∧
      (s'.m_faces.getD []).length = (s.m_faces.getD []).length ∧
      ∀ p : Nat, (s'.m_faces.getD [])[p]? = ((s.m_faces.getD [])[p]?).map (fun x =>
        if start ≤ p ∧ p < start + length ∧ p < s.m_length then
          (if overwrite = true ∨ x = 32 then face else x)
        else x) := by
  obtain ⟨faces', h1, h2, h3⟩ := apply_face_loop_spec s.m_length face overwrite hm length start
    (s.m_faces.getD []) hlen
  refine ⟨{ s with m_faces := s.m_faces.map (fun _ => faces') }, ?_, rfl, rfl, rfl, rfl, ?_, ?_, ?_⟩
  · unfold word_classifications.apply_face
    rw [h1]
  · simp
  · cases hf : s.m_faces with
    | none => simp
    | some f => simpa [hf] using h2
  · intro p
    cases hf : s.m_faces with
    | none => simp
    | some f => simpa [hf] using h3 p

/-- C38: on an object whose face array holds at least `m_length` bytes, as
after `init`, `apply_face(start, length, face, overwrite)` returns, for every
`start` and `length`, without indexing the face array at or beyond the line
length; a position `p` with `start <= p < start + length` below the line
length has afterwards the face `face` if `overwrite` is set or the position
was unclassified (' '), and its face of before otherwise; every other
position, the token table, the face definitions and the line length are
unchanged. -/
theorem apply_face_frame (s : word_classifications) (start length face : Nat)
    (overwrite : Bool) (hlen : s.m_length ≤ (s.m_faces.getD []).length)
    (hm : s.m_length < 4294967296) :
    ∃ s', s.apply_face start length face overwrite = Outcome.done s' ∧
      s'.m_info = s.m_info ∧ s'.m_face_definitions = s.m_face_definitions ∧
      s'.m_face_map = s.m_face_map ∧ s'.m_length = s.m_length ∧
      s'.m_faces.isSome = s.m_faces.isSome ∧
      (s'.m_faces.getD []).length = (s.m_faces.getD []).length ∧
      (∀ p, start ≤ p → p < start + length → p < s.m_length →
        s'.get_face p =
          if overwrite = true ∨ s.get_face p = 32 then face else s.get_face p) ∧
      (∀ p : Nat, ¬(start ≤ p ∧ p < start + length ∧ p < s.m_length) →
        (s'.m_faces.getD [])[p]? = (s.m_faces.getD [])[p]? ∧ s'.get_face p = s.get_face p) := by
  obtain ⟨s', h1, h2, h3, h4, h5, h6, h7, h8⟩ :=
    apply_face_done s start length face overwrite hlen hm
  refine ⟨s', h1, h2, h3, h4, h5, h6, h7, ?_, ?_⟩
  · intro p hp1 hp2 hp3
    have hlt : p < (s.m_faces.getD []).length := by omega
    have hnew := h8 p
    have c : start ≤ p ∧ p < start + length ∧ p < s.m_length := ⟨hp1, hp2, hp3⟩
    rw [List.getElem?_eq_getElem hlt, Option.map_some'] at hnew
    simp only [c, and_self, if_true] at hnew
    have hold : s.get_face p = (s.m_faces.getD [])[p] := by
      unfold word_classifications.get_face
      rw [if_neg (by omega), List.getD_eq_getElem?_getD, List.getElem?_eq_getElem hlt]
      rfl
    have hget : s'.get_face p =
        if overwrite = true ∨ (s.m_faces.getD [])[p] = 32 then face
        else (s.m_faces.getD [])[p] := by
      unfold word_classifications.get_face
      rw [h5, if_neg (by omega), List.getD_eq_getElem?_getD, hnew]
      rfl
    rw [hget, hold]
  · intro p hp
    have hsame : (s'.m_faces.getD [])[p]? = (s.m_faces.getD [])[p]? := by
      rw [h8]
      simp only [hp, if_false]
      cases (s.m_faces.getD [])[p]? <;> rfl
    exact ⟨hsame, get_face_eq_of_getElem? s s' p h5 hsame⟩

/-- C38 on a line of length 5 with one painted position: without `overwrite`
the unclassified positions of [1, 4) get the face, and a range that runs past
the line length stops there. -/
theorem apply_face_frame_witness :
    word_classifications.apply_face ⟨[], [], some [32, 32, 200, 32, 32], 5, []⟩ 1 3 130 false =
      Outcome.done ⟨[], [], some [32, 130, 200, 130, 32], 5, []⟩ ∧
    word_classifications.apply_face ⟨[], [], some [32, 32, 200, 32, 32], 5, []⟩ 3 4000000000
        130 true =
      Outcome.done ⟨[], [], some [32, 32, 200, 130, 130], 5, []⟩ ∧
    (∃ s', word_classifications.apply_face ⟨[], [], some [32, 32, 200, 32, 32], 5, []⟩ 1 3 130
        false = Outcome.done s' ∧ s'.m_length = 5) :=
  ⟨by decide, by
    simp [word_classifications.apply_face, apply_face_loop, u32],
    (apply_face_frame ⟨[], [], some [32, 32, 200, 32, 32], 5, []⟩ 1 3 130 false (by decide)
      (by decide)).elim (fun s' h => ⟨s', h.1, h.2.2.2.2.1⟩)⟩

theorem unbreak_skip_after_break_eq (debug : Bool) (s s1 : word_classifications) (i k : Nat)
    (tok : word_class_info) (htok : s.m_info[i]? = some tok)
    (hsum : tok.start + k < 4294967296)
    (hbreak : s.break_word debug i k = Outcome.done s1) :
    s1.unbreak_word debug i k true =
      Outcome.done { s with
        m_info := s.m_info.take i ++ { tok with end_ := tok.start, flush := true } ::
          { tok with argmatcher := false } :: s.m_info.drop (i + 1) } := by
  obtain ⟨h, -⟩ := List.getElem?_eq_some_iff.mp htok
  have hadd : u32 (tok.start + k) = tok.start + k := u32_of_lt _ hsum
  have hs1 := break_word_done debug s s1 i k tok htok hbreak
  rw [hadd] at hs1
  subst hs1
  have h1 := getElem?_take_cons_self s.m_info { tok with end_ := tok.start + k }
    ({ tok with start := tok.start + k, argmatcher := false } :: s.m_info.drop (i + 1)) i h
  have h2 := getElem?_take_cons_next s.m_info { tok with end_ := tok.start + k }
    { tok with start := tok.start + k, argmatcher := false } (s.m_info.drop (i + 1)) i h
  rw [unbreak_word_skip_eq debug _ i k _ _ h1 h2]
  simp only [hadd, beq_self_eq_true, Bool.not_true, Bool.and_false, Bool.false_eq_true,
    if_false]
  rw [set_set_split _ _ _ _ _ _ i h]

theorem flush_unbreak_loop_eq_filter :
    ∀ l : List word_class_info, flush_unbreak_loop l = l.filter (fun t => !t.flush) := by
  intro l
  induction l with
  | nil => rfl
  | cons t rest ih =>
    by_cases ht : t.flush = true
    · simp [flush_unbreak_loop, ht, ih]
    · simp [flush_unbreak_loop, ht, ih]

theorem filter_not_flush_of_none (l : List word_class_info)
    (h : ∀ t ∈ l, t.flush = false) : l.filter (fun t => !t.flush) = l := by
  rw [List.filter_eq_self]
  intro t ht
  simp [h t ht]

/-- C32 fails as stated on a table that holds a flush-pending token: on the
stub [0, 0) followed by the tokens [0, 5) and [6, 9), `break_word(1, 2)`,
`unbreak_word(1, 2, skip_word=true)` and `flush_unbreak()` all return in a
diagnostic build and leave the two tokens [0, 5) and [6, 9), not the three of
the original table. -/
theorem break_unbreak_flush_drops_stub :
    word_classifications.break_word true
        ⟨[⟨0, 0, 255, false, true⟩, ⟨0, 5, 255, false, false⟩, ⟨6, 9, 2, false, false⟩], [],
          some [32, 32, 32, 32, 32, 32, 32, 32, 32], 9, []⟩ 1 2 =
      Outcome.done ⟨[⟨0, 0, 255, false, true⟩, ⟨0, 2, 255, false, false⟩,
        ⟨2, 5, 255, false, false⟩, ⟨6, 9, 2, false, false⟩], [],
        some [32, 32, 32, 32, 32, 32, 32, 32, 32], 9, []⟩ ∧
    word_classifications.unbreak_word true
        ⟨[⟨0, 0, 255, false, true⟩, ⟨0, 2, 255, false, false⟩, ⟨2, 5, 255, false, false⟩,
          ⟨6, 9, 2, false, false⟩], [], some [32, 32, 32, 32, 32, 32, 32, 32, 32], 9, []⟩
        1 2 true =
      Outcome.done ⟨[⟨0, 0, 255, false, true⟩, ⟨0, 0, 255, false, true⟩,
        ⟨0, 5, 255, false, false⟩, ⟨6, 9, 2, false, false⟩], [],
        some [32, 32, 32, 32, 32, 32, 32, 32, 32], 9, []⟩ ∧
    word_classifications.flush_unbreak
        ⟨[⟨0, 0, 255, false, true⟩, ⟨0, 0, 255, false, true⟩, ⟨0, 5, 255, false, false⟩,
          ⟨6, 9, 2, false, false⟩], [], some [32, 32, 32, 32, 32, 32, 32, 32, 32], 9, []⟩ =
      ⟨[⟨0, 5, 255, false, false⟩, ⟨6, 9, 2, false, false⟩], [],
        some [32, 32, 32, 32, 32, 32, 32, 32, 32], 9, []⟩ ∧
    ([⟨0, 5, 255, false, false⟩, ⟨6, 9, 2, false, false⟩] : List word_class_info).length ≠
      ([⟨0, 0, 255, false, true⟩, ⟨0, 5, 255, false, false⟩, ⟨6, 9, 2, false, false⟩] :
        List word_class_info).length := by
  decide

/-- C32, amended: after a `break_word(i, k)` that returned, on a token
[start, end) with start + k below 2^32, `unbreak_word(i, k, skip_word=true)`
returns and
`flush_unbreak()` then leaves the original table with its flush-pending
tokens removed and the argmatcher mark of token `i` cleared; on a table
without flush-pending tokens this is the original token count with the
original span, class and flush mark of every token.  In general
`flush_unbreak` keeps exactly the tokens that are not flush-pending, in
order, changes no other member, and a second `flush_unbreak` changes
nothing. -/
theorem break_unbreak_flush (debug : Bool) (s s1 : word_classifications) (i k : Nat)
    (tok : word_class_info) (htok : s.m_info[i]? = some tok)
    (hsum : tok.start + k < 4294967296)
    (hbreak : s.break_word debug i k = Outcome.done s1) :
    (∃ s2, s1.unbreak_word debug i k true = Outcome.done s2 ∧
      s2.flush_unbreak.m_info =
        (s.m_info.set i { tok with argmatcher := false }).filter (fun t => !t.flush) ∧
      ((∀ t ∈ s.m_info, t.flush = false) →
        s2.flush_unbreak.m_info = s.m_info.set i { tok with argmatcher := false } ∧
        s2.flush_unbreak.m_info.length = s.m_info.length ∧
        ∀ j t, s.m_info[j]? = some t →
          ∃ t', s2.flush_unbreak.m_info[j]? = some t' ∧ t'.start = t.start ∧
            t'.end_ = t.end_ ∧ t'.word_class = t.word_class ∧ t'.flush = t.flush ∧
            (j ≠ i → t' = t)) ∧
      s2.flush_unbreak.m_faces = s.m_faces ∧ s2.flush_unbreak.m_length = s.m_length ∧
      s2.flush_unbreak.m_face_definitions = s.m_face_definitions ∧
      s2.flush_unbreak.m_face_map = s.m_face_map) ∧
    (∀ x : word_classifications,
      x.flush_unbreak.m_info = x.m_info.filter (fun t => !t.flush) ∧
      (∀ t, t ∈ x.flush_unbreak.m_info ↔ t ∈ x.m_info ∧ t.flush = false) ∧
      x.flush_unbreak.m_info.Sublist x.m_info ∧
      x.flush_unbreak.flush_unbreak = x.flush_unbreak ∧
      x.flush_unbreak.m_faces = x.m_faces ∧ x.flush_unbreak.m_length = x.m_length ∧
      x.flush_unbreak.m_face_definitions = x.m_face_definitions ∧
      x.flush_unbreak.m_face_map = x.m_face_map) := by
  obtain ⟨h, hget⟩ := List.getElem?_eq_some_iff.mp htok
  have hgen : ∀ x : word_classifications,
      x.flush_unbreak.m_info = x.m_info.filter (fun t => !t.flush) := by
    intro x
    unfold word_classifications.flush_unbreak
    exact flush_unbreak_loop_eq_filter x.m_info
  constructor
  · refine ⟨_, unbreak_skip_after_break_eq debug s s1 i k tok htok hsum hbreak, ?_, ?_,
      rfl, rfl, rfl, rfl⟩
    · rw [hgen, set_eq_take_cons_drop_of_lt _ _ i h]
      simp [List.filter_append, List.filter_cons]
    · intro hnone
      have hset : ∀ t ∈ s.m_info.set i { tok with argmatcher := false }, t.flush = false := by
        intro t ht
        rcases List.mem_or_eq_of_mem_set ht with ht | ht
        · exact hnone t ht
        · rw [ht]
          exact hnone tok (by rw [← hget]; exact List.getElem_mem h)
      have hres : { s with
          m_info := s.m_info.take i ++ { tok with end_ := tok.start, flush := true } ::
            { tok with argmatcher := false } :: s.m_info.drop (i + 1) }.flush_unbreak.m_info =
          s.m_info.set i { tok with argmatcher := false } := by
        rw [hgen, ← filter_not_flush_of_none _ hset, set_eq_take_cons_drop_of_lt _ _ i h]
        simp [List.filter_append, List.filter_cons]
      refine ⟨hres, by rw [hres, List.length_set], ?_⟩
      intro j t hjt
      rw [hres, List.getElem?_set]
      by_cases hij : i = j
      · subst hij
        rw [htok] at hjt
        cases hjt
        exact ⟨{ tok with argmatcher := false }, by simp [h], rfl, rfl, rfl, rfl,
          fun hne => absurd rfl hne⟩
      · exact ⟨t, by simp [hij, hjt], rfl, rfl, rfl, rfl, fun _ => rfl⟩
  · intro x
    refine ⟨hgen x, ?_, ?_, ?_, rfl, rfl, rfl, rfl⟩
    · intro t
      rw [hgen]
      simp [List.mem_filter]
    · rw [hgen]
      exact List.filter_sublist _
    · unfold word_classifications.flush_unbreak
      simp only [flush_unbreak_loop_eq_filter, List.filter_filter, Bool.and_self]

/-- C32, amended, at the first token [0, 5) of a table of two tokens, neither
flush-pending, broken at 2 in a diagnostic build. -/
theorem break_unbreak_flush_witness :
    word_classifications.break_word true
        ⟨[⟨0, 5, 255, false, false⟩, ⟨6, 9, 2, false, false⟩], [],
          some [32, 32, 32, 32, 32, 32, 32, 32, 32], 9, []⟩ 0 2 =
      Outcome.done ⟨[⟨0, 2, 255, false, false⟩, ⟨2, 5, 255, false, false⟩,
        ⟨6, 9, 2, false, false⟩], [], some [32, 32, 32, 32, 32, 32, 32, 32, 32], 9, []⟩ ∧
    word_classifications.flush_unbreak
        ⟨[⟨0, 0, 255, false, true⟩, ⟨0, 5, 255, false, false⟩, ⟨6, 9, 2, false, false⟩], [],
          some [32, 32, 32, 32, 32, 32, 32, 32, 32], 9, []⟩ =
      ⟨[⟨0, 5, 255, false, false⟩, ⟨6, 9, 2, false, false⟩], [],
        some [32, 32, 32, 32, 32, 32, 32, 32, 32], 9, []⟩ ∧
    (∃ s2, word_classifications.unbreak_word true
        ⟨[⟨0, 2, 255, false, false⟩, ⟨2, 5, 255, false, false⟩, ⟨6, 9, 2, false, false⟩], [],
          some [32, 32, 32, 32, 32, 32, 32, 32, 32], 9, []⟩ 0 2 true = Outcome.done s2 ∧
      s2.flush_unbreak.m_info =
        ([⟨0, 5, 255, false, false⟩, ⟨6, 9, 2, false, false⟩] : List word_class_info)) :=
  ⟨by decide, by decide,
    (break_unbreak_flush true
      ⟨[⟨0, 5, 255, false, false⟩, ⟨6, 9, 2, false, false⟩], [],
        some [32, 32, 32, 32, 32, 32, 32, 32, 32], 9, []⟩
      ⟨[⟨0, 2, 255, false, false⟩, ⟨2, 5, 255, false, false⟩, ⟨6, 9, 2, false, false⟩], [],
        some [32, 32, 32, 32, 32, 32, 32, 32, 32], 9, []⟩ 0 2 ⟨0, 5, 255, false, false⟩
      (by decide) (by decide) (by decide)).1.elim
      (fun s2 h => ⟨s2, h.1, by rw [h.2.1]; decide⟩)⟩

/-! ## Claims on `update_rl_modes_from_matches`, the move constructor and `matches_iter` -/

/-- C34: after `update_rl_modes_from_matches`, `rl_filename_quoting_desired`
is 0 when the quoting-suppression mode is 1, or when the iterator does not
desire filename completion and force-quoting is off, and is unchanged
otherwise; `rl_completion_suppress_quote` is 1 when the mode is 2 and
unchanged otherwise; with mode 0, or any mode other than 1 and 2, the mode
alters neither; `rl_completion_append_character` is replaced by the append
character of the matches when that is non-zero and unchanged otherwise.  The
three other globals are assigned from the matches and the iterator. -/
theorem update_rl_modes_quoting (rl : rl_modes) (m : matches_modes) :
    (update_rl_modes_from_matches rl m).rl_filename_quoting_desired =
      (if m.get_suppress_quoting = 1 ∨
          (m.is_filename_completion_desired.get = false ∧ m.get_force_quoting = false)
        then 0 else rl.rl_filename_quoting_desired) ∧
    (update_rl_modes_from_matches rl m).rl_completion_suppress_quote =
      (if m.get_suppress_quoting = 2 then 1 else rl.rl_completion_suppress_quote) ∧
    (m.get_suppress_quoting ≠ 1 → m.get_suppress_quoting ≠ 2 →
      (update_rl_modes_from_matches rl m).rl_completion_suppress_quote =
        rl.rl_completion_suppress_quote ∧
      (update_rl_modes_from_matches rl m).rl_filename_quoting_desired =
        (if m.is_filename_completion_desired.get = false ∧ m.get_force_quoting = false
          then 0 else rl.rl_filename_quoting_desired)) ∧
    (update_rl_modes_from_matches rl m).rl_completion_append_character =
      (if m.get_append_character ≠ 0 then m.get_append_character
        else rl.rl_completion_append_character) ∧
    (update_rl_modes_from_matches rl m).rl_completion_suppress_append =
      (if m.is_suppress_append = true then 1 else 0) ∧
    (update_rl_modes_from_matches rl m).rl_filename_completion_desired =
      (if m.is_filename_completion_desired.get = true then 1 else 0) ∧
    (update_rl_modes_from_matches rl m).rl_filename_display_desired =
      (if m.is_filename_display_desired.get = true then 1 else 0) := by
  unfold update_rl_modes_from_matches
  by_cases h1 : m.get_suppress_quoting = 1
  · have h2 : ¬ m.get_suppress_quoting = 2 := by omega
    cases hc : m.is_filename_completion_desired.get <;> cases hf : m.get_force_quoting <;>
      by_cases ha : m.get_append_character = 0 <;> simp [h1, hc, hf, ha]
  · by_cases h2 : m.get_suppress_quoting = 2
    · cases hc : m.is_filename_completion_desired.get <;> cases hf : m.get_force_quoting <;>
        by_cases ha : m.get_append_character = 0 <;> simp [h2, hc, hf, ha]
    · cases hc : m.is_filename_completion_desired.get <;> cases hf : m.get_force_quoting <;>
        by_cases ha : m.get_append_character = 0 <;> simp [h1, h2, hc, hf, ha]

theorem prefix_match_iff (fold : Nat → Nat) (pattern text : List Nat) :
    prefix_match fold pattern text = true ↔ pattern.map fold <+: text.map fold := by
  unfold prefix_match
  exact List.isPrefixOf_iff_prefix

theorem substring_match_iff (fold : Nat → Nat) (pattern : List Nat) :
    ∀ text : List Nat,
      substring_match fold pattern text = true ↔ pattern.map fold <:+: text.map fold := by
  intro text
  induction text with
  | nil =>
    simp [substring_match, prefix_match_iff]
  | cons x rest ih =>
    have hstep : substring_match fold pattern (x :: rest) =
        (prefix_match fold pattern (x :: rest) || substring_match fold pattern rest) := by
      simp [substring_match]
    rw [hstep, Bool.or_eq_true, prefix_match_iff, ih, List.map_cons, List.infix_cons_iff]

theorem accepts_congr (fold : Nat → Nat) (a b : matches_iter) (m : match_entry)
    (h1 : a.m_pattern = b.m_pattern) (h2 : a.m_substring = b.m_substring) :
    a.accepts fold m = b.accepts fold m := by
  unfold matches_iter.accepts
  rw [h1, h2]

theorem scan_false (fold : Nat → Nat) :
    ∀ (rest : List match_entry) (it x : matches_iter),
      matches_iter.scan fold it rest = (false, x) →
      x.m_pattern = it.m_pattern ∧ x.m_substring = it.m_substring ∧
      x.m_can_try_substring = it.m_can_try_substring ∧
      x.m_any_pathish = (it.m_any_pathish || rest.any (fun m => is_pathish m.type)) := by
  intro rest
  induction rest with
  | nil =>
    intro it x h
    simp only [matches_iter.scan, Prod.mk.injEq, true_and] at h
    subst h
    simp
  | cons m rest ih =>
    intro it x h
    simp only [matches_iter.scan] at h
    split at h
    · simp at h
    · obtain ⟨h1, h2, h3, h4⟩ := ih _ x h
      refine ⟨h1, h2, h3, ?_⟩
      rw [h4]
      simp [Bool.or_assoc]

theorem scan_none (fold : Nat → Nat) :
    ∀ (rest : List match_entry) (it : matches_iter),
      (∀ m ∈ rest, it.accepts fold m = false) →
      ∃ x, matches_iter.scan fold it rest = (false, x) := by
  intro rest
  induction rest with
  | nil => intro it _; exact ⟨_, rfl⟩
  | cons m rest ih =>
    intro it h
    have hm := h m (List.mem_cons_self _ _)
    have hm' : matches_iter.accepts fold
        { it with
          m_index := it.m_next
          m_next := it.m_next + 1
          m_any_pathish := it.m_any_pathish || is_pathish m.type
          m_all_pathish := it.m_all_pathish && is_pathish m.type } m = false := by
      rw [← hm]
      exact accepts_congr fold _ _ m rfl rfl
    obtain ⟨x, hx⟩ := ih
      { it with
        m_index := it.m_next
        m_next := it.m_next + 1
        m_any_pathish := it.m_any_pathish || is_pathish m.type
        m_all_pathish := it.m_all_pathish && is_pathish m.type }
      (fun m' hm' => by
        rw [← h m' (List.mem_cons_of_mem _ hm')]
        exact accepts_congr fold _ _ m' rfl rfl)
    refine ⟨x, ?_⟩
    simp only [matches_iter.scan, hm', Bool.false_eq_true, if_false]
    exact hx

theorem drop_length_append {α : Type} (pre suf : List α) : (pre ++ suf).drop pre.length = suf := by
  simp

theorem collect_tail (fold : Nat → Nat) (ms : List match_entry) :
    ∀ (suf pre : List match_entry) (it : matches_iter) (fuel : Nat),
      ms = pre ++ suf → it.m_next = pre.length →
      (it.m_can_try_substring = false ∨ ∃ m ∈ suf, it.accepts fold m = true) →
      suf.length + 1 ≤ fuel →
      matches_iter.collect fold ms fuel it = suf.filter (fun m => it.accepts fold m) := by
  intro suf
  induction suf with
  | nil =>
    intro pre it fuel hms hnext hcan hfuel
    obtain ⟨f, rfl⟩ : ∃ f, fuel = f + 1 := ⟨fuel - 1, by simp at hfuel; omega⟩
    have hcan' : it.m_can_try_substring = false := by
      rcases hcan with h | ⟨m, hm, -⟩
      · exact h
      · simp at hm
    have hdrop : ms.drop it.m_next = [] := by
      rw [hms, hnext]; simp
    simp [matches_iter.collect, matches_iter.next, hdrop, matches_iter.scan, hcan']
  | cons m rest ih =>
    intro pre it fuel hms hnext hcan hfuel
    obtain ⟨f, rfl⟩ : ∃ f, fuel = f + 1 := ⟨fuel - 1, by simp at hfuel; omega⟩
    simp only [List.length_cons] at hfuel
    have hdrop : ms.drop it.m_next = m :: rest := by
      rw [hms, hnext]; exact drop_length_append pre (m :: rest)
    have hms' : ms = (pre ++ [m]) ++ rest := by rw [hms]; simp
    have hget : ms[it.m_next]? = some m := by
      rw [hnext, hms, List.getElem?_append_right (Nat.le_refl _)]
      simp
    have hacc : ∀ m', matches_iter.accepts fold
        { it with
          m_index := it.m_next
          m_next := it.m_next + 1
          m_any_pathish := it.m_any_pathish || is_pathish m.type
          m_all_pathish := it.m_all_pathish && is_pathish m.type } m' = it.accepts fold m' :=
      fun m' => accepts_congr fold _ _ m' rfl rfl
    by_cases hm : it.accepts fold m = true
    · have hnx : matches_iter.next fold ms it = (true,
          { it with
            m_index := it.m_next
            m_next := it.m_next + 1
            m_any_pathish := it.m_any_pathish || is_pathish m.type
            m_all_pathish := it.m_all_pathish && is_pathish m.type
            m_can_try_substring := false }) := by
        simp only [matches_iter.next, hdrop, matches_iter.scan, hacc, hm, if_true]
      have hrec := ih (pre ++ [m])
        { it with
          m_index := it.m_next
          m_next := it.m_next + 1
          m_any_pathish := it.m_any_pathish || is_pathish m.type
          m_all_pathish := it.m_all_pathish && is_pathish m.type
          m_can_try_substring := false } f hms' (by simp [hnext]) (Or.inl rfl) (by omega)
      have hfil : rest.filter (fun m' => matches_iter.accepts fold
          { it with
            m_index := it.m_next
            m_next := it.m_next + 1
            m_any_pathish := it.m_any_pathish || is_pathish m.type
            m_all_pathish := it.m_all_pathish && is_pathish m.type
            m_can_try_substring := false } m') =
          rest.filter (fun m' => it.accepts fold m') := by
        apply List.filter_congr
        intro m' _
        exact accepts_congr fold _ _ m' rfl rfl
      rw [hfil] at hrec
      simp only [matches_iter.collect, hnx, hget, hrec, List.filter_cons, hm, if_true]
    · have hm0 : it.accepts fold m = false := by simpa using hm
      have hdrop1 : ms.drop (it.m_next + 1) = rest := by
        rw [hms', hnext]
        have := drop_length_append (pre ++ [m]) rest
        simp only [List.length_append, List.length_singleton] at this
        exact this
      have hnx : matches_iter.next fold ms it = matches_iter.next fold ms
          { it with
            m_index := it.m_next
            m_next := it.m_next + 1
            m_any_pathish := it.m_any_pathish || is_pathish m.type
            m_all_pathish := it.m_all_pathish && is_pathish m.type } := by
        simp only [matches_iter.next, hdrop, hdrop1, matches_iter.scan, hacc, hm0,
          Bool.false_eq_true, if_false]
      have hrec := ih (pre ++ [m])
        { it with
          m_index := it.m_next
          m_next := it.m_next + 1
          m_any_pathish := it.m_any_pathish || is_pathish m.type
          m_all_pathish := it.m_all_pathish && is_pathish m.type } (f + 1) hms'
        (by simp [hnext])
        (by
          rcases hcan with h | ⟨m', hm', ha⟩
          · exact Or.inl h
          · rcases List.mem_cons.mp hm' with rfl | hin
            · rw [hm0] at ha; cases ha
            · exact Or.inr ⟨m', hin, by rw [hacc]; exact ha⟩)
        (by omega)
      have hcol : matches_iter.collect fold ms (f + 1) it = matches_iter.collect fold ms (f + 1)
          { it with
            m_index := it.m_next
            m_next := it.m_next + 1
            m_any_pathish := it.m_any_pathish || is_pathish m.type
            m_all_pathish := it.m_all_pathish && is_pathish m.type } := by
        simp only [matches_iter.collect, hnx]
      rw [hcol, hrec, List.filter_cons, hm0]
      simp only [Bool.false_eq_true, if_false]
      apply List.filter_congr
      intro m' _
      exact accepts_congr fold _ _ m' rfl rfl

/-- C31: on the model of `matches_iter`, an iteration to the end (at least
one `next` call more than there are matches) yields, in the order of the
store, exactly the matches that have the pattern as a prefix; if there is none
and at least one match, all having been visited, is pathish, it yields
exactly the matches that contain the pattern as a substring, so none when no
match contains it; and nothing otherwise.  Without a pattern it yields every
match.  Prefix and substring are taken under the fold of the host locale. -/
theorem matches_iter_yields (fold : Nat → Nat) (ms : List match_entry) (pattern : List Nat)
    (fuel : Nat) (hfuel : ms.length + 1 ≤ fuel) :
    matches_iter.collect fold ms fuel (matches_iter.new (some pattern)) =
      (if ms.any (fun m => prefix_match fold pattern m.text) then
        ms.filter (fun m => prefix_match fold pattern m.text)
      else if ms.any (fun m => is_pathish m.type) then
        ms.filter (fun m => substring_match fold pattern m.text)
      else []) ∧
    matches_iter.collect fold ms fuel (matches_iter.new Option.none) = ms ∧
    (∀ text, prefix_match fold pattern text = true ↔
      pattern.map fold <+: text.map fold) ∧
    (∀ text, substring_match fold pattern text = true ↔
      pattern.map fold <:+: text.map fold) := by
  refine ⟨?_, ?_, prefix_match_iff fold pattern, substring_match_iff fold pattern⟩
  · by_cases hany : ms.any (fun m => prefix_match fold pattern m.text) = true
    · rw [if_pos hany]
      obtain ⟨m, hm, hp⟩ := List.any_eq_true.mp hany
      have := collect_tail fold ms ms [] (matches_iter.new (some pattern)) fuel rfl rfl
        (Or.inr ⟨m, hm, by simpa [matches_iter.accepts, matches_iter.new] using hp⟩) hfuel
      rw [this]
      apply List.filter_congr
      intro m' _
      simp [matches_iter.accepts, matches_iter.new]
    · rw [if_neg hany]
      have hnone : ∀ m ∈ ms, (matches_iter.new (some pattern)).accepts fold m = false := by
        intro m hm
        have : ¬ prefix_match fold pattern m.text = true := by
          intro hp
          exact hany (List.any_eq_true.mpr ⟨m, hm, hp⟩)
        simpa [matches_iter.accepts, matches_iter.new] using this
      obtain ⟨x, hx⟩ := scan_none fold ms (matches_iter.new (some pattern)) hnone
      obtain ⟨x1, x2, x3, x4⟩ := scan_false fold ms _ x hx
      obtain ⟨f, rfl⟩ : ∃ f, fuel = f + 1 := ⟨fuel - 1, by omega⟩
      have hfirst : matches_iter.next fold ms (matches_iter.new (some pattern)) =
          if ms.any (fun m => is_pathish m.type) then
            matches_iter.scan fold
              { x with m_substring := true, m_can_try_substring := false, m_index := 0,
                       m_next := 0 } ms
          else (false, x) := by
        have hdrop : ms.drop (matches_iter.new (some pattern)).m_next = ms := by
          simp [matches_iter.new]
        simp only [matches_iter.next, hdrop, hx, x1, x3, x4]
        simp [matches_iter.new]
      by_cases hpath : ms.any (fun m => is_pathish m.type) = true
      · rw [if_pos hpath]
        rw [if_pos hpath] at hfirst
        have hsecond : matches_iter.next fold ms
            { x with m_substring := true, m_can_try_substring := false, m_index := 0,
                     m_next := 0 } =
            matches_iter.scan fold
              { x with m_substring := true, m_can_try_substring := false, m_index := 0,
                       m_next := 0 } ms := by
          cases hsc : matches_iter.scan fold
              { x with m_substring := true, m_can_try_substring := false, m_index := 0,
                       m_next := 0 } ms with
          | mk b y =>
            cases b with
            | true => simp [matches_iter.next, hsc]
            | false =>
              obtain ⟨-, -, y3, -⟩ := scan_false fold ms _ y hsc
              simp only at y3
              simp [matches_iter.next, hsc, y3]
        have hcol : matches_iter.collect fold ms (f + 1) (matches_iter.new (some pattern)) =
            matches_iter.collect fold ms (f + 1)
              { x with m_substring := true, m_can_try_substring := false, m_index := 0,
                       m_next := 0 } := by
          simp only [matches_iter.collect, hfirst, hsecond]
        rw [hcol, collect_tail fold ms ms [] _ (f + 1) rfl rfl (Or.inl rfl) hfuel]
        apply List.filter_congr
        intro m' _
        simp [matches_iter.accepts, x1, matches_iter.new]
      · rw [if_neg hpath]
        rw [if_neg hpath] at hfirst
        simp only [matches_iter.collect, hfirst]
  · have := collect_tail fold ms ms [] (matches_iter.new Option.none) fuel rfl rfl
      (Or.inl rfl) hfuel
    rw [this]
    simp [matches_iter.accepts, matches_iter.new]

/-- C31 on the matches "abc" (word), "abcd" (file), "xyz" (file): the pattern
"ab" yields "abc" and "abcd", the pattern "q" yields nothing. -/
theorem matches_iter_yields_witness :
    matches_iter.collect id
        [⟨[97, 98, 99], match_type.word⟩, ⟨[97, 98, 99, 100], match_type.file⟩,
          ⟨[120, 121, 122], match_type.file⟩] 4 (matches_iter.new (some [97, 98])) =
      [⟨[97, 98, 99], match_type.word⟩, ⟨[97, 98, 99, 100], match_type.file⟩] ∧
    matches_iter.collect id
        [⟨[97, 98, 99], match_type.word⟩, ⟨[97, 98, 99, 100], match_type.file⟩,
          ⟨[120, 121, 122], match_type.file⟩] 4 (matches_iter.new (some [113])) = [] ∧
    matches_iter.collect id
        [⟨[97, 98, 99], match_type.word⟩, ⟨[97, 98, 99, 100], match_type.file⟩,
          ⟨[120, 121, 122], match_type.file⟩] 4 (matches_iter.new Option.none) =
      [⟨[97, 98, 99], match_type.word⟩, ⟨[97, 98, 99, 100], match_type.file⟩,
        ⟨[120, 121, 122], match_type.file⟩] :=
  ⟨by decide, by decide,
    (matches_iter_yields id
      [⟨[97, 98, 99], match_type.word⟩, ⟨[97, 98, 99, 100], match_type.file⟩,
        ⟨[120, 121, 122], match_type.file⟩] [97, 98] 4 (by decide)).2.1⟩

/-- C39 at a failing input: the move constructor hands the token table, the
face definitions, the face array and the line length of `other` to the new
object and clears `other`, but leaves the new object with an empty face map,
for every `other`.  On the source holding the one definition "A" with code 128
(built by `init` and `ensure_face`), `ensure_face("A")` returns 128 and changes
nothing, but on the object move-constructed from it `ensure_face("A")` returns
129 and appends a second definition "A". -/
theorem move_drops_face_map :
    (∀ other : word_classifications,
      (word_classifications.move other).1.m_face_map = [] ∧
      (word_classifications.move other).1.m_face_definitions = other.m_face_definitions ∧
      (word_classifications.move other).1.m_info = other.m_info ∧
      (word_classifications.move other).1.m_faces = other.m_faces ∧
      (word_classifications.move other).1.m_length = other.m_length ∧
      (word_classifications.move other).2 = ⟨[], [], Option.none, 0, []⟩) ∧
    word_classifications.ensure_face
        (word_classifications.init true ⟨[], [], Option.none, 0, []⟩ 1 face_defs_ptr.null)
        [65] =
      (128, ⟨[], [[65]], some [32], 1, [([65], 128)]⟩) ∧
    word_classifications.ensure_face ⟨[], [[65]], some [32], 1, [([65], 128)]⟩ [65] =
      (128, ⟨[], [[65]], some [32], 1, [([65], 128)]⟩) ∧
    word_classifications.move ⟨[], [[65]], some [32], 1, [([65], 128)]⟩ =
      (⟨[], [[65]], some [32], 1, []⟩, ⟨[], [], Option.none, 0, []⟩) ∧
    word_classifications.ensure_face
        (word_classifications.move ⟨[], [[65]], some [32], 1, [([65], 128)]⟩).1 [65] =
      (129, ⟨[], [[65], [65]], some [32], 1, [([65], 129)]⟩) := by
  refine ⟨?_, by decide, by decide, by decide, by decide⟩
  intro other
  exact ⟨rfl, rfl, rfl, rfl, rfl, rfl⟩

/-- C40 at a failing input: `unbreak_word(index, length, skip_word=true)` on
the last token of a table, which its guard `index < m_info.size()` accepts,
accesses the token `index + 1` outside the table, in both builds; on the
single token [0, 5) with index 0 this is the access to `m_info[1]`. -/
theorem unbreak_word_skip_last_token :
    (∀ (debug : Bool) (s : word_classifications) (index length : Nat),
      index + 1 = s.m_info.length →
      s.unbreak_word debug index length true = Outcome.out_of_range) ∧
    word_classifications.unbreak_word false
        ⟨[⟨0, 5, 255, false, false⟩], [], some [32, 32, 32, 32, 32], 5, []⟩ 0 2 true =
      Outcome.out_of_range ∧
    word_classifications.unbreak_word true
        ⟨[⟨0, 5, 255, false, false⟩], [], some [32, 32, 32, 32, 32], 5, []⟩ 0 2 true =
      Outcome.out_of_range := by
  refine ⟨?_, by decide, by decide⟩
  intro debug s index length h
  unfold word_classifications.unbreak_word
  rw [dif_pos (by omega)]
  simp only [if_true]
  rw [dif_neg (by omega)]

end Clink
